import Mathlib

/-!
# SUFT connection engine (`protocol/conn.go`)

A shallow embedding of the per-connection transport engine: the outbound and
inbound paths, the SACK codec, the RTT/RTO estimator and the congestion-window
controller, followed by theorems about them.

Conventions of the embedding.

* Go `int8`/`int32`/`int64` values are `Int`s; every arithmetic result is passed
  through `wrapI8`/`wrapI32`/`wrapI64` (two's complement wrap-around).  `uint32`,
  `uint16`, `byte` and `uint64` values are `Nat`s reduced modulo `2^w`.
* `x >> k` on a signed value is floor division by `2^k` (`shr`).
* `Now()` is an explicit argument `now` (milliseconds).
* A method on `*Conn` becomes a function from `Conn` to the new `Conn`.
  A Go panic or a wait that never ends is a `Fault`.
* The packet buffer pool (`bpool`, `packet.buffer`) and debug logging are not
  part of the state.
-/

namespace Suft

/-! ## Machine integers -/

/-- Two's complement wrap of an integer to `w` bits (signed). -/
def wrapI (w : Nat) (x : Int) : Int := (x + 2 ^ (w - 1)) % 2 ^ w - 2 ^ (w - 1)

/-- Go `int8(x)`. -/
def wrapI8 (x : Int) : Int := wrapI 8 x
/-- Go `int32(x)`. -/
def wrapI32 (x : Int) : Int := wrapI 32 x
/-- Go `int64(x)`. -/
def wrapI64 (x : Int) : Int := wrapI 64 x

/-- Go `uint32(x)` on a natural number. -/
def u32 (x : Nat) : Nat := x % 2 ^ 32

/-- Go `uint32(x)` on an integer. -/
def u32OfInt (x : Int) : Nat := (x % 2 ^ 32).toNat

/-- Go `byte(x)` on an integer. -/
def byteOfInt (x : Int) : Nat := (x % 256).toNat

/-- Go `uint16(x)` on an integer. -/
def u16OfInt (x : Int) : Nat := (x % 65536).toNat

/-- Go `x >> k` on a signed integer: arithmetic shift, i.e. floor division. -/
def shr (x : Int) (k : Nat) : Int := x / 2 ^ k

/-- Go `maxI64`/`maxI32`. -/
def maxI (a b : Int) : Int := if a > b then a else b

/-- Go `minI64`/`minI32`. -/
def minI (a b : Int) : Int := if a < b then a else b

/-- Go `maxU32`. -/
def maxU32 (a b : Nat) : Nat := if a > b then a else b

/-! ## Constants of `conn.go` -/

def MAX_RETRIES : Int := 6
def MIN_RTT : Int := 8
def MIN_RTO : Int := 30
def MIN_ATO : Int := 2
def MAX_ATO : Int := 30

def VACK_SCHED : Nat := 1
def VACK_QUICK : Nat := 2
def VACK_MUST : Nat := 3
def VSWND_ACTIVE : Nat := 4
def VRETR_IMMED : Nat := 5

def RETR_REST : Int := -1
def _CLOSE : Nat := 0xff

/-- Constants and process-wide configuration that `conn.go` reads but does not
declare (`MSS`, the header sizes, `_FIN_ACK_SEQ`, `S_FIN0`) together with the
package variables `bandwidth`, `fastRetransmitEnabled`, `superRetransmit`. -/
structure Params where
  MSS : Nat
  TH_SIZE : Nat
  CH_SIZE : Nat
  AH_SIZE : Nat
  bandwidth : Int
  fastRetransmitEnabled : Bool
  superRetransmit : Bool
  FIN_ACK_SEQ : Nat
  S_FIN0 : Nat
deriving DecidableEq, Repr

/-! ## Data model -/

/-- Modelled from the spec: the flag byte of a packet and the masks `F_DATA`,
`F_ACK`, `F_SACK`, `F_SYN`, `F_FIN`, `F_TIME` are declared outside `conn.go`; the
spec gives "a flag set drawn from {DATA, ACK, SACK, SYN, FIN, TIME}".  A test
`flag & F_X != 0` is the field `x`, and `flag |= F_X` sets it. -/
structure Flags where
  data : Bool := false
  ack : Bool := false
  sack : Bool := false
  syn : Bool := false
  fin : Bool := false
  time : Bool := false
deriving DecidableEq, Repr

/-- The flag value `F_DATA`. -/
def F_DATA : Flags := { data := true }
/-- The flag value `F_ACK`. -/
def F_ACK : Flags := { ack := true }
/-- The flag value `F_SACK`. -/
def F_SACK : Flags := { sack := true }

/-- A `packet`: 32-bit `seq` and `ack`, flags, the send count `scnt` (`int8`) and
the payload bytes. -/
structure Packet where
  seq : Nat := 0
  ack : Nat := 0
  flag : Flags := {}
  scnt : Int := 0
  payload : List Nat := []
deriving DecidableEq, Repr

/-- A `qNode`: a packet with the time of its last transmission (`sent`), of the
one before (`sent_1`) and the SACK miss count. -/
structure QNode where
  seq : Nat := 0
  ack : Nat := 0
  flag : Flags := {}
  scnt : Int := 0
  payload : List Nat := []
  sent : Int := 0
  sent_1 : Int := 0
  miss : Int := 0
deriving DecidableEq, Repr

/-- Go `nodeOf(pk)`, also `&qNode{packet: pk}`. -/
def nodeOf (pk : Packet) : QNode :=
  { seq := pk.seq, ack := pk.ack, flag := pk.flag, scnt := pk.scnt, payload := pk.payload }

/-- A buffered channel of bytes: its capacity and the values waiting in it. -/
structure Chan where
  cap : Nat := 1
  buf : List Nat := []
deriving DecidableEq, Repr

/-- Non-blocking send `select { case ch <- v: default: }`: the value is dropped
when the channel is full. -/
def Chan.trySend (ch : Chan) (v : Nat) : Chan :=
  if ch.buf.length < ch.cap then { ch with buf := ch.buf ++ [v] } else ch

/-- Blocking send `ch <- v`: it completes when the receiving loop takes the
value, which is recorded as handed over. -/
def Chan.send (ch : Chan) (v : Nat) : Chan := { ch with buf := ch.buf ++ [v] }

/-- The state of a `Conn`.  `dest` is `true` while the destination address is
set; `dead` records that `fakeShutdown` ran; `wire` lists the calls of
`sock.WriteToUDP` (the node written and whether `dest` was set);
`evReadClosed` tells that the channel `evRead` was closed. -/
structure Conn where
  outQ : List QNode := []
  inQ : List QNode := []
  lastIns : Option QNode := none
  inQReady : List Nat := []
  mySeq : Nat := 0
  lastReadSeq : Nat := 0
  inMaxCtnSeq : Nat := 0
  inQDirty : Bool := false
  cwnd : Int := 1
  swnd : Int := 1
  outPending : Int := 0
  missed : Int := 0
  rtt : Int := 8
  srtt : Int := 64
  mdev : Int := 0
  rto : Int := 30
  ato : Int := 2
  lastShrink : Int := 0
  lastAck : Nat := 0
  lastAckTime : Int := 0
  outPkCnt : Int := 0
  inPkCnt : Int := 0
  outDupCnt : Int := 0
  inDupCnt : Int := 0
  fRCnt : Int := 0
  rtmo : Int := 0
  wtmo : Int := 0
  outlock : Bool := false
  inlock : Bool := false
  evSend : Chan := {}
  evSWnd : Chan := {}
  evAck : Chan := {}
  evRead : Chan := {}
  evClose : Chan := {}
  evReadClosed : Bool := false
  dest : Bool := true
  dead : Bool := false
  wire : List (QNode × Bool) := []

/-- How a call can fail to return: a Go panic, a wait that never ends (a lock
already held, an empty channel nobody writes to), or the recursion bound of a
loop of the embedding. -/
inductive Fault where
  | panic
  | blocked
  | fuel
deriving DecidableEq, Repr

/-- The errors surfaced to callers: `io.EOF` and `ErrIOTimeout`. -/
inductive Err where
  | EOF
  | IOTimeout
deriving DecidableEq, Repr

/-! ## Outbound path -/

/-- Modelled from the spec: `fakeShutdown` is not in `conn.go`; the spec says
that on a FIN whose retry budget is exceeded "the connection is declared dead
and teardown proceeds".  It records the declaration and signals teardown on
`evClose`. -/
def fakeShutdown (P : Params) (c : Conn) : Conn :=
  { c with dead := true, evClose := c.evClose.trySend P.S_FIN0 }

/-- Go `Conn.internalWrite`: returns the connection and the node as updated. -/
def internalWrite (P : Params) (c : Conn) (item : QNode) (now : Int) :
    Except Fault (Conn × QNode) :=
  if item.scnt ≥ 20 then
    if item.flag.fin then
      .ok ({ fakeShutdown P c with dest := false }, item)
    else
      .error .panic
  else
    let item1 : QNode :=
      { item with sent := now, sent_1 := item.sent, scnt := wrapI8 (item.scnt + 1) }
    .ok ({ c with wire := c.wire ++ [(item1, c.dest)] }, item1)

/-- The admission loop of `inputAndSend` (`for c.outPending >= c.cwnd`), entered
with `outlock` held; the argument is the content of `evSend`.  The result is the
error returned from inside the loop, if any, and the connection. -/
def awaitWindow : List Nat → Conn → Except Fault (Option Err × Conn)
  | buf, c =>
    if c.outPending ≥ c.cwnd then
      let c1 : Conn := { c with outlock := false }
      if c1.wtmo > 0 then
        let c2 : Conn := { c1 with wtmo := 0 }
        match buf with
        | [] => .ok (some Err.IOTimeout, c2)
        | v :: rest =>
          let c3 : Conn := { c2 with evSend := { c2.evSend with buf := rest } }
          if v = _CLOSE then .ok (some Err.EOF, c3)
          else awaitWindow rest { c3 with outlock := true }
      else
        match buf with
        | [] => .error .blocked
        | v :: rest =>
          let c3 : Conn := { c1 with evSend := { c1.evSend with buf := rest } }
          if v = _CLOSE then .ok (some Err.EOF, c3)
          else awaitWindow rest { c3 with outlock := true }
    else .ok (none, c)

/-- Go `Conn.inputAndSend`. -/
def inputAndSend (P : Params) (c : Conn) (pk : Packet) (now : Int) :
    Except Fault (Option Err × Conn) :=
  if c.outlock then .error .blocked
  else
    match awaitWindow c.evSend.buf { c with outlock := true } with
    | .error f => .error f
    | .ok (some e, c1) => .ok (some e, c1)
    | .ok (none, c1) =>
      let c2 : Conn := { c1 with
        outPending := wrapI32 (c1.outPending + 1),
        outPkCnt := wrapI64 (c1.outPkCnt + 1),
        mySeq := u32 (c1.mySeq + 1) }
      let item : QNode := { nodeOf pk with seq := c2.mySeq }
      match internalWrite P c2 item now with
      | .error f => .error f
      | .ok (c3, item1) =>
        .ok (none, { c3 with
          outQ := c2.outQ ++ [item1],
          outlock := false,
          evSWnd := c3.evSWnd.send VSWND_ACTIVE })

/-- The loop of `Conn.Write`; `nr` is the count so far, `i` numbers the
iteration and `clock i` is the reading of `Now()` during it.  The pool buffer
has `MSS + AH_SIZE` bytes (`make([]byte, MSS+AH_SIZE)` in the source comment);
slicing it out of range panics. -/
def writeLoop (P : Params) (clock : Nat → Int) :
    Nat → Conn → List Nat → Nat → Nat → Except Fault (Nat × Option Err × Conn)
  | 0, c, data, nr, _ =>
    if data.length > 0 then .error .fuel else .ok (nr, none, c)
  | fuel + 1, c, data, nr, i =>
    if data.length > 0 then
      if P.TH_SIZE + P.CH_SIZE > P.MSS + P.AH_SIZE then .error .panic
      else
        let bodyLen := P.MSS + P.AH_SIZE - (P.TH_SIZE + P.CH_SIZE)
        let n := min bodyLen data.length
        if P.AH_SIZE + n > P.MSS + P.AH_SIZE then .error .panic
        else
          let pk : Packet := { flag := F_DATA, payload := data.take n }
          match inputAndSend P c pk (clock i) with
          | .error f => .error f
          | .ok (some e, c1) => .ok (nr + n, some e, c1)
          | .ok (none, c1) => writeLoop P clock fuel c1 (data.drop n) (nr + n) (i + 1)
    else .ok (nr, none, c)

/-- Go `Conn.Write`: returns `(nr, err)` and the connection. -/
def Write (P : Params) (clock : Nat → Int) (fuel : Nat) (c : Conn) (data : List Nat) :
    Except Fault (Nat × Option Err × Conn) :=
  writeLoop P clock fuel c data 0 0

/-! ## The packet queue

`conn.go` uses an ordered queue type (`outQ`, `inQ`) declared elsewhere.  A queue
is the list of its nodes from head to tail. -/

/-- Signed distance from `b` to `a` in the 32-bit sequence space. -/
def seqDist (a b : Nat) : Int := wrapI32 ((a : Int) - (b : Int))

/-- Modelled from the spec: the queue operation get-by-seq is not in `conn.go`;
it returns the node with the given `seq`, if any. -/
def qGet : List QNode → Nat → Option QNode
  | [], _ => none
  | n :: q, s => if n.seq = s then some n else qGet q s

/-- Modelled from the spec: the queue operation contains-seq is not in
`conn.go`. -/
def qContains (q : List QNode) (s : Nat) : Bool := (qGet q s).isSome

/-- Modelled from the spec: `isEqualsHead` is not in `conn.go`; it tells whether
the head of the queue has the given `seq`. -/
def isEqualsHead : List QNode → Nat → Bool
  | [], _ => false
  | n :: _, s => decide (n.seq = s)

/-- The queue split after the first node with the given `seq`: the prefix up to
and including that node, and what follows. -/
def splitAtSeq : List QNode → Nat → List QNode × List QNode
  | [], _ => ([], [])
  | n :: q, s =>
    if n.seq = s then ([n], q)
    else ((n :: (splitAtSeq q s).1), (splitAtSeq q s).2)

/-- The number of nodes not yet acknowledged (`scnt != -1`), as an `int32`. -/
def countLive : List QNode → Int
  | [] => 0
  | n :: q => if n.scnt ≠ -1 then wrapI32 (countLive q + 1) else countLive q

/-- Modelled from the spec: `deleteBefore` is not in `conn.go`; the spec gives
"delete-before (prune a prefix cumulatively acknowledged)" and "prune the entire
prefix up to and including that node".  The result is the removed prefix, the
number of removed nodes that were not already acknowledged, and the queue that
remains. -/
def deleteBefore (q : List QNode) (s : Nat) : List QNode × Int × List QNode :=
  ((splitAtSeq q s).1, countLive (splitAtSeq q s).1, (splitAtSeq q s).2)

/-! ## Acknowledgement processing -/

/-- Go `Conn.ackHit`, called with `outlock` held; it releases the lock and then
signals the writer. -/
def ackHit (c : Conn) (deleted missed : Int) (now : Int) : Conn :=
  let c1 : Conn := { c with outPending := wrapI32 (c.outPending - deleted) }
  let c2 : Conn :=
    if c1.cwnd < c1.swnd ∧ wrapI64 (now - c1.lastShrink) > c1.rtt then
      { c1 with cwnd := wrapI32 (c1.cwnd + shr c1.cwnd 1) }
    else c1
  let c3 : Conn := if c2.cwnd > c2.swnd then { c2 with cwnd := c2.swnd } else c2
  let c4 : Conn :=
    if missed ≥ c3.missed then { c3 with missed := missed }
    else { c3 with missed := shr (wrapI32 (c3.missed + missed)) 1 }
  let c5 : Conn := { c4 with cwnd := wrapI32 (c4.cwnd + c4.missed) }
  { c5 with outlock := false, evSend := c5.evSend.trySend 1 }

/-- Go `Conn.logAck`. -/
def logAck (c : Conn) (ack : Nat) (now : Int) : Conn :=
  { c with lastAck := ack, lastAckTime := now }

/-- Go `Conn.makeLastAck`; it takes `inlock` for the duration of the call. -/
def makeLastAck (c : Conn) (now : Int) : Except Fault (Conn × Option Packet) :=
  if c.inlock then .error .blocked
  else if wrapI64 (now - c.lastAckTime) < c.rtt then .ok (c, none)
  else
    let pk : Packet := { ack := maxU32 c.lastAck c.inMaxCtnSeq, flag := F_ACK }
    .ok (logAck c pk.ack now, some pk)

/-- Go `Conn.processAck`. -/
def processAck (P : Params) (c : Conn) (pk : Packet) (now : Int) : Except Fault Conn :=
  if c.outlock then .error .blocked
  else
    let c0 : Conn := { c with outlock := true }
    match qGet c0.outQ pk.ack with
    | some e =>
      let c1 : Conn := ackHit { c0 with outQ := (deleteBefore c0.outQ e.seq).2.2 }
        (deleteBefore c0.outQ e.seq).2.1 0 now
      if pk.seq = P.FIN_ACK_SEQ then
        .ok { c1 with evClose := c1.evClose.trySend P.S_FIN0 }
      else .ok c1
    | none =>
      if pk.flag.syn then
        match makeLastAck c0 now with
        | .error f => .error f
        | .ok (c1, none) => .ok { c1 with outlock := false }
        | .ok (c1, some pkAck) =>
          match internalWrite P c1 (nodeOf pkAck) now with
          | .error f => .error f
          | .ok (c2, _) => .ok { c2 with outlock := false }
      else .ok { c0 with outlock := false }

/-! ## Retransmission -/

/-- The scan loop of `Conn.retransmit` over the queue nodes; `rto` is the value
read before the loop.  Returns the connection, the nodes as updated, `rest` and
`count`. -/
def retransmitScan (P : Params) (now rto : Int) :
    List QNode → Conn → Int → Int → Int → Except Fault (Conn × List QNode × Int × Int)
  | [], c, rest, count, _ => .ok (c, [], rest, count)
  | item :: q, c, rest, count, limit =>
    if limit > 0 then
      if item.scnt ≠ -1 then
        let diff := wrapI64 (now - item.sent)
        if diff > rto then
          match internalWrite P c item now with
          | .error f => .error f
          | .ok (c1, item1) =>
            match retransmitScan P now rto q c1 rest (wrapI32 (count + 1)) limit with
            | .error f => .error f
            | .ok (c2, q1, r, k) => .ok (c2, item1 :: q1, r, k)
        else
          let rest1 : Int :=
            if rest > 0 then minI rest (wrapI64 (wrapI64 (rto - diff) + 1))
            else wrapI64 (wrapI64 (rto - diff) + 1)
          match retransmitScan P now rto q c rest1 count (wrapI32 (limit - 1)) with
          | .error f => .error f
          | .ok (c2, q1, r, k) => .ok (c2, item :: q1, r, k)
      else
        match retransmitScan P now rto q c rest count limit with
        | .error f => .error f
        | .ok (c2, q1, r, k) => .ok (c2, item :: q1, r, k)
    else .ok (c, item :: q, rest, count)

/-- The congestion response at the end of `Conn.retransmit`, given `count`. -/
def shrinkOnRto (P : Params) (c : Conn) (count : Int) (now : Int) : Conn :=
  if count > 0 then
    let shrcond : Bool :=
      (P.fastRetransmitEnabled && decide (count > shr c.cwnd 3)) ||
      (!P.fastRetransmitEnabled && decide (count > shr c.cwnd 2))
    if shrcond && !P.superRetransmit then
      { c with lastShrink := now, cwnd := maxI (shr c.cwnd 1) (shr c.swnd 1) }
    else c
  else c

/-- Go `Conn.retransmit`, called with `outlock` held: returns `(rest, count)`
and the connection. -/
def retransmit (P : Params) (c : Conn) (now : Int) : Except Fault (Int × Int × Conn) :=
  match retransmitScan P now c.rto c.outQ c 0 0 c.cwnd with
  | .error f => .error f
  | .ok (c1, q1, rest, count) =>
    let c2 : Conn := { c1 with outQ := q1, outDupCnt := wrapI64 (c1.outDupCnt + count) }
    let c3 : Conn := shrinkOnRto P c2 count now
    if c3.outQ.length > 0 then .ok (rest, count, c3)
    else .ok (RETR_REST, 0, c3)

/-- The scan loop of `Conn.retransmit2`. -/
def retransmit2Scan (P : Params) (now fRtt limit : Int) :
    List QNode → Conn → Int → Except Fault (Conn × List QNode × Int)
  | [], c, count => .ok (c, [], count)
  | item :: q, c, count =>
    if count < limit then
      if item.scnt ≠ -1 ∧ item.miss ≥ 3 ∧ wrapI64 (now - item.sent) ≥ fRtt then
        match internalWrite P c item now with
        | .error f => .error f
        | .ok (c1, item1) =>
          let c2 : Conn := { c1 with fRCnt := wrapI64 (c1.fRCnt + 1) }
          match retransmit2Scan P now fRtt limit q c2 (wrapI32 (count + 1)) with
          | .error f => .error f
          | .ok (c3, q1, k) => .ok (c3, item1 :: q1, k)
      else
        match retransmit2Scan P now fRtt limit q c count with
        | .error f => .error f
        | .ok (c3, q1, k) => .ok (c3, item :: q1, k)
    else .ok (c, item :: q, count)

/-- Go `Conn.retransmit2`, called with `outlock` held: returns `count` and the
connection. -/
def retransmit2 (P : Params) (c : Conn) (now : Int) : Except Fault (Int × Conn) :=
  let fRtt : Int := wrapI64 (c.rtt + maxI (shr c.rtt 4) 1)
  let limit : Int := maxI (minI (wrapI32 (c.cwnd - c.outPending)) (shr c.cwnd 2)) 8
  match retransmit2Scan P now fRtt limit c.outQ c 0 with
  | .error f => .error f
  | .ok (c1, q1, count) =>
    .ok (count, { c1 with outQ := q1, outDupCnt := wrapI64 (c1.outDupCnt + count) })

/-! ## SACK codec -/

/-- Go `binary.BigEndian.PutUint16`: the two bytes written. -/
def putUint16 (v : Nat) : List Nat := [v / 256 % 256, v % 256]

/-- Go `binary.BigEndian.PutUint64`: the eight bytes written. -/
def putUint64 (v : Nat) : List Nat :=
  [v / 2 ^ 56 % 256, v / 2 ^ 48 % 256, v / 2 ^ 40 % 256, v / 2 ^ 32 % 256,
   v / 2 ^ 24 % 256, v / 2 ^ 16 % 256, v / 2 ^ 8 % 256, v % 256]

/-- The big-endian value of a byte string. -/
def beValue (b : List Nat) : Nat := b.foldl (fun acc x => acc * 256 + x) 0

/-- Go `binary.BigEndian.Uint16`: it panics on fewer than two bytes. -/
def getUint16 (b : List Nat) : Except Fault Nat :=
  if b.length < 2 then .error .panic else .ok (beValue (b.take 2))

/-- Go `binary.BigEndian.Uint64`: it panics on fewer than eight bytes. -/
def getUint64 (b : List Nat) : Except Fault Nat :=
  if b.length < 8 then .error .panic else .ok (beValue (b.take 8))

/-- Modelled from the spec: `makeHolesBitmap` is not in `conn.go`; the spec says
it "scans the inbound queue starting from `predecessor + 1` and returns a bitmap
where bit i set means seq = predecessor + 1 + i was received", grouped into
64-bit words, with `tbl` the number of words.  An empty bitmap means that
nothing beyond `predecessor` is queued. -/
def makeHolesBitmap (q : List QNode) (predecessor : Nat) : List Nat × Nat :=
  let offs : List Nat := q.filterMap (fun n =>
    if seqDist n.seq (u32 (predecessor + 1)) ≥ 0
    then some (seqDist n.seq (u32 (predecessor + 1))).toNat else none)
  if offs.isEmpty then ([], 0)
  else
    let nw := offs.foldl max 0 / 64 + 1
    ((List.range nw).map (fun j =>
      (List.range 64).foldl (fun acc b => if (j * 64 + b) ∈ offs then acc + 2 ^ b else acc) 0),
     nw)

/-- Go `Conn.makeAck`, called with `inlock` held.  `holes` stands for the queue
method `makeHolesBitmap`, which `conn.go` calls but does not declare. -/
def makeAck (holes : List QNode → Nat → List Nat × Nat) (c : Conn) (demand : Nat)
    (now : Int) : Conn × Option Packet :=
  if demand < VACK_MUST ∧ wrapI64 (now - c.lastAckTime) < c.ato then (c, none)
  else
    let predecessor := c.inMaxCtnSeq
    let fakeSAck : Bool := decide ((holes c.inQ predecessor).1.length ≤ 0)
    let bmap : List Nat := if fakeSAck then [1] else (holes c.inQ predecessor).1
    let tbl : Nat := if fakeSAck then 1 else (holes c.inQ predecessor).2
    let ack : Nat :=
      if fakeSAck then u32 (u32 (predecessor + 1) + (2 ^ 32 - 1)) else u32 (predecessor + 1)
    let pk0 : Packet := { ack := ack, flag := F_SACK }
    let pk1 : Packet × List Nat :=
      match c.lastIns with
      | some trp =>
        let delayed := wrapI64 (now - trp.sent)
        if delayed < c.rtt then
          ({ pk0 with seq := trp.seq, flag := { pk0.flag with time := true } },
           byteOfInt trp.scnt :: putUint16 (u16OfInt (if delayed ≤ 0 then 1 else delayed)))
        else (pk0, [0, 0, 0])
      | none => (pk0, [0, 0, 0])
    let buf : List Nat := (tbl % 256) :: pk1.2 ++ (bmap.map putUint64).flatten
    (logAck c predecessor now, some { pk1.1 with payload := buf })

/-- The loop of `unmarshallSAck` reading `k` 64-bit words. -/
def readWords : Nat → List Nat → Except Fault (List Nat)
  | 0, _ => .ok []
  | k + 1, d =>
    match getUint64 d with
    | .error f => .error f
    | .ok w =>
      match readWords k (d.drop 8) with
      | .error f => .error f
      | .ok ws => .ok (w :: ws)

/-- Go `unmarshallSAck`: `bmap` (`none` is Go's nil slice), `tbl`, `delayed` and
`scnt`.  Indexing or slicing out of range panics. -/
def unmarshallSAck (data : List Nat) :
    Except Fault (Option (List Nat) × Nat × Nat × Int) :=
  if data.length > 0 then
    match data with
    | b0 :: b1 :: rest =>
      match getUint16 rest with
      | .error f => .error f
      | .ok delayed =>
        match readWords (data.length / 8) (data.drop 4) with
        | .error f => .error f
        | .ok bmap => .ok (some bmap, b0, delayed, wrapI8 b1)
    | _ => .error .panic
  else .ok (none, 0, 0, 0)

/-! ## Estimator -/

/-- Go `calSwnd`. -/
def calSwnd (P : Params) (rtt : Int) : Int :=
  let w := wrapI32 (Int.tdiv (wrapI64 (P.bandwidth * rtt)) (8000 * P.MSS))
  if w ≤ 640 then w else 640

/-- The body of `Conn.measure` once the send time `lastSent` is chosen. -/
def measureSample (P : Params) (c : Conn) (lastSent delayed now : Int) : Conn :=
  let rtt := wrapI64 (wrapI64 (now - lastSent) - delayed)
  if rtt < maxI (shr c.rtt 3) 1 ∨ delayed > shr c.rtt 1 then c
  else
    let err := wrapI64 (rtt - shr c.srtt 3)
    let srtt1 := wrapI64 (c.srtt + err)
    let rtt1 : Int := if shr srtt1 3 < MIN_RTT then MIN_RTT else shr srtt1 3
    let swnd := wrapI32 (wrapI32 (wrapI32 (c.swnd * 2 ^ 3) - c.swnd) + calSwnd P rtt1)
    let ato1 : Int := if shr rtt1 4 < MIN_ATO then MIN_ATO else shr rtt1 4
    let err1 : Int :=
      if err < 0 then
        let e := wrapI64 (wrapI64 (-err) - shr c.mdev 2)
        if e > 0 then shr e 3 else e
      else wrapI64 (err - shr c.mdev 2)
    let mdev1 := wrapI64 (c.mdev + err1)
    let rto := wrapI64 (rtt1 + maxI (wrapI64 (rtt1 * 2)) mdev1)
    let rto1 : Int := if rto ≥ c.rto then rto else shr (wrapI64 (c.rto + rto)) 1
    { c with
      srtt := srtt1, rtt := rtt1, swnd := shr swnd 3, ato := ato1, mdev := mdev1,
      rto := if rto1 < MIN_RTO then MIN_RTO else rto1 }

/-- Go `Conn.measure`. -/
def measure (P : Params) (c : Conn) (seq : Nat) (delayed scnt now : Int) : Conn :=
  match qGet c.outQ seq with
  | none => c
  | some target =>
    if wrapI8 (target.scnt - scnt) = 0 then measureSample P c target.sent delayed now
    else if wrapI8 (target.scnt - scnt) = 1 then measureSample P c target.sent_1 delayed now
    else c

/-- The send time that the `switch target.scnt - scnt` of `measure` selects:
`target.sent` when the packet was not sent again since the ACK left,
`target.sent_1` when it was sent once more; none when the packet is not queued
or was sent more often (`measure` returns there). -/
def measureLastSent (c : Conn) (seq : Nat) (scnt : Int) : Option Int :=
  match qGet c.outQ seq with
  | none => none
  | some target =>
    if wrapI8 (target.scnt - scnt) = 0 then some target.sent
    else if wrapI8 (target.scnt - scnt) = 1 then some target.sent_1
    else none

/-- The sample `rtt := Now() - lastSent - delayed` of `measure`. -/
def sampleRtt (lastSent delayed now : Int) : Int := wrapI64 (wrapI64 (now - lastSent) - delayed)

/-- Whether a call of `measure` accepts its sample: a send time is selected and
the test `rtt < maxI64(c.rtt>>3, 1) || delayed > c.rtt>>1` does not reject it. -/
def measureAccepts (c : Conn) (seq : Nat) (delayed scnt now : Int) : Bool :=
  match measureLastSent c seq scnt with
  | none => false
  | some lastSent =>
    !decide (sampleRtt lastSent delayed now < maxI (shr c.rtt 3) 1 ∨ delayed > shr c.rtt 1)

/-! ## SACK processing -/

/-- Bit `i` of a bitmap of 64-bit words. -/
def bitAt (bmap : List Nat) (i : Nat) : Bool := Nat.testBit (bmap.getD (i / 64) 0) (i % 64)

/-- The walk of `deleteByBitmap` over the queue: `kept` is the part of the queue
retained so far, `gap` tells whether a cleared bit was met. -/
def applyBitmap (bmap : List Nat) (base : Nat) (nbits : Int) :
    List QNode → List QNode → Bool → Int → Int → Bool → List QNode × Int × Int × Bool
  | [], kept, _, deleted, missed, cont => (kept, deleted, missed, cont)
  | n :: q, kept, gap, deleted, missed, cont =>
    if seqDist n.seq base < 0 ∨ seqDist n.seq base ≥ nbits then
      applyBitmap bmap base nbits q (kept ++ [n]) gap deleted missed cont
    else if bitAt bmap (seqDist n.seq base).toNat then
      if gap then
        applyBitmap bmap base nbits q (kept ++ [{ n with scnt := -1 }]) gap
          (if n.scnt ≠ -1 then wrapI32 (deleted + 1) else deleted) missed false
      else
        applyBitmap bmap base nbits q [] gap
          (wrapI32 (deleted + countLive (kept ++ [n]))) missed cont
    else
      applyBitmap bmap base nbits q
        (kept ++ [if n.scnt ≠ -1 then { n with miss := n.miss + 1 } else n]) true deleted
        (if n.scnt ≠ -1 then wrapI32 (missed + 1) else missed) cont

/-- Modelled from the spec: `deleteByBitmap` is not in `conn.go`; the spec says it
"walks the outbound queue from seq `base`, consuming bits of `bmap`: set bit →
delete (cumulative or selective); cleared bit → increment target's `miss`, track
as a gap", and returns `(deleted, missed, continuous)` where `continuous` is
false iff a gap was observed before the last set bit.  A cumulative deletion
prunes the queue up to the node, a selective one marks it `scnt = -1`.  The
result is the new queue followed by the three values. -/
def deleteByBitmap (q : List QNode) (bmap : List Nat) (base tbl : Nat) :
    List QNode × Int × Int × Bool :=
  applyBitmap bmap base ((min tbl bmap.length * 64 : Nat) : Int) q [] false 0 0 true

/-- Go `Conn.processSAck`. -/
def processSAck (P : Params) (c : Conn) (pk : Packet) (now : Int) : Except Fault Conn :=
  if c.outlock then .error .blocked
  else
    let c0 : Conn := { c with outlock := true }
    match unmarshallSAck pk.payload with
    | .error f => .error f
    | .ok (none, _, _, _) => .ok c0
    | .ok (some bmap, tbl, delayed, scnt) =>
      let c1 : Conn := if pk.flag.time then measure P c0 pk.seq delayed scnt now else c0
      let r := deleteByBitmap c1.outQ bmap pk.ack tbl
      let c2 : Conn := { c1 with outQ := r.1 }
      let c3 : Conn :=
        if P.fastRetransmitEnabled && !r.2.2.2 then
          { c2 with evSWnd := c2.evSWnd.trySend VRETR_IMMED }
        else c2
      if r.2.1 > 0 then .ok (ackHit c3 r.2.1 r.2.2.1 now)
      else .ok { c3 with outlock := false }

/-! ## Inbound path -/

/-- Ordered insertion of `n` behind the node `pred` (its `seq`): returns the new
queue and the distance of `n` from the node it lands behind. -/
def insertOrd : List QNode → QNode → Nat → List QNode × Int
  | [], n, pred => ([n], seqDist n.seq pred)
  | m :: q, n, pred =>
    if seqDist n.seq m.seq < 0 then (n :: m :: q, seqDist n.seq pred)
    else (m :: (insertOrd q n m.seq).1, (insertOrd q n m.seq).2)

/-- Modelled from the spec: `searchInsert` is not in `conn.go`; the spec
classifies an arriving packet against `lastReadSeq` ("32-bit unsigned with
modular comparison"): `dis = 0` when seq ≤ `lastReadSeq` or the seq is already
queued, and then nothing is inserted; `dis = 1` when the seq is exactly one past
the node it lands behind; `dis > 1` for an out-of-order insertion. -/
def searchInsert (q : List QNode) (n : QNode) (baseHead : Nat) : List QNode × Int :=
  if seqDist n.seq baseHead ≤ 0 ∨ qContains q n.seq then (q, 0)
  else insertOrd q n baseHead

/-- The last node of the run of consecutive seqs that starts with `m`. -/
def runEnd : List QNode → QNode → QNode
  | [], m => m
  | n :: q, m => if n.seq = u32 (m.seq + 1) then runEnd q n else m

/-- Modelled from the spec: `searchMaxContinued` is not in `conn.go`; the spec
says it re-scans "forward from `lastReadSeq+1` for the maximal contiguous run".
It returns the last node of that run and whether the run exists. -/
def searchMaxContinued : List QNode → Nat → Option QNode × Bool
  | [], _ => (none, false)
  | n :: q, base => if n.seq = base then (some (runEnd q n), true) else searchMaxContinued q base

/-- Go `Conn.insertData`; `inlock` is taken on entry and released on every
return (`defer`).  A send on the closed channel `evRead` panics. -/
def insertData (c : Conn) (pk : Packet) (now : Int) : Except Fault Conn :=
  if c.inlock then .error .blocked
  else
    if qContains c.inQ pk.seq || decide (pk.seq ≤ c.inMaxCtnSeq) then
      .ok { c with
        evAck := c.evAck.trySend VACK_MUST,
        inDupCnt := wrapI64 (c.inDupCnt + 1) }
    else
      let item : QNode := { nodeOf pk with sent := now }
      let r := searchInsert c.inQ item c.lastReadSeq
      let c1 : Conn := { c with inQ := r.1 }
      if r.2 = 0 then
        .ok { c1 with inDupCnt := wrapI64 (c1.inDupCnt + 1) }
      else
        let upd : Conn × Nat × Bool :=
          if r.2 = 1 then
            if c1.inQDirty then
              match searchMaxContinued c1.inQ (u32 (c1.lastReadSeq + 1)) with
              | (some mx, true) =>
                ({ c1 with
                    inMaxCtnSeq := mx.seq,
                    inQDirty :=
                      if c1.inQ.getLast? = some mx then false else c1.inQDirty },
                 VACK_MUST, true)
              | _ => (c1, VACK_MUST, false)
            else ({ c1 with inMaxCtnSeq := pk.seq }, VACK_QUICK, true)
          else ({ c1 with inQDirty := true }, VACK_MUST, false)
        let c2 : Conn := { upd.1 with
          inPkCnt := wrapI64 (upd.1.inPkCnt + 1),
          lastIns := some item,
          evAck := upd.1.evAck.trySend upd.2.1 }
        if upd.2.2 then
          if c2.evReadClosed then .error .panic
          else .ok { c2 with evRead := c2.evRead.trySend 1 }
        else .ok c2

/-- Go `Conn.readInQ`: whether bytes were promoted, and the connection.  The
queue lookup of `inMaxCtnSeq` returning nil makes `deleteBefore` dereference
nil. -/
def readInQ (c : Conn) : Except Fault (Bool × Conn) :=
  if c.inlock then .error .blocked
  else
    if isEqualsHead c.inQ (u32 (c.lastReadSeq + 1)) && decide (c.lastReadSeq < c.inMaxCtnSeq) then
      match qGet c.inQ c.inMaxCtnSeq with
      | none => .error .panic
      | some a =>
        .ok (true, { c with
          lastReadSeq := c.inMaxCtnSeq,
          inQ := (deleteBefore c.inQ a.seq).2.2,
          inQReady := c.inQReady ++ ((deleteBefore c.inQ a.seq).1.map (fun i => i.payload)).flatten })
    else .ok (false, c)

/-- Go `copy(buf, src)`: the number of bytes copied and the buffer after it. -/
def copyInto (buf src : List Nat) : Nat × List Nat :=
  (min buf.length src.length,
   src.take (min buf.length src.length) ++ buf.drop (min buf.length src.length))

/-- Go `Conn.Read`: returns `(nr, err)`, the caller's buffer and the connection.
A receive on `evRead` takes the next waiting value, or reports the channel
closed; with a read deadline the timer fires when neither is there, without one
the wait never ends. -/
def Read : Nat → Conn → List Nat → Except Fault (Nat × Option Err × List Nat × Conn)
  | 0, _, _ => .error .fuel
  | fuel + 1, c, buf =>
    if c.inQReady.length > 0 then
      .ok ((copyInto buf c.inQReady).1, none, (copyInto buf c.inQReady).2,
        { c with inQReady := c.inQReady.drop (copyInto buf c.inQReady).1 })
    else
      match readInQ c with
      | .error f => .error f
      | .ok (true, c1) => Read fuel c1 buf
      | .ok (false, c1) =>
        if c1.rtmo > 0 then
          let c2 : Conn := { c1 with rtmo := 0 }
          match c2.evRead.buf with
          | _ :: rest => Read fuel { c2 with evRead := { c2.evRead with buf := rest } } buf
          | [] =>
            if c2.evReadClosed then
              if c2.inQReady.length = 0 then .ok (0, some Err.EOF, buf, c2)
              else Read fuel c2 buf
            else .ok (0, some Err.IOTimeout, buf, c2)
        else
          match c1.evRead.buf with
          | _ :: rest => Read fuel { c1 with evRead := { c1.evRead with buf := rest } } buf
          | [] =>
            if c1.evReadClosed then
              if c1.inQReady.length = 0 then .ok (0, some Err.EOF, buf, c1)
              else Read fuel c1 buf
            else .error .blocked

/-- Successive calls of `Read` by one caller, one per destination buffer: the
bytes the calls returned (`buf[0..n)` of each), concatenated, and the
connection. -/
def readAll (fuel : Nat) : List (List Nat) → Conn → Except Fault (List Nat × Conn)
  | [], c => .ok ([], c)
  | buf :: bufs, c =>
    match Read fuel c buf with
    | .error f => .error f
    | .ok (n, _, buf1, c1) =>
      match readAll fuel bufs c1 with
      | .error f => .error f
      | .ok (bs, c2) => .ok (buf1.take n ++ bs, c2)

/-- The outbound queue and the outbound bookkeeping of a connection:
`outQ`, `outPending`, `cwnd`, `missed`, `outPkCnt`, `outDupCnt`, `fRCnt`. -/
def outView (c : Conn) : List QNode × Int × Int × Int × Int × Int × Int :=
  (c.outQ, c.outPending, c.cwnd, c.missed, c.outPkCnt, c.outDupCnt, c.fRCnt)

/-! ## The send loop and the ACK loop -/

/-- Modelled from the spec: the timer type (`NewTimer`, `Reset`, `Stop`,
`TryActive`) is not in `conn.go`; the spec says "each timer supports Reset(d),
Stop(), TryActive(d) (activate only if currently inactive or expired)" and "a
stopped timer never fires".  A timer is whether it is armed and its period; its
firing is an event of the loop that owns it. -/
structure Timer where
  active : Bool := true
  period : Int := 0
deriving DecidableEq, Repr

/-- Timer `Reset(d)`. -/
def Timer.Reset (_t : Timer) (d : Int) : Timer := { active := true, period := d }

/-- Timer `Stop()`. -/
def Timer.Stop (t : Timer) : Timer := { t with active := false }

/-- Timer `TryActive(d)`. -/
def Timer.TryActive (t : Timer) (d : Int) : Timer :=
  if t.active then t else { active := true, period := d }

/-- What a loop's `select` receives: its timer firing, or a byte from its
control channel. -/
inductive LoopEv where
  | timer
  | recv (v : Nat)
deriving DecidableEq, Repr

/-- The arm `case v = <-c.evAck` of `internalAckLoop`: `none` when the loop
returns, otherwise the level handed to `makeAck` and the new `lastAckState`. -/
def ackDemand (lastAckState v : Nat) : Option (Nat × Nat) :=
  if lastAckState ≠ v then some (VACK_MUST, VACK_MUST)
  else if v = _CLOSE then none
  else some (v, v)

/-- The state of a run of `internalAckLoop`: whether the loop has returned, its
local `lastAckState`, its timer, the connection, and the levels it has handed to
`makeAck` so far. -/
structure AckLoopState where
  exited : Bool := false
  lastAckState : Nat := 0
  timer : Timer := {}
  conn : Conn := {}
  levels : List Nat := []

/-- The `select` of `internalAckLoop`: `none` when nothing is received (a timer
that is not armed does not fire), `some none` when the loop returns, otherwise
the level for `makeAck`, the new `lastAckState` and the timer. -/
def ackLoopSelect (s : AckLoopState) (ev : LoopEv) : Option (Option (Nat × Nat × Timer)) :=
  match ev with
  | LoopEv.timer =>
    if s.timer.active then
      some (some (VACK_MUST, s.lastAckState, { s.timer with active := false }))
    else none
  | LoopEv.recv v =>
    match ackDemand s.lastAckState v with
    | none => some none
    | some (lv, last) => some (some (lv, last, s.timer.TryActive s.conn.ato))

/-- The part of `internalAckLoop` after its `select`: under `inlock`, `makeAck`
and, when it yields a packet, `internalWrite`. -/
def ackLoopEmit (holes : List QNode → Nat → List Nat × Nat) (P : Params) (c : Conn)
    (lv : Nat) (now : Int) : Except Fault Conn :=
  if c.inlock then .error .blocked
  else
    match (makeAck holes { c with inlock := true } lv now).2 with
    | none => .ok { (makeAck holes { c with inlock := true } lv now).1 with inlock := false }
    | some pkAck =>
      match internalWrite P (makeAck holes { c with inlock := true } lv now).1
          (nodeOf pkAck) now with
      | .error f => .error f
      | .ok (c2, _) => .ok { c2 with inlock := false }

/-- Go `Conn.internalAckLoop`, run over the events its `select` receives, each
with the clock reading at that moment. -/
def internalAckLoop (holes : List QNode → Nat → List Nat × Nat) (P : Params) :
    List (LoopEv × Int) → AckLoopState → Except Fault AckLoopState
  | [], s => .ok s
  | (ev, now) :: rest, s =>
    if s.exited then .ok s
    else
      match ackLoopSelect s ev with
      | none => internalAckLoop holes P rest s
      | some none => .ok { s with exited := true, timer := s.timer.TryActive s.conn.ato }
      | some (some (lv, last, t)) =>
        match ackLoopEmit holes P s.conn lv now with
        | .error f => .error f
        | .ok c1 =>
          internalAckLoop holes P rest
            { exited := false, lastAckState := last, timer := t, conn := c1,
              levels := s.levels ++ [lv] }

/-- The state of a run of `internalSendLoop`: whether the loop has returned, its
timer, and the connection. -/
structure SendLoopState where
  exited : Bool := false
  timer : Timer := {}
  conn : Conn := {}

/-- One turn of the `select` of `internalSendLoop`. -/
def sendLoopStep (P : Params) (s : SendLoopState) (ev : LoopEv) (now : Int) :
    Except Fault SendLoopState :=
  match ev with
  | LoopEv.recv v =>
    if v = VRETR_IMMED then
      if s.conn.outlock then .error .blocked
      else
        match retransmit2 P { s.conn with outlock := true } now with
        | .error f => .error f
        | .ok (_, c1) => .ok { s with conn := { c1 with outlock := false } }
    else if v = VSWND_ACTIVE then .ok { s with timer := s.timer.TryActive s.conn.rtt }
    else if v = _CLOSE then .ok { s with exited := true }
    else .ok s
  | LoopEv.timer =>
    if s.timer.active then
      if s.conn.outlock then .error .blocked
      else
        match retransmit P { s.conn with outlock := true } now with
        | .error f => .error f
        | .ok (rest, _, c1) =>
          if rest = RETR_REST ∨ rest = 0 then
            if c1.outQ.length > 0 then
              .ok { s with timer := s.timer.Reset c1.rtt, conn := { c1 with outlock := false } }
            else
              .ok { s with
                timer := s.timer.Stop,
                conn := { c1 with outlock := false, evSend := c1.evSend.trySend 1 } }
          else
            .ok { s with
              timer := s.timer.Reset (minI rest c1.rtt), conn := { c1 with outlock := false } }
    else .ok s

/-- Go `Conn.internalSendLoop`, run over the events its `select` receives. -/
def internalSendLoop (P : Params) :
    List (LoopEv × Int) → SendLoopState → Except Fault SendLoopState
  | [], s => .ok s
  | (ev, now) :: rest, s =>
    if s.exited then .ok s
    else
      match sendLoopStep P s ev now with
      | .error f => .error f
      | .ok s1 => internalSendLoop P rest s1

/-! ## Names for the quantities of `retransmit2`, and runs of `ackHit` -/

/-- The local `limit` of `retransmit2`: `max(min(cwnd - outPending, cwnd>>2), 8)`. -/
def frLimit (c : Conn) : Int :=
  maxI (minI (wrapI32 (c.cwnd - c.outPending)) (shr c.cwnd 2)) 8

/-- The local `fRtt` of `retransmit2`: `rtt + max(rtt>>4, 1)`. -/
def frRtt (c : Conn) : Int := wrapI64 (c.rtt + maxI (shr c.rtt 4) 1)

/-- The test `retransmit2` applies to a node: not acknowledged, `miss >= 3`, and
`now - sent >= fRtt`. -/
def frEligible (c : Conn) (now : Int) (n : QNode) : Bool :=
  decide (n.scnt ≠ -1 ∧ n.miss ≥ 3 ∧ wrapI64 (now - n.sent) ≥ frRtt c)

/-- The node as a call of `internalWrite` at time `now` leaves it. -/
def sentNode (n : QNode) (now : Int) : QNode :=
  if n.scnt ≥ 20 then n
  else { n with sent := now, sent_1 := n.sent, scnt := wrapI8 (n.scnt + 1) }

/-- The test of the RTO scan that hands a node to `internalWrite`: the node is
not acknowledged and `now - sent > rto`. -/
def rtoDue (now rto : Int) (n : QNode) : Bool :=
  decide (n.scnt ≠ -1 ∧ wrapI64 (now - n.sent) > rto)

/-- The nodes that the scan loop of `retransmit` visits: `limit` goes down by one
at each unacknowledged node that is not yet due, and the loop ends when it
reaches 0. -/
def rtoVisited (now rto : Int) : List QNode → Int → List QNode
  | [], _ => []
  | n :: q, limit =>
    if limit > 0 then
      n :: rtoVisited now rto q
        (if n.scnt ≠ -1 ∧ ¬ wrapI64 (now - n.sent) > rto then limit - 1 else limit)
    else []

/-- Whether `internalWrite` reaches `WriteToUDP` for the node: its send count is
below the bound of 20. -/
def canSend (n : QNode) : Bool := decide (n.scnt < 20)

/-- Successive calls `ackHit(deleted, 0)`, one per pair `(deleted, now)`. -/
def ackHitRun : List (Int × Int) → Conn → Conn
  | [], c => c
  | (d, now) :: rest, c => ackHitRun rest (ackHit c d 0 now)

/-- Total payload length of a list of queue nodes. -/
def payloadBytes (q : List QNode) : Nat := (q.map (fun n => n.payload.length)).sum

/-! ## The writer and the other goroutines

`inputAndSend` releases `outlock` while it waits on `evSend`, and the receive
and send loops run meanwhile: they acknowledge packets, change the window and
signal `evSend`.  The definitions below make that activity an argument.  With no
activity they are `awaitWindow`, `inputAndSend`, `writeLoop` and `Write`. -/

/-- The admission loop of `inputAndSend` (`for c.outPending >= c.cwnd`) with the
other goroutines made explicit.  Each element of the list is what they did to
the connection during one wait of the writer, from its `Unlock` until its
receive from `evSend` completes or its timer fires; the writer then takes the
value at the head of `evSend`, or times out (blocks, without a deadline) when
there is none.  `Lock` on a lock left held blocks.  When the list is used up
nothing else runs: `awaitWindow`. -/
def awaitWindowEnv : List (Conn → Conn) → Conn → Except Fault (Option Err × Conn)
  | [], c => awaitWindow c.evSend.buf c
  | f :: sched, c =>
    if c.outPending ≥ c.cwnd then
      let c1 : Conn := { c with outlock := false }
      if c1.wtmo > 0 then
        let c2 : Conn := f { c1 with wtmo := 0 }
        match c2.evSend.buf with
        | [] => .ok (some Err.IOTimeout, c2)
        | v :: rest =>
          let c3 : Conn := { c2 with evSend := { c2.evSend with buf := rest } }
          if v = _CLOSE then .ok (some Err.EOF, c3)
          else if c3.outlock then .error .blocked
          else awaitWindowEnv sched { c3 with outlock := true }
      else
        let c2 : Conn := f c1
        match c2.evSend.buf with
        | [] => .error .blocked
        | v :: rest =>
          let c3 : Conn := { c2 with evSend := { c2.evSend with buf := rest } }
          if v = _CLOSE then .ok (some Err.EOF, c3)
          else if c3.outlock then .error .blocked
          else awaitWindowEnv sched { c3 with outlock := true }
    else .ok (none, c)

/-- Go `Conn.inputAndSend`, with the activity of the other goroutines during its
waits as the last argument. -/
def inputAndSendEnv (P : Params) (c : Conn) (pk : Packet) (now : Int)
    (sched : List (Conn → Conn)) : Except Fault (Option Err × Conn) :=
  if c.outlock then .error .blocked
  else
    match awaitWindowEnv sched { c with outlock := true } with
    | .error f => .error f
    | .ok (some e, c1) => .ok (some e, c1)
    | .ok (none, c1) =>
      let c2 : Conn := { c1 with
        outPending := wrapI32 (c1.outPending + 1),
        outPkCnt := wrapI64 (c1.outPkCnt + 1),
        mySeq := u32 (c1.mySeq + 1) }
      let item : QNode := { nodeOf pk with seq := c2.mySeq }
      match internalWrite P c2 item now with
      | .error f => .error f
      | .ok (c3, item1) =>
        .ok (none, { c3 with
          outQ := c2.outQ ++ [item1],
          outlock := false,
          evSWnd := c3.evSWnd.send VSWND_ACTIVE })

/-- The loop of `Conn.Write`; `sched i` is the activity of the other goroutines
during the waits of iteration `i`. -/
def writeLoopEnv (P : Params) (clock : Nat → Int) (sched : Nat → List (Conn → Conn)) :
    Nat → Conn → List Nat → Nat → Nat → Except Fault (Nat × Option Err × Conn)
  | 0, c, data, nr, _ =>
    if data.length > 0 then .error .fuel else .ok (nr, none, c)
  | fuel + 1, c, data, nr, i =>
    if data.length > 0 then
      if P.TH_SIZE + P.CH_SIZE > P.MSS + P.AH_SIZE then .error .panic
      else
        let bodyLen := P.MSS + P.AH_SIZE - (P.TH_SIZE + P.CH_SIZE)
        let n := min bodyLen data.length
        if P.AH_SIZE + n > P.MSS + P.AH_SIZE then .error .panic
        else
          let pk : Packet := { flag := F_DATA, payload := data.take n }
          match inputAndSendEnv P c pk (clock i) (sched i) with
          | .error f => .error f
          | .ok (some e, c1) => .ok (nr + n, some e, c1)
          | .ok (none, c1) => writeLoopEnv P clock sched fuel c1 (data.drop n) (nr + n) (i + 1)
    else .ok (nr, none, c)

/-- Go `Conn.Write`, with the activity of the other goroutines during the waits
of each iteration. -/
def WriteEnv (P : Params) (clock : Nat → Int) (sched : Nat → List (Conn → Conn)) (fuel : Nat)
    (c : Conn) (data : List Nat) : Except Fault (Nat × Option Err × Conn) :=
  writeLoopEnv P clock sched fuel c data 0 0

/-- The DATA nodes of a log of `WriteToUDP` calls that are in their first
transmission (`scnt = 1`), in order. -/
def firstSends (w : List (QNode × Bool)) : List QNode :=
  (w.map Prod.fst).filter (fun n => decide (n.flag = F_DATA ∧ n.scnt = 1))

/-- The receive loop handling the ACK packet `pk` at time `now`, as an activity
during a wait of the writer; when `processAck` does not return, nothing was
done. -/
def ackArrives (P : Params) (pk : Packet) (now : Int) : Conn → Conn :=
  fun c =>
    match processAck P c pk now with
    | .ok c1 => c1
    | .error _ => c

/-! ## Machine-integer facts -/

theorem wrapI32_eq (x : Int) (h1 : -2^31 ≤ x) (h2 : x < 2^31) : wrapI32 x = x := by
  unfold wrapI32 wrapI; norm_num; omega

theorem wrapI32_le (x : Int) (h1 : -2^31 ≤ x) : wrapI32 x ≤ x := by
  unfold wrapI32 wrapI; norm_num; omega

theorem wrapI32_ge (x : Int) : -2^31 ≤ wrapI32 x := by
  unfold wrapI32 wrapI; norm_num; omega

/-! ## C1: Write chunking -/

theorem awaitWindow_pass (buf : List Nat) (c : Conn) (h : c.outPending < c.cwnd) :
    awaitWindow buf c = .ok (none, c) := by
  cases buf <;> simp [awaitWindow, not_le.mpr h]


theorem inputAndSend_admitted (P : Params) (c : Conn) (pk : Packet) (now : Int)
    (hl : c.outlock = false) (hadm : c.outPending < c.cwnd) (hs : pk.scnt = 0) :
    ∃ c1 node, inputAndSend P c pk now = .ok (none, c1) ∧ c1.outQ = c.outQ ++ [node] ∧
      node.seq = u32 (c.mySeq + 1) ∧ node.payload = pk.payload ∧ node.flag = pk.flag ∧
      c1.outlock = false ∧ c1.cwnd = c.cwnd ∧ c1.outPending = wrapI32 (c.outPending + 1) ∧
      c1.mySeq = u32 (c.mySeq + 1) := by
  have h1 : awaitWindow c.evSend.buf { c with outlock := true } = .ok (none, { c with outlock := true }) :=
    awaitWindow_pass _ _ hadm
  simp only [inputAndSend, hl, h1, internalWrite, nodeOf, hs]
  simp

theorem chunk_count (len m : Nat) (hl : 0 < len) (hm : 0 < m) :
    (len - min m len + m - 1) / m + 1 = (len + m - 1) / m := by
  rcases Nat.lt_or_ge m len with h | h
  · rw [Nat.min_eq_left (le_of_lt h)]
    have : len - m + m - 1 = len - 1 := by omega
    rw [this, ← Nat.add_div_right _ hm]
    congr 1; omega
  · rw [Nat.min_eq_right h]
    have e1 : (len - len + m - 1) / m = 0 := by
      apply Nat.div_eq_of_lt; omega
    have e2 : (len + m - 1) / m = 1 := by
      have : len + m - 1 = (len - 1) + m := by omega
      rw [this, Nat.add_div_right _ hm, Nat.div_eq_of_lt (by omega)]
    rw [e1, e2]

theorem inputAndSendEnv_nil (P : Params) (c : Conn) (pk : Packet) (now : Int) :
    inputAndSendEnv P c pk now [] = inputAndSend P c pk now := by
  unfold inputAndSendEnv inputAndSend awaitWindowEnv
  rfl

theorem writeLoopEnv_nil (P : Params) (clock : Nat → Int) :
    ∀ (fuel : Nat) (c : Conn) (data : List Nat) (nr i : Nat),
      writeLoopEnv P clock (fun _ => []) fuel c data nr i = writeLoop P clock fuel c data nr i := by
  intro fuel
  induction fuel with
  | zero => intro c data nr i; rfl
  | succ fuel ih =>
    intro c data nr i
    unfold writeLoopEnv writeLoop
    simp only [inputAndSendEnv_nil, ih]

/-- With no activity of the other goroutines `WriteEnv` is `Write`. -/
theorem WriteEnv_nil (P : Params) (clock : Nat → Int) (fuel : Nat) (c : Conn)
    (data : List Nat) :
    WriteEnv P clock (fun _ => []) fuel c data = Write P clock fuel c data :=
  writeLoopEnv_nil P clock fuel c data 0 0

theorem awaitWindow_frame : ∀ (buf : List Nat) (c c1 : Conn) (r : Option Err),
    awaitWindow buf c = .ok (r, c1) →
      c1.outQ = c.outQ ∧ c1.wire = c.wire ∧ c1.mySeq = c.mySeq := by
  intro buf
  induction buf with
  | nil =>
    intro c c1 r h
    unfold awaitWindow at h
    by_cases h1 : c.outPending ≥ c.cwnd
    · rw [if_pos h1] at h
      by_cases h2 : c.wtmo > 0
      · simp [h2] at h; obtain ⟨_, rfl⟩ := h; simp
      · simp [h2] at h
    · rw [if_neg h1] at h
      simp at h; obtain ⟨_, rfl⟩ := h; simp
  | cons v rest ih =>
    intro c c1 r h
    unfold awaitWindow at h
    by_cases h1 : c.outPending ≥ c.cwnd
    · rw [if_pos h1] at h
      by_cases h2 : c.wtmo > 0
      · by_cases h3 : v = _CLOSE
        · simp [h2, h3] at h; obtain ⟨_, rfl⟩ := h; simp
        · simp [h2, h3] at h
          have := ih _ _ _ h; simpa using this
      · by_cases h3 : v = _CLOSE
        · simp [h2, h3] at h; obtain ⟨_, rfl⟩ := h; simp
        · simp [h2, h3] at h
          have := ih _ _ _ h; simpa using this
    · rw [if_neg h1] at h
      simp at h; obtain ⟨_, rfl⟩ := h; simp

theorem awaitWindow_error : ∀ (buf : List Nat) (c : Conn) (e : Fault),
    awaitWindow buf c = .error e → e = Fault.blocked := by
  intro buf
  induction buf with
  | nil =>
    intro c e h
    unfold awaitWindow at h
    by_cases h1 : c.outPending ≥ c.cwnd
    · rw [if_pos h1] at h
      by_cases h2 : c.wtmo > 0
      · simp [h2] at h
      · simp [h2] at h; exact h.symm
    · rw [if_neg h1] at h; simp at h
  | cons v rest ih =>
    intro c e h
    unfold awaitWindow at h
    by_cases h1 : c.outPending ≥ c.cwnd
    · rw [if_pos h1] at h
      by_cases h2 : c.wtmo > 0
      · by_cases h3 : v = _CLOSE
        · simp [h2, h3] at h
        · simp [h2, h3] at h
          exact ih _ _ h
      · by_cases h3 : v = _CLOSE
        · simp [h2, h3] at h
        · simp [h2, h3] at h
          exact ih _ _ h
    · rw [if_neg h1] at h; simp at h

theorem awaitWindowEnv_error : ∀ (sched : List (Conn → Conn)) (c : Conn) (e : Fault),
    awaitWindowEnv sched c = .error e → e = Fault.blocked := by
  intro sched
  induction sched with
  | nil =>
    intro c e h
    unfold awaitWindowEnv at h
    exact awaitWindow_error _ _ _ h
  | cons f sched ih =>
    intro c e h
    unfold awaitWindowEnv at h
    by_cases h1 : c.outPending ≥ c.cwnd
    · rw [if_pos h1] at h
      simp only at h
      by_cases h2 : c.wtmo > 0
      · rw [if_pos h2] at h
        split at h
        · simp at h
        · rename_i v rest hb
          by_cases h3 : v = _CLOSE
          · rw [if_pos h3] at h; simp at h
          · rw [if_neg h3] at h
            split_ifs at h
            · simp at h; exact h.symm
            · exact ih _ _ h
      · rw [if_neg h2] at h
        split at h
        · simp at h; exact h.symm
        · rename_i v rest hb
          by_cases h3 : v = _CLOSE
          · rw [if_pos h3] at h; simp at h
          · rw [if_neg h3] at h
            split_ifs at h
            · simp at h; exact h.symm
            · exact ih _ _ h
    · rw [if_neg h1] at h; simp at h

theorem awaitWindowEnv_frame : ∀ (sched : List (Conn → Conn)) (c c1 : Conn) (r : Option Err),
    awaitWindowEnv sched c = .ok (r, c1) →
    (∀ f ∈ sched, ∀ x : Conn, firstSends (f x).wire = firstSends x.wire ∧ (f x).mySeq = x.mySeq) →
    firstSends c1.wire = firstSends c.wire ∧ c1.mySeq = c.mySeq ∧
    ((∀ f ∈ sched, ∀ x : Conn, (f x).outQ = x.outQ) → c1.outQ = c.outQ) := by
  intro sched
  induction sched with
  | nil =>
    intro c c1 r h _
    unfold awaitWindowEnv at h
    obtain ⟨q, w, m⟩ := awaitWindow_frame _ _ _ _ h
    exact ⟨by rw [w], m, fun _ => q⟩
  | cons f sched ih =>
    intro c c1 r h hrely
    have hf := hrely f (List.mem_cons_self _ _)
    have hrest : ∀ g ∈ sched, ∀ x : Conn,
        firstSends (g x).wire = firstSends x.wire ∧ (g x).mySeq = x.mySeq :=
      fun g hg => hrely g (List.mem_cons_of_mem _ hg)
    unfold awaitWindowEnv at h
    by_cases h1 : c.outPending ≥ c.cwnd
    · rw [if_pos h1] at h
      simp only at h
      by_cases h2 : c.wtmo > 0
      · rw [if_pos h2] at h
        have e1 := hf { c with outlock := false, wtmo := 0 }
        split at h
        · simp only [Except.ok.injEq, Prod.mk.injEq] at h
          obtain ⟨_, rfl⟩ := h
          exact ⟨e1.1, e1.2, fun hq => hq f (List.mem_cons_self _ _) _⟩
        · rename_i v rest hb
          by_cases h3 : v = _CLOSE
          · rw [if_pos h3] at h
            simp only [Except.ok.injEq, Prod.mk.injEq] at h
            obtain ⟨_, rfl⟩ := h
            exact ⟨e1.1, e1.2, fun hq => hq f (List.mem_cons_self _ _) _⟩
          · rw [if_neg h3] at h
            split_ifs at h
            obtain ⟨i1, i2, i3⟩ := ih _ _ _ h hrest
            refine ⟨i1.trans e1.1, i2.trans e1.2, fun hq => ?_⟩
            rw [i3 (fun g hg => hq g (List.mem_cons_of_mem _ hg))]
            exact hq f (List.mem_cons_self _ _) _
      · rw [if_neg h2] at h
        have e1 := hf { c with outlock := false }
        split at h
        · simp at h
        · rename_i v rest hb
          by_cases h3 : v = _CLOSE
          · rw [if_pos h3] at h
            simp only [Except.ok.injEq, Prod.mk.injEq] at h
            obtain ⟨_, rfl⟩ := h
            exact ⟨e1.1, e1.2, fun hq => hq f (List.mem_cons_self _ _) _⟩
          · rw [if_neg h3] at h
            split_ifs at h
            obtain ⟨i1, i2, i3⟩ := ih _ _ _ h hrest
            refine ⟨i1.trans e1.1, i2.trans e1.2, fun hq => ?_⟩
            rw [i3 (fun g hg => hq g (List.mem_cons_of_mem _ hg))]
            exact hq f (List.mem_cons_self _ _) _
    · rw [if_neg h1] at h
      simp only [Except.ok.injEq, Prod.mk.injEq] at h
      obtain ⟨_, rfl⟩ := h
      exact ⟨rfl, rfl, fun _ => rfl⟩

theorem firstSends_append_data (w : List (QNode × Bool)) (n : QNode) (d : Bool)
    (hf : n.flag = F_DATA) (hs : n.scnt = 1) :
    firstSends (w ++ [(n, d)]) = firstSends w ++ [n] := by
  simp [firstSends, List.filter_append, hf, hs]

theorem awaitWindowEnv_open (sched : List (Conn → Conn)) (c : Conn)
    (h : c.outPending < c.cwnd) : awaitWindowEnv sched c = .ok (none, c) := by
  cases sched with
  | nil => unfold awaitWindowEnv; exact awaitWindow_pass _ _ h
  | cons f sched => unfold awaitWindowEnv; rw [if_neg (not_le.mpr h)]

/-- While the window is open the writer does not wait, and the other goroutines
have no part in the call. -/
theorem inputAndSendEnv_open (P : Params) (c : Conn) (pk : Packet) (now : Int)
    (sched : List (Conn → Conn)) (h : c.outPending < c.cwnd) :
    inputAndSendEnv P c pk now sched = inputAndSend P c pk now := by
  unfold inputAndSendEnv inputAndSend
  by_cases hl : c.outlock = true
  · simp [hl]
  · rw [if_neg hl, if_neg hl,
      awaitWindowEnv_open sched { c with outlock := true } h,
      awaitWindow_pass c.evSend.buf { c with outlock := true } h]

theorem inputAndSendEnv_fault (P : Params) (c : Conn) (pk : Packet) (now : Int)
    (sched : List (Conn → Conn)) (e : Fault) (hs : pk.scnt = 0)
    (h : inputAndSendEnv P c pk now sched = .error e) : e = Fault.blocked := by
  unfold inputAndSendEnv at h
  by_cases hl : c.outlock = true
  · simp [hl] at h; exact h.symm
  · rw [if_neg hl] at h
    cases hw : awaitWindowEnv sched { c with outlock := true } with
    | error f =>
      rw [hw] at h
      simp only [Except.error.injEq] at h
      rw [← h]; exact awaitWindowEnv_error _ _ _ hw
    | ok res =>
      obtain ⟨r0, c0⟩ := res
      rw [hw] at h
      cases r0 with
      | some e0 => simp at h
      | none => simp [internalWrite, nodeOf, hs] at h

theorem inputAndSendEnv_ok (P : Params) (c c1 : Conn) (pk : Packet) (now : Int)
    (sched : List (Conn → Conn)) (hs : pk.scnt = 0) (hfl : pk.flag = F_DATA)
    (h : inputAndSendEnv P c pk now sched = .ok (none, c1))
    (hrely : ∀ f ∈ sched, ∀ x : Conn,
      firstSends (f x).wire = firstSends x.wire ∧ (f x).mySeq = x.mySeq) :
    ∃ node, firstSends c1.wire = firstSends c.wire ++ [node] ∧
      node.seq = u32 (c.mySeq + 1) ∧ node.payload = pk.payload ∧ node.flag = F_DATA ∧
      c1.mySeq = u32 (c.mySeq + 1) ∧ c1.outlock = false ∧
      ((∀ f ∈ sched, ∀ x : Conn, (f x).outQ = x.outQ) → c1.outQ = c.outQ ++ [node]) := by
  unfold inputAndSendEnv at h
  by_cases hl : c.outlock = true
  · simp [hl] at h
  · rw [if_neg hl] at h
    cases hw : awaitWindowEnv sched { c with outlock := true } with
    | error f => rw [hw] at h; simp at h
    | ok res =>
      obtain ⟨r0, c0⟩ := res
      obtain ⟨w0, m0, q0⟩ := awaitWindowEnv_frame _ _ _ _ hw hrely
      simp only at w0 m0 q0
      rw [hw] at h
      cases r0 with
      | some e => simp at h
      | none =>
        simp [internalWrite, nodeOf, hs] at h
        subst h
        refine ⟨{ seq := u32 (c0.mySeq + 1), ack := pk.ack, flag := pk.flag, scnt := wrapI8 1, payload := pk.payload, sent := now, sent_1 := 0 }, ?_, ?_, rfl, hfl, ?_, rfl, ?_⟩
        · simp only
          rw [firstSends_append_data _ _ _ hfl (by show wrapI8 1 = 1; decide), w0]
        · simp only [m0]
        · simp only [m0]
        · intro hq
          simp only [q0 hq]
theorem writeLoopEnv_admitted (P : Params) (clock : Nat → Int)
    (sched : Nat → List (Conn → Conn))
    (hAH : P.AH_SIZE = P.TH_SIZE + P.CH_SIZE) (hM : 0 < P.MSS) :
    ∀ (fuel : Nat) (c : Conn) (data : List Nat) (nr i : Nat),
      data.length < fuel → c.outlock = false → -2 ^ 31 ≤ c.outPending →
      c.outPending + ((data.length + P.MSS - 1) / P.MSS : Nat) ≤ c.cwnd →
      ∃ c1 nodes, writeLoopEnv P clock sched fuel c data nr i = .ok (nr + data.length, none, c1) ∧
        c1.outQ = c.outQ ++ nodes ∧
        nodes.length = (data.length + P.MSS - 1) / P.MSS ∧
        (∀ n ∈ nodes, n.flag = F_DATA ∧ n.payload ≠ [] ∧ n.payload.length ≤ P.MSS) ∧
        (∀ k (hk : k < nodes.length), (nodes.get ⟨k, hk⟩).seq = (c.mySeq + (k + 1)) % 2 ^ 32) ∧
        (nodes.map (fun n => n.payload)).flatten = data ∧
        c1.mySeq % 2 ^ 32 = (c.mySeq + nodes.length) % 2 ^ 32 := by
  intro fuel
  induction fuel with
  | zero => intro c data nr i h; omega
  | succ fuel ih =>
    intro c data nr i hlen hl hlo hadm
    rcases Nat.eq_zero_or_pos data.length with h0 | hpos
    · have hd : data = [] := List.length_eq_zero.mp h0
      subst hd
      refine ⟨c, [], ?_, ?_⟩
      · simp [writeLoopEnv]
      · have : (P.MSS - 1) / P.MSS = 0 := Nat.div_eq_of_lt (by omega)
        simp [this]
    · -- one chunk is cut off and sent, the rest follows by induction
      have hcnt := chunk_count data.length P.MSS hpos hM
      have hbody : P.MSS + P.AH_SIZE - (P.TH_SIZE + P.CH_SIZE) = P.MSS := by omega
      have hnpos : 0 < min P.MSS data.length := by
        rcases Nat.le_total P.MSS data.length with h | h
        · rw [Nat.min_eq_left h]; exact hM
        · rw [Nat.min_eq_right h]; exact hpos
      have hnle : min P.MSS data.length ≤ P.MSS := Nat.min_le_left _ _
      have hnle2 : min P.MSS data.length ≤ data.length := Nat.min_le_right _ _
      have hadm1 : c.outPending < c.cwnd := by
        have hge : 1 ≤ (data.length + P.MSS - 1) / P.MSS := by rw [← hcnt]; exact Nat.le_add_left _ _
        have : (1 : Int) ≤ ((data.length + P.MSS - 1) / P.MSS : Nat) := by exact_mod_cast hge
        omega
      obtain ⟨c1, node, hsend0, hq1, hseq1, hpay1, hflag1, hl1, hcw1, hop1, hms1⟩ :=
        inputAndSend_admitted P c { flag := F_DATA, payload := data.take (min P.MSS data.length) }
          (clock i) hl hadm1 rfl
      have hsend : inputAndSendEnv P c
          { flag := F_DATA, payload := data.take (min P.MSS data.length) } (clock i) (sched i)
          = .ok (none, c1) := by
        rw [inputAndSendEnv_open P c _ (clock i) (sched i) hadm1]; exact hsend0
      have hlen1 : (data.drop (min P.MSS data.length)).length < fuel := by
        rw [List.length_drop]; omega
      have hlo1 : -2 ^ 31 ≤ c1.outPending := by rw [hop1]; exact wrapI32_ge _
      have hdl : (data.drop (min P.MSS data.length)).length = data.length - min P.MSS data.length :=
        List.length_drop _ _
      have hadm2 : c1.outPending +
          (((data.drop (min P.MSS data.length)).length + P.MSS - 1) / P.MSS : Nat) ≤ c1.cwnd := by
        rw [hcw1, hop1, hdl]
        have hw := wrapI32_le (c.outPending + 1) (by omega)
        have : (((data.length - min P.MSS data.length + P.MSS - 1) / P.MSS : Nat) : Int) + 1
            = ((data.length + P.MSS - 1) / P.MSS : Nat) := by exact_mod_cast hcnt
        omega
      obtain ⟨c2, nodes, hrun, hq2, hn2, hall2, hseq2, hcat2, hms2⟩ :=
        ih c1 (data.drop (min P.MSS data.length)) (nr + min P.MSS data.length) (i + 1)
          hlen1 hl1 hlo1 hadm2
      refine ⟨c2, node :: nodes, ?_, ?_, ?_, ?_, ?_, ?_, ?_⟩
      · have hnp : ¬ (P.TH_SIZE + P.CH_SIZE > P.MSS + P.AH_SIZE) := by omega
        have hnp2 : ¬ (P.AH_SIZE + min P.MSS data.length > P.MSS + P.AH_SIZE) := by omega
        simp only [writeLoopEnv, hpos, if_true, hnp, if_false, hbody, hnp2, hsend, hrun]
        rw [hdl]
        congr 2
        omega
      · rw [hq2, hq1]; simp
      · rw [List.length_cons, hn2, hdl, hcnt]
      · intro n hn
        rcases List.mem_cons.mp hn with h | h
        · subst h
          refine ⟨hflag1, ?_, ?_⟩
          · rw [hpay1]
            intro hnil
            have h1 : (List.take (min P.MSS data.length) data).length = min P.MSS data.length := by
              rw [List.length_take]; exact Nat.min_eq_left hnle2
            have hnil1 : List.take (min P.MSS data.length) data = [] := hnil
            rw [hnil1, List.length_nil] at h1
            omega
          · rw [hpay1]; simp
        · exact hall2 n h
      · intro k hk
        cases k with
        | zero => simp [hseq1, u32]
        | succ k =>
          have := hseq2 k (by simpa using hk)
          simp only [List.get_eq_getElem, List.getElem_cons_succ] at this ⊢
          rw [this, hms1]
          unfold u32
          omega
      · simp only [List.map_cons, List.flatten_cons, hcat2, hpay1]
        exact List.take_append_drop _ _
      · rw [hms2, hms1, List.length_cons]
        unfold u32
        omega


theorem writeLoopEnv_run (P : Params) (clock : Nat → Int) (sched : Nat → List (Conn → Conn))
    (hAH : P.AH_SIZE = P.TH_SIZE + P.CH_SIZE) (hM : 0 < P.MSS)
    (hrely : ∀ j, ∀ f ∈ sched j, ∀ x : Conn,
      firstSends (f x).wire = firstSends x.wire ∧ (f x).mySeq = x.mySeq) :
    ∀ (fuel : Nat) (c : Conn) (data : List Nat) (nr i nr1 : Nat) (c1 : Conn),
      writeLoopEnv P clock sched fuel c data nr i = .ok (nr1, none, c1) →
      nr1 = nr + data.length ∧
      ∃ nodes, firstSends c1.wire = firstSends c.wire ++ nodes ∧
        nodes.length = (data.length + P.MSS - 1) / P.MSS ∧
        (∀ n ∈ nodes, n.flag = F_DATA ∧ n.payload ≠ [] ∧ n.payload.length ≤ P.MSS) ∧
        (∀ k (hk : k < nodes.length), (nodes.get ⟨k, hk⟩).seq = (c.mySeq + (k + 1)) % 2 ^ 32) ∧
        (nodes.map (fun n => n.payload)).flatten = data ∧
        c1.mySeq % 2 ^ 32 = (c.mySeq + nodes.length) % 2 ^ 32 ∧
        ((∀ j, ∀ f ∈ sched j, ∀ x : Conn, (f x).outQ = x.outQ) → c1.outQ = c.outQ ++ nodes) := by
  have hempty : ∀ (c c1 : Conn) (data : List Nat) (nr nr1 : Nat), ¬ data.length > 0 →
      (Except.ok (nr, (none : Option Err), c) : Except Fault (Nat × Option Err × Conn))
        = .ok (nr1, none, c1) →
      nr1 = nr + data.length ∧
      ∃ nodes : List QNode, firstSends c1.wire = firstSends c.wire ++ nodes ∧
        nodes.length = (data.length + P.MSS - 1) / P.MSS ∧
        (∀ n ∈ nodes, n.flag = F_DATA ∧ n.payload ≠ [] ∧ n.payload.length ≤ P.MSS) ∧
        (∀ k (hk : k < nodes.length), (nodes.get ⟨k, hk⟩).seq = (c.mySeq + (k + 1)) % 2 ^ 32) ∧
        (nodes.map (fun n => n.payload)).flatten = data ∧
        c1.mySeq % 2 ^ 32 = (c.mySeq + nodes.length) % 2 ^ 32 ∧
        ((∀ j, ∀ f ∈ sched j, ∀ x : Conn, (f x).outQ = x.outQ) → c1.outQ = c.outQ ++ nodes) := by
    intro c c1 data nr nr1 hpos h
    simp only [Except.ok.injEq, Prod.mk.injEq, true_and] at h
    obtain ⟨rfl, rfl⟩ := h
    have hd : data = [] := List.length_eq_zero.mp (by omega)
    subst hd
    have : (P.MSS - 1) / P.MSS = 0 := Nat.div_eq_of_lt (by omega)
    exact ⟨rfl, [], by simp [this]⟩
  intro fuel
  induction fuel with
  | zero =>
    intro c data nr i nr1 c1 h
    unfold writeLoopEnv at h
    by_cases hpos : data.length > 0
    · rw [if_pos hpos] at h; simp at h
    · rw [if_neg hpos] at h
      exact hempty c c1 data nr nr1 hpos h
  | succ fuel ih =>
    intro c data nr i nr1 c1 h
    unfold writeLoopEnv at h
    by_cases hpos : data.length > 0
    · rw [if_pos hpos] at h
      have hcnt := chunk_count data.length P.MSS hpos hM
      have hbody : P.MSS + P.AH_SIZE - (P.TH_SIZE + P.CH_SIZE) = P.MSS := by omega
      have hnp : ¬ (P.TH_SIZE + P.CH_SIZE > P.MSS + P.AH_SIZE) := by omega
      have hnle2 : min P.MSS data.length ≤ data.length := Nat.min_le_right _ _
      have hnle : min P.MSS data.length ≤ P.MSS := Nat.min_le_left _ _
      have hnpos : 0 < min P.MSS data.length := by
        rcases Nat.le_total P.MSS data.length with hh | hh
        · rw [Nat.min_eq_left hh]; exact hM
        · rw [Nat.min_eq_right hh]; exact hpos
      have hnp2 : ¬ (P.AH_SIZE + min P.MSS data.length > P.MSS + P.AH_SIZE) := by omega
      rw [if_neg hnp] at h
      simp only [hbody] at h
      rw [if_neg hnp2] at h
      cases hs : inputAndSendEnv P c
          { flag := F_DATA, payload := data.take (min P.MSS data.length) } (clock i) (sched i) with
      | error f => rw [hs] at h; simp at h
      | ok res =>
        obtain ⟨r0, c0⟩ := res
        rw [hs] at h
        cases r0 with
        | some e0 => simp at h
        | none =>
          simp only at h
          obtain ⟨node, hw1, hseq1, hpay1, hflag1, hms1, _, hq1⟩ :=
            inputAndSendEnv_ok P c c0 _ (clock i) (sched i) rfl rfl hs (hrely i)
          obtain ⟨hnr, nodes, hw2, hn2, hall2, hseq2, hcat2, hms2, hq2⟩ := ih _ _ _ _ _ _ h
          have hdl : (data.drop (min P.MSS data.length)).length =
              data.length - min P.MSS data.length := List.length_drop _ _
          refine ⟨by rw [hnr, hdl]; omega, node :: nodes, ?_, ?_, ?_, ?_, ?_, ?_, ?_⟩
          · rw [hw2, hw1]; simp
          · rw [List.length_cons, hn2, hdl, hcnt]
          · intro n hn
            rcases List.mem_cons.mp hn with e | e
            · subst e
              refine ⟨hflag1, ?_, ?_⟩
              · rw [hpay1]
                intro hnil
                have h1 : (List.take (min P.MSS data.length) data).length =
                    min P.MSS data.length := by
                  rw [List.length_take]; exact Nat.min_eq_left hnle2
                have hnil1 : List.take (min P.MSS data.length) data = [] := hnil
                rw [hnil1, List.length_nil] at h1
                omega
              · rw [hpay1]; simp
            · exact hall2 n e
          · intro k hk
            cases k with
            | zero => simp [hseq1, u32]
            | succ k =>
              have := hseq2 k (by simpa using hk)
              simp only [List.get_eq_getElem, List.getElem_cons_succ] at this ⊢
              rw [this, hms1]
              unfold u32
              omega
          · simp only [List.map_cons, List.flatten_cons, hcat2, hpay1]
            exact List.take_append_drop _ _
          · rw [hms2, hms1, List.length_cons]
            unfold u32
            omega
          · intro hq
            rw [hq2 hq, hq1 (hq i)]; simp
    · rw [if_neg hpos] at h
      exact hempty c c1 data nr nr1 hpos h

theorem writeLoopEnv_fault (P : Params) (clock : Nat → Int) (sched : Nat → List (Conn → Conn))
    (hAH : P.AH_SIZE = P.TH_SIZE + P.CH_SIZE) (hM : 0 < P.MSS) :
    ∀ (fuel : Nat) (c : Conn) (data : List Nat) (nr i : Nat) (e : Fault),
      data.length < fuel → writeLoopEnv P clock sched fuel c data nr i = .error e →
      e = Fault.blocked := by
  intro fuel
  induction fuel with
  | zero => intro c data nr i e hlen; omega
  | succ fuel ih =>
    intro c data nr i e hlen h
    unfold writeLoopEnv at h
    by_cases hpos : data.length > 0
    · rw [if_pos hpos] at h
      have hbody : P.MSS + P.AH_SIZE - (P.TH_SIZE + P.CH_SIZE) = P.MSS := by omega
      have hnp : ¬ (P.TH_SIZE + P.CH_SIZE > P.MSS + P.AH_SIZE) := by omega
      have hnle : min P.MSS data.length ≤ P.MSS := Nat.min_le_left _ _
      have hnpos : 0 < min P.MSS data.length := by
        rcases Nat.le_total P.MSS data.length with hh | hh
        · rw [Nat.min_eq_left hh]; exact hM
        · rw [Nat.min_eq_right hh]; exact hpos
      have hnp2 : ¬ (P.AH_SIZE + min P.MSS data.length > P.MSS + P.AH_SIZE) := by omega
      rw [if_neg hnp] at h
      simp only [hbody] at h
      rw [if_neg hnp2] at h
      cases hs : inputAndSendEnv P c
          { flag := F_DATA, payload := data.take (min P.MSS data.length) } (clock i) (sched i) with
      | error f =>
        rw [hs] at h
        simp only [Except.error.injEq] at h
        rw [← h]
        exact inputAndSendEnv_fault P c _ (clock i) (sched i) f rfl hs
      | ok res =>
        obtain ⟨r0, c0⟩ := res
        rw [hs] at h
        cases r0 with
        | some e0 => simp at h
        | none =>
          simp only at h
          refine ih _ _ _ _ e ?_ h
          rw [List.length_drop]; omega
    · rw [if_neg hpos] at h; simp at h

theorem writeLoopEnv_ok_step (P : Params) (clock : Nat → Int) (sched : Nat → List (Conn → Conn))
    (fuel : Nat) (c c1 : Conn) (data : List Nat) (nr i : Nat) (hpos : data.length > 0)
    (hp1 : ¬ P.TH_SIZE + P.CH_SIZE > P.MSS + P.AH_SIZE)
    (hp2 : ¬ P.AH_SIZE + min (P.MSS + P.AH_SIZE - (P.TH_SIZE + P.CH_SIZE)) data.length
      > P.MSS + P.AH_SIZE)
    (hs : inputAndSendEnv P c
      { flag := F_DATA,
        payload := data.take (min (P.MSS + P.AH_SIZE - (P.TH_SIZE + P.CH_SIZE)) data.length) }
      (clock i) (sched i) = .ok (none, c1)) :
    writeLoopEnv P clock sched (fuel + 1) c data nr i =
      writeLoopEnv P clock sched fuel c1
        (data.drop (min (P.MSS + P.AH_SIZE - (P.TH_SIZE + P.CH_SIZE)) data.length))
        (nr + min (P.MSS + P.AH_SIZE - (P.TH_SIZE + P.CH_SIZE)) data.length) (i + 1) := by
  rw [writeLoopEnv, if_pos hpos, if_neg hp1]
  simp only
  rw [if_neg hp2, hs]

theorem ackHit_wire (c : Conn) (d m now : Int) :
    (ackHit c d m now).wire = c.wire ∧ (ackHit c d m now).mySeq = c.mySeq := by
  unfold ackHit
  simp only
  split_ifs <;> simp

/-- An ACK packet handled by the receive loop writes no DATA packet and leaves
`mySeq` alone. -/
theorem ackArrives_rely (P : Params) (pk : Packet) (now : Int) (hsyn : pk.flag.syn = false)
    (x : Conn) :
    firstSends (ackArrives P pk now x).wire = firstSends x.wire ∧
    (ackArrives P pk now x).mySeq = x.mySeq := by
  unfold ackArrives processAck
  by_cases hl : x.outlock = true
  · simp [hl]
  · rw [if_neg hl]
    simp only
    cases hq : qGet x.outQ pk.ack with
    | none => simp [hsyn]
    | some e =>
      simp only
      obtain ⟨w, m⟩ := ackHit_wire
        { x with outlock := true, outQ := (deleteBefore x.outQ e.seq).2.2 }
        (deleteBefore x.outQ e.seq).2.1 0 now
      split_ifs
      · simp only [w, m]; exact ⟨trivial, trivial⟩
      · simp only [w, m]; exact ⟨trivial, trivial⟩

/-- C1 (Write chunking).  With `AH_SIZE = TH_SIZE + CH_SIZE` and a positive
`MSS`, for every data, every state and every activity of the other goroutines
during the waits of the writer (which never itself sends a DATA packet for the
first time nor changes `mySeq`): `Write` ends, and it ends in `(nr, nil)`, that
is with every chunk admitted (no timeout, no close, no wait without end), only
if `nr = len(data)` and exactly `⌈len(data)/MSS⌉` DATA nodes were sent for the
first time, each with a non-empty payload of at most `MSS` bytes, the `k`-th
(from 0) with sequence number `mySeq + k + 1` (a `uint32`), their payloads
concatenating to `data`; while the others leave the queue alone these nodes are
the new tail of the outbound queue.  When the window has room for all chunks
(lock free, `outPending + ⌈len(data)/MSS⌉ <= cwnd`) every chunk is admitted
without a wait, so `Write` returns `(len(data), nil)` with these nodes appended.
For empty data nothing is appended and `(0, nil)` is returned. -/
theorem write_chunking (P : Params) (clock : Nat → Int) (sched : Nat → List (Conn → Conn))
    (fuel : Nat) (c : Conn) (data : List Nat)
    (hAH : P.AH_SIZE = P.TH_SIZE + P.CH_SIZE) (hM : 0 < P.MSS)
    (hfuel : data.length < fuel)
    (hrely : ∀ j, ∀ f ∈ sched j, ∀ x : Conn,
      firstSends (f x).wire = firstSends x.wire ∧ (f x).mySeq = x.mySeq) :
    (∀ e, WriteEnv P clock sched fuel c data = .error e → e = Fault.blocked) ∧
    (∀ nr c1, WriteEnv P clock sched fuel c data = .ok (nr, none, c1) →
      nr = data.length ∧
      ∃ nodes, firstSends c1.wire = firstSends c.wire ++ nodes ∧
        nodes.length = (data.length + P.MSS - 1) / P.MSS ∧
        (∀ n ∈ nodes, n.flag = F_DATA ∧ n.payload ≠ [] ∧ n.payload.length ≤ P.MSS) ∧
        (∀ k (hk : k < nodes.length), (nodes.get ⟨k, hk⟩).seq = (c.mySeq + (k + 1)) % 2 ^ 32) ∧
        (nodes.map (fun n => n.payload)).flatten = data ∧
        ((∀ j, ∀ f ∈ sched j, ∀ x : Conn, (f x).outQ = x.outQ) → c1.outQ = c.outQ ++ nodes)) ∧
    (c.outlock = false → -2 ^ 31 ≤ c.outPending →
      c.outPending + ((data.length + P.MSS - 1) / P.MSS : Nat) ≤ c.cwnd →
      ∃ c1 nodes, WriteEnv P clock sched fuel c data = .ok (data.length, none, c1) ∧
        c1.outQ = c.outQ ++ nodes ∧
        nodes.length = (data.length + P.MSS - 1) / P.MSS ∧
        (∀ n ∈ nodes, n.flag = F_DATA ∧ n.payload ≠ [] ∧ n.payload.length ≤ P.MSS) ∧
        (∀ k (hk : k < nodes.length), (nodes.get ⟨k, hk⟩).seq = (c.mySeq + (k + 1)) % 2 ^ 32) ∧
        (nodes.map (fun n => n.payload)).flatten = data) ∧
    (data = [] → WriteEnv P clock sched fuel c data = .ok (0, none, c)) := by
  refine ⟨?_, ?_, ?_, ?_⟩
  · intro e h
    exact writeLoopEnv_fault P clock sched hAH hM fuel c data 0 0 e hfuel h
  · intro nr c1 h
    obtain ⟨h0, nodes, h1, h2, h3, h4, h5, _, h7⟩ :=
      writeLoopEnv_run P clock sched hAH hM hrely fuel c data 0 0 nr c1 h
    exact ⟨by omega, nodes, h1, h2, h3, h4, h5, h7⟩
  · intro hl hlo hadm
    obtain ⟨c1, nodes, h1, h2, h3, h4, h5, h6, _⟩ :=
      writeLoopEnv_admitted P clock sched hAH hM fuel c data 0 0 hfuel hl hlo hadm
    refine ⟨c1, nodes, ?_, h2, h3, h4, h5, h6⟩
    simpa [WriteEnv] using h1
  · intro hd
    subst hd
    cases fuel <;> simp [WriteEnv, writeLoopEnv]

theorem awaitWindowEnv_wake (f : Conn → Conn) (sched : List (Conn → Conn)) (c c2 : Conn)
    (v : Nat) (rest : List Nat) (h1 : c.outPending ≥ c.cwnd) (h2 : ¬ c.wtmo > 0)
    (hf : f { c with outlock := false } = c2) (hb : c2.evSend.buf = v :: rest)
    (hv : v ≠ _CLOSE) (hl : c2.outlock = false) :
    awaitWindowEnv (f :: sched) c =
      awaitWindowEnv sched
        { c2 with evSend := { c2.evSend with buf := rest }, outlock := true } := by
  rw [awaitWindowEnv, if_pos h1]
  simp only
  rw [if_neg h2, hf]
  simp only [hb, if_neg hv, hl]
  rfl

/-- A call of `inputAndSend` that finds the window closed, waits without a
deadline, and is woken by a signal on `evSend` after the others have opened the
window: it proceeds as a call on the connection they left. -/
theorem inputAndSendEnv_woken (P : Params) (c c2 : Conn) (pk : Packet) (now : Int)
    (f : Conn → Conn) (v : Nat) (rest : List Nat)
    (hl0 : c.outlock = false) (h1 : c.outPending ≥ c.cwnd) (h2 : ¬ c.wtmo > 0)
    (hf : f c = c2) (hb : c2.evSend.buf = v :: rest)
    (hv : v ≠ _CLOSE) (hl : c2.outlock = false) (hopen : c2.outPending < c2.cwnd) :
    inputAndSendEnv P c pk now [f] =
      inputAndSend P { c2 with evSend := { c2.evSend with buf := rest } } pk now := by
  have hc : ({ ({ c with outlock := true } : Conn) with outlock := false } : Conn) = c := by
    cases c; simp_all
  have hw := awaitWindowEnv_wake f [] { c with outlock := true } c2 v rest h1 h2
    (by rw [hc]; exact hf) hb hv hl
  have ha : awaitWindowEnv []
      { c2 with evSend := { c2.evSend with buf := rest }, outlock := true } =
      .ok (none, { c2 with evSend := { c2.evSend with buf := rest }, outlock := true }) :=
    awaitWindowEnv_open [] _ hopen
  have hp : awaitWindow rest
      { ({ c2 with evSend := { c2.evSend with buf := rest } } : Conn) with outlock := true } =
      .ok (none,
        { ({ c2 with evSend := { c2.evSend with buf := rest } } : Conn) with outlock := true }) :=
    awaitWindow_pass _ _ hopen
  unfold inputAndSendEnv inputAndSend
  rw [if_neg (by simp [hl0]), if_neg (by simp [hl]), hw, ha]
  simp only [hp]

/-- A run of `write_chunking` in which the writer waits: `MSS = 4`, a window of
one packet and six bytes.  The first chunk is admitted at once; the second finds
`outPending = 1 >= cwnd = 1` and waits until the receive loop has handled the ACK
of the first packet, and is then admitted.  `Write` returns `(6, nil)`, and the
two DATA nodes `seq = 1, 2` with the payloads `[1,2,3,4]` and `[5,6]` were sent. -/
theorem write_chunking_witness :
    inputAndSendEnv ⟨4, 2, 3, 5, 0, true, false, 4294967295, 0⟩ { cwnd := 1 }
      { flag := F_DATA, payload := [1, 2, 3, 4] } 0
      [ackArrives ⟨4, 2, 3, 5, 0, true, false, 4294967295, 0⟩ { ack := 1, flag := F_ACK } 5] =
      .ok (none, { cwnd := 1, outPending := 1, outPkCnt := 1, mySeq := 1, evSWnd := { buf := [VSWND_ACTIVE] }, outQ := [{ seq := 1, flag := F_DATA, scnt := 1, payload := [1, 2, 3, 4] }], wire := [({ seq := 1, flag := F_DATA, scnt := 1, payload := [1, 2, 3, 4] }, true)] }) ∧
    WriteEnv ⟨4, 2, 3, 5, 0, true, false, 4294967295, 0⟩ (fun _ => 0)
      (fun _ => [ackArrives ⟨4, 2, 3, 5, 0, true, false, 4294967295, 0⟩ { ack := 1, flag := F_ACK } 5]) 10
      { cwnd := 1 } [1, 2, 3, 4, 5, 6] =
      .ok (6, none, { cwnd := 1, outPending := 1, outPkCnt := 2, mySeq := 2, evSWnd := { buf := [VSWND_ACTIVE, VSWND_ACTIVE] }, outQ := [{ seq := 2, flag := F_DATA, scnt := 1, payload := [5, 6] }], wire := [({ seq := 1, flag := F_DATA, scnt := 1, payload := [1, 2, 3, 4] }, true), ({ seq := 2, flag := F_DATA, scnt := 1, payload := [5, 6] }, true)] }) ∧
    (∃ nodes, firstSends [({ seq := 1, flag := F_DATA, scnt := 1, payload := [1, 2, 3, 4] }, true), ({ seq := 2, flag := F_DATA, scnt := 1, payload := [5, 6] }, true)] = [] ++ nodes ∧
      nodes.length = (6 + 4 - 1) / 4 ∧
      (∀ n ∈ nodes, n.flag = F_DATA ∧ n.payload ≠ [] ∧ n.payload.length ≤ 4) ∧
      (∀ k (hk : k < nodes.length), (nodes.get ⟨k, hk⟩).seq = (0 + (k + 1)) % 2 ^ 32) ∧
      (nodes.map (fun n => n.payload)).flatten = [1, 2, 3, 4, 5, 6]) := by
  have h1 : inputAndSendEnv ⟨4, 2, 3, 5, 0, true, false, 4294967295, 0⟩ { cwnd := 1 }
      { flag := F_DATA, payload := [1, 2, 3, 4] } 0
      [ackArrives ⟨4, 2, 3, 5, 0, true, false, 4294967295, 0⟩ { ack := 1, flag := F_ACK } 5] =
      .ok (none, { cwnd := 1, outPending := 1, outPkCnt := 1, mySeq := 1, evSWnd := { buf := [VSWND_ACTIVE] }, outQ := [{ seq := 1, flag := F_DATA, scnt := 1, payload := [1, 2, 3, 4] }], wire := [({ seq := 1, flag := F_DATA, scnt := 1, payload := [1, 2, 3, 4] }, true)] }) := rfl
  have h2 : inputAndSendEnv ⟨4, 2, 3, 5, 0, true, false, 4294967295, 0⟩
      { cwnd := 1, outPending := 1, outPkCnt := 1, mySeq := 1, evSWnd := { buf := [VSWND_ACTIVE] }, outQ := [{ seq := 1, flag := F_DATA, scnt := 1, payload := [1, 2, 3, 4] }], wire := [({ seq := 1, flag := F_DATA, scnt := 1, payload := [1, 2, 3, 4] }, true)] }
      { flag := F_DATA, payload := [5, 6] } 0
      [ackArrives ⟨4, 2, 3, 5, 0, true, false, 4294967295, 0⟩ { ack := 1, flag := F_ACK } 5] =
      .ok (none, { cwnd := 1, outPending := 1, outPkCnt := 2, mySeq := 2, evSWnd := { buf := [VSWND_ACTIVE, VSWND_ACTIVE] }, outQ := [{ seq := 2, flag := F_DATA, scnt := 1, payload := [5, 6] }], wire := [({ seq := 1, flag := F_DATA, scnt := 1, payload := [1, 2, 3, 4] }, true), ({ seq := 2, flag := F_DATA, scnt := 1, payload := [5, 6] }, true)] }) :=
    (inputAndSendEnv_woken ⟨4, 2, 3, 5, 0, true, false, 4294967295, 0⟩
      { cwnd := 1, outPending := 1, outPkCnt := 1, mySeq := 1, evSWnd := { buf := [VSWND_ACTIVE] }, outQ := [{ seq := 1, flag := F_DATA, scnt := 1, payload := [1, 2, 3, 4] }], wire := [({ seq := 1, flag := F_DATA, scnt := 1, payload := [1, 2, 3, 4] }, true)] }
      { cwnd := 1, outPending := 0, outPkCnt := 1, mySeq := 1, evSWnd := { buf := [VSWND_ACTIVE] }, evSend := { buf := [1] }, outQ := [], wire := [({ seq := 1, flag := F_DATA, scnt := 1, payload := [1, 2, 3, 4] }, true)] }
      { flag := F_DATA, payload := [5, 6] } 0 _ 1 [] rfl (by decide) (by decide) rfl rfl
      (by decide) rfl (by decide)).trans rfl
  have e1 := writeLoopEnv_ok_step ⟨4, 2, 3, 5, 0, true, false, 4294967295, 0⟩ (fun _ => 0)
    (fun _ => [ackArrives ⟨4, 2, 3, 5, 0, true, false, 4294967295, 0⟩ { ack := 1, flag := F_ACK } 5]) 9
    { cwnd := 1 } _ [1, 2, 3, 4, 5, 6] 0 0 (by decide) (by decide) (by decide) h1
  have e2 := writeLoopEnv_ok_step ⟨4, 2, 3, 5, 0, true, false, 4294967295, 0⟩ (fun _ => 0)
    (fun _ => [ackArrives ⟨4, 2, 3, 5, 0, true, false, 4294967295, 0⟩ { ack := 1, flag := F_ACK } 5]) 8
    _ _ [5, 6] 4 1 (by decide) (by decide) (by decide) h2
  simp only [List.length_cons, List.length_nil, List.drop, List.take, Nat.reduceAdd,
    Nat.reduceSub, Nat.reduceLeDiff, min_self, min_eq_left, min_eq_right] at e1 e2
  have hrun : WriteEnv ⟨4, 2, 3, 5, 0, true, false, 4294967295, 0⟩ (fun _ => 0)
      (fun _ => [ackArrives ⟨4, 2, 3, 5, 0, true, false, 4294967295, 0⟩ { ack := 1, flag := F_ACK } 5]) 10
      { cwnd := 1 } [1, 2, 3, 4, 5, 6] =
      .ok (6, none, { cwnd := 1, outPending := 1, outPkCnt := 2, mySeq := 2, evSWnd := { buf := [VSWND_ACTIVE, VSWND_ACTIVE] }, outQ := [{ seq := 2, flag := F_DATA, scnt := 1, payload := [5, 6] }], wire := [({ seq := 1, flag := F_DATA, scnt := 1, payload := [1, 2, 3, 4] }, true), ({ seq := 2, flag := F_DATA, scnt := 1, payload := [5, 6] }, true)] }) := by
    rw [WriteEnv, e1, e2]
    rfl
  have h := (write_chunking ⟨4, 2, 3, 5, 0, true, false, 4294967295, 0⟩ (fun _ => 0)
    (fun _ => [ackArrives ⟨4, 2, 3, 5, 0, true, false, 4294967295, 0⟩ { ack := 1, flag := F_ACK } 5]) 10
    { cwnd := 1 } [1, 2, 3, 4, 5, 6] rfl (by decide) (by decide)
    (fun _ f hf x => by
      rw [List.mem_singleton.mp hf]
      exact ackArrives_rely _ _ _ rfl x)).2.1 6 _ hrun
  obtain ⟨_, nodes, g1, g2, g3, g4, g5, _⟩ := h
  exact ⟨h1, hrun, nodes, g1, g2, g3, g4, g5⟩

/-! ## C2: Read drains the ready buffer in order -/

theorem Read_ready (fuel : Nat) (c : Conn) (buf : List Nat) (h : c.inQReady ≠ []) :
    Read (fuel + 1) c buf =
      .ok (min buf.length c.inQReady.length, none,
        c.inQReady.take (min buf.length c.inQReady.length) ++
          buf.drop (min buf.length c.inQReady.length),
        { c with inQReady := c.inQReady.drop (min buf.length c.inQReady.length) }) := by
  have hpos : c.inQReady.length > 0 := List.length_pos.mpr h
  simp [Read, copyInto, hpos]

theorem take_min_length (a : Nat) (l : List Nat) : l.take (min a l.length) = l.take a := by
  rcases Nat.le_total a l.length with h | h
  · rw [Nat.min_eq_left h]
  · rw [Nat.min_eq_right h, List.take_length, List.take_of_length_le h]

theorem drop_min_length (a : Nat) (l : List Nat) : l.drop (min a l.length) = l.drop a := by
  rcases Nat.le_total a l.length with h | h
  · rw [Nat.min_eq_left h]
  · rw [Nat.min_eq_right h, List.drop_length, List.drop_of_length_le h]

theorem readAll_ready (fuel : Nat) :
    ∀ (bufs : List (List Nat)) (c : Conn),
      ((bufs.dropLast).map List.length).sum < c.inQReady.length →
      readAll (fuel + 1) bufs c =
        .ok (c.inQReady.take (bufs.map List.length).sum,
          { c with inQReady := c.inQReady.drop (bufs.map List.length).sum }) := by
  intro bufs
  induction bufs with
  | nil => intro c _; simp [readAll]
  | cons buf bufs ih =>
    intro c h
    have hne : c.inQReady ≠ [] := by
      intro h0; rw [h0] at h; simp at h
    cases bufs with
    | nil =>
      simp only [readAll, Read_ready fuel c buf hne]
      simp [List.take_take, take_min_length, drop_min_length]
    | cons b2 bufs =>
      have hlt : buf.length < c.inQReady.length := by
        simp [List.dropLast] at h; omega
      have hmin : min buf.length c.inQReady.length = buf.length := Nat.min_eq_left (le_of_lt hlt)
      have h2 : (((b2 :: bufs).dropLast).map List.length).sum <
          ({ c with inQReady := c.inQReady.drop (min buf.length c.inQReady.length) } : Conn).inQReady.length := by
        simp [List.dropLast] at h
        simp [hmin]
        omega
      simp only [readAll, Read_ready fuel c buf hne]
      have := ih _ h2
      simp only [readAll] at this
      rw [this]
      simp [hmin, List.take_take, List.drop_drop, List.take_add, Nat.add_comm]

theorem qGet_seq : ∀ (q : List QNode) (s : Nat) (a : QNode), qGet q s = some a → a.seq = s := by
  intro q
  induction q with
  | nil => intro s a h; simp [qGet] at h
  | cons n q ih =>
    intro s a h
    by_cases hn : n.seq = s
    · simp [qGet, hn] at h; rw [← h]; exact hn
    · simp [qGet, hn] at h; exact ih s a h

theorem readInQ_appends (c0 c1 : Conn) (b : Bool) (h : readInQ c0 = .ok (b, c1)) :
    c1.inQReady = c0.inQReady ++
      (if b then ((deleteBefore c0.inQ c0.inMaxCtnSeq).1.map (fun i => i.payload)).flatten
       else []) := by
  unfold readInQ at h
  split at h
  · cases h
  · split at h
    · split at h
      · cases h
      · rename_i a ha
        have hs := qGet_seq _ _ _ ha
        simp only [Except.ok.injEq, Prod.mk.injEq] at h
        obtain ⟨hb, hc⟩ := h
        subst hb; subst hc
        simp [hs]
    · simp only [Except.ok.injEq, Prod.mk.injEq] at h
      obtain ⟨hb, hc⟩ := h
      subst hb; subst hc
      simp

/-- C2 (Read drains the ready buffer).  With a non-empty ready buffer `r`, `Read`
returns `n = min(len(buf), len(r))` and a nil error, `buf[0..n) = r[0..n)`, the
rest of `buf` is untouched and the ready buffer becomes `r[n..)`.  Successive
Reads into buffers `bufs` (the ready buffer non-empty before each) return, in
order, the first `Σ len(bufs)` bytes of `r` and leave the rest; when the buffers
can hold all of `r` the bytes returned are `r`.  A refill by `readInQ` appends
the payloads of the promoted nodes after the bytes already buffered. -/
theorem read_drains_in_order (fuel : Nat) (c : Conn) (buf : List Nat)
    (h : c.inQReady ≠ []) :
    Read (fuel + 1) c buf =
      .ok (min buf.length c.inQReady.length, none,
        c.inQReady.take (min buf.length c.inQReady.length) ++
          buf.drop (min buf.length c.inQReady.length),
        { c with inQReady := c.inQReady.drop (min buf.length c.inQReady.length) }) ∧
    (∀ bufs : List (List Nat), ((bufs.dropLast).map List.length).sum < c.inQReady.length →
      readAll (fuel + 1) bufs c =
        .ok (c.inQReady.take (bufs.map List.length).sum,
          { c with inQReady := c.inQReady.drop (bufs.map List.length).sum }) ∧
      (c.inQReady.length ≤ (bufs.map List.length).sum →
        readAll (fuel + 1) bufs c = .ok (c.inQReady, { c with inQReady := [] }))) ∧
    (∀ (c0 c1 : Conn) (b : Bool), readInQ c0 = .ok (b, c1) →
      c1.inQReady = c0.inQReady ++
        (if b then ((deleteBefore c0.inQ c0.inMaxCtnSeq).1.map (fun i => i.payload)).flatten
         else [])) := by
  refine ⟨Read_ready fuel c buf h, ?_, readInQ_appends⟩
  intro bufs hb
  refine ⟨readAll_ready fuel bufs c hb, ?_⟩
  intro hle
  rw [readAll_ready fuel bufs c hb, List.take_of_length_le hle, List.drop_of_length_le hle]

/-- A run of `read_drains_in_order`: five ready bytes read into a three-byte
buffer. -/
theorem read_drains_in_order_witness :
    Read 1 { inQReady := [10, 20, 30, 40, 50] } [0, 0, 0] =
      .ok (3, none, [10, 20, 30], { inQReady := [40, 50] }) :=
  (read_drains_in_order 0 { inQReady := [10, 20, 30, 40, 50] } [0, 0, 0] (by decide)).1

/-! ## C3: duplicate suppression in insertData -/

/-- The first duplicate branch of `insertData` (seq queued, or at or below
`inMaxCtnSeq`): the inbound state is untouched, `VACK_MUST` is offered on
`evAck`, nothing is offered on `evRead`, and `inDupCnt` grows by one. -/
theorem insertData_dup_first_branch (c : Conn) (pk : Packet) (now : Int)
    (hl : c.inlock = false)
    (hdup : qContains c.inQ pk.seq = true ∨ pk.seq ≤ c.inMaxCtnSeq) :
    insertData c pk now =
      .ok { c with
        evAck := c.evAck.trySend VACK_MUST,
        inDupCnt := wrapI64 (c.inDupCnt + 1) } := by
  have h : (qContains c.inQ pk.seq || decide (pk.seq ≤ c.inMaxCtnSeq)) = true := by
    rcases hdup with h | h
    · simp [h]
    · simp [h]
  simp [insertData, hl, h]

/-- The `dis = 0` branch of `insertData` (a packet that passes the first
duplicate test and that `searchInsert` classifies as a duplicate): the queue
returned by `searchInsert` is kept, `inDupCnt` grows by one, and nothing is
offered on `evAck`. -/
theorem insertData_dis_zero (c : Conn) (pk : Packet) (now : Int)
    (hl : c.inlock = false)
    (h1 : qContains c.inQ pk.seq = false) (h2 : ¬ pk.seq ≤ c.inMaxCtnSeq)
    (hdis : (searchInsert c.inQ { nodeOf pk with sent := now } c.lastReadSeq).2 = 0) :
    insertData c pk now =
      .ok { c with
        inQ := (searchInsert c.inQ { nodeOf pk with sent := now } c.lastReadSeq).1,
        inDupCnt := wrapI64 (c.inDupCnt + 1) } := by
  simp [insertData, hl, h1, h2, hdis]

/-- C3 (duplicate suppression), evaluated.  A stale packet, seq 4294967290 with
`lastReadSeq = inMaxCtnSeq = 5` and an empty queue, passes the first test
(`4294967290 <= 5` is false for `uint32`), `searchInsert` answers `dis = 0`, and
`insertData` counts the duplicate (`inDupCnt = 1`) while `evAck` stays empty: no
`VACK_MUST` is raised.  The same holds for seq 5 with `lastReadSeq = 7`,
`inMaxCtnSeq = 3`.  A duplicate caught by the first test, seq 5 again with
`inMaxCtnSeq = 5`, does put `VACK_MUST` on `evAck`. -/
theorem insertData_history_duplicate_no_ack :
    (insertData { lastReadSeq := 5, inMaxCtnSeq := 5 }
        { seq := 4294967290, flag := F_DATA, payload := [1] } 100).toOption.map
      (fun c => (c.inDupCnt, c.evAck.buf, c.inQ, c.inPkCnt, c.lastIns, c.evRead.buf))
      = some (1, [], [], 0, none, []) ∧
    (insertData { lastReadSeq := 7, inMaxCtnSeq := 3 }
        { seq := 5, flag := F_DATA, payload := [1] } 100).toOption.map
      (fun c => (c.inDupCnt, c.evAck.buf, c.inQ, c.inPkCnt, c.lastIns, c.evRead.buf))
      = some (1, [], [], 0, none, []) ∧
    (insertData { lastReadSeq := 5, inMaxCtnSeq := 5 }
        { seq := 5, flag := F_DATA, payload := [1] } 100).toOption.map
      (fun c => (c.inDupCnt, c.evAck.buf, c.inQ, c.inPkCnt, c.lastIns, c.evRead.buf))
      = some (1, [VACK_MUST], [], 0, none, []) := by
  refine ⟨?_, ?_, ?_⟩ <;> rfl

/-! ## C4: ACK idempotence -/

theorem qGet_none_of_not_mem : ∀ (q : List QNode) (s : Nat),
    s ∉ q.map (fun n => n.seq) → qGet q s = none := by
  intro q
  induction q with
  | nil => intro s _; rfl
  | cons n q ih =>
    intro s h
    simp only [List.map_cons, List.mem_cons, not_or] at h
    have hn : ¬ n.seq = s := fun e => h.1 e.symm
    simp only [qGet, hn, if_false]
    exact ih s h.2

theorem qGet_splitAtSeq_none : ∀ (q : List QNode) (s : Nat),
    (q.map (fun n => n.seq)).Nodup → qGet (splitAtSeq q s).2 s = none := by
  intro q
  induction q with
  | nil => intro s _; rfl
  | cons n q ih =>
    intro s h
    simp only [List.map_cons, List.nodup_cons] at h
    by_cases hn : n.seq = s
    · simp only [splitAtSeq, hn, if_true]
      apply qGet_none_of_not_mem
      rw [← hn]; exact h.1
    · simp only [splitAtSeq, hn, if_false]
      exact ih s h.2

theorem ackHit_locks (c : Conn) (d m now : Int) :
    (ackHit c d m now).outlock = false ∧ (ackHit c d m now).inlock = c.inlock ∧
    (ackHit c d m now).outQ = c.outQ := by
  unfold ackHit
  simp only
  split_ifs <;> simp

theorem processAck_duplicate (P : Params) (c : Conn) (pk : Packet) (now : Int)
    (hl : c.outlock = false) (hi : c.inlock = false) (hq : qGet c.outQ pk.ack = none) :
    ∃ c1, processAck P c pk now = .ok c1 ∧ outView c1 = outView c ∧
      c1.outlock = false ∧ c1.inlock = false := by
  by_cases hs : pk.flag.syn = true
  · by_cases ht : wrapI64 (now - c.lastAckTime) < c.rtt
    · refine ⟨{ c with outlock := false }, ?_, ?_, rfl, hi⟩
      · simp [processAck, hl, hq, hs, makeLastAck, hi, ht]
      · simp [outView]
    · simp [processAck, hl, hq, hs, makeLastAck, hi, ht, internalWrite, nodeOf, F_ACK, logAck,
        outView]
  · refine ⟨{ c with outlock := false }, ?_, ?_, rfl, hi⟩
    · simp [processAck, hl, hq, hs]
    · simp [outView]

/-- C4 (ACK idempotence).  For every connection whose outbound queue holds one
node per seq (locks free, so that the calls run) and every ACK packet,
`processAck` returns, a second `processAck` of the same packet returns too, and
it leaves the outbound queue, `outPending`, `cwnd`, `missed` and the outbound
counters exactly as the first left them. -/
theorem processAck_idempotent (P : Params) (c : Conn) (pk : Packet) (now1 now2 : Int)
    (hl : c.outlock = false) (hi : c.inlock = false)
    (hq : (c.outQ.map (fun n => n.seq)).Nodup) :
    ∃ c1 c2, processAck P c pk now1 = .ok c1 ∧ processAck P c1 pk now2 = .ok c2 ∧
      outView c2 = outView c1 := by
  cases hg : qGet c.outQ pk.ack with
  | none =>
    obtain ⟨c1, h1, hv1, hl1, hi1⟩ := processAck_duplicate P c pk now1 hl hi hg
    have hg1 : qGet c1.outQ pk.ack = none := by
      have : c1.outQ = c.outQ := congrArg Prod.fst hv1
      rw [this]; exact hg
    obtain ⟨c2, h2, hv2, _, _⟩ := processAck_duplicate P c1 pk now2 hl1 hi1 hg1
    exact ⟨c1, c2, h1, h2, hv2⟩
  | some e =>
    have he : e.seq = pk.ack := qGet_seq _ _ _ hg
    obtain ⟨ha1, ha2, ha3⟩ := ackHit_locks
      { c with outlock := true, outQ := (deleteBefore c.outQ e.seq).2.2 }
      (deleteBefore c.outQ e.seq).2.1 0 now1
    have hrest : qGet (deleteBefore c.outQ e.seq).2.2 pk.ack = none := by
      rw [he]; exact qGet_splitAtSeq_none c.outQ pk.ack hq
    by_cases hf : pk.seq = P.FIN_ACK_SEQ
    · have h1 : processAck P c pk now1 = .ok
          { ackHit { c with outlock := true, outQ := (deleteBefore c.outQ e.seq).2.2 }
              (deleteBefore c.outQ e.seq).2.1 0 now1 with
            evClose := (ackHit { c with outlock := true, outQ := (deleteBefore c.outQ e.seq).2.2 }
              (deleteBefore c.outQ e.seq).2.1 0 now1).evClose.trySend P.S_FIN0 } := by
        simp [processAck, hl, hg, hf]
      obtain ⟨c2, h2, hv2, _, _⟩ := processAck_duplicate P _ pk now2
        (show ({ ackHit { c with outlock := true, outQ := (deleteBefore c.outQ e.seq).2.2 }
              (deleteBefore c.outQ e.seq).2.1 0 now1 with
            evClose := (ackHit { c with outlock := true, outQ := (deleteBefore c.outQ e.seq).2.2 }
              (deleteBefore c.outQ e.seq).2.1 0 now1).evClose.trySend P.S_FIN0 } : Conn).outlock
            = false from ha1)
        (by show (ackHit _ _ _ _).inlock = false; rw [ha2]; exact hi)
        (by show qGet (ackHit _ _ _ _).outQ pk.ack = none; rw [ha3]; exact hrest)
      exact ⟨_, c2, h1, h2, hv2⟩
    · have h1 : processAck P c pk now1 = .ok
          (ackHit { c with outlock := true, outQ := (deleteBefore c.outQ e.seq).2.2 }
              (deleteBefore c.outQ e.seq).2.1 0 now1) := by
        simp [processAck, hl, hg, hf]
      obtain ⟨c2, h2, hv2, _, _⟩ := processAck_duplicate P _ pk now2 ha1
        (by rw [ha2]; exact hi) (by rw [ha3]; exact hrest)
      exact ⟨_, c2, h1, h2, hv2⟩

/-- A run of `processAck_idempotent`: three nodes in flight, an ACK for the
second; the first call prunes two nodes, the second changes nothing. -/
theorem processAck_idempotent_witness :
    ∃ c1 c2,
      processAck ⟨4, 2, 3, 5, 0, true, false, 0, 0⟩
        { outQ := [{ seq := 1, scnt := 1 }, { seq := 2, scnt := 1 }, { seq := 3, scnt := 1 }],
          outPending := 3, cwnd := 4, swnd := 8 } { ack := 2, flag := F_ACK } 50 = .ok c1 ∧
      processAck ⟨4, 2, 3, 5, 0, true, false, 0, 0⟩ c1 { ack := 2, flag := F_ACK } 60 = .ok c2 ∧
      outView c2 = outView c1 :=
  processAck_idempotent ⟨4, 2, 3, 5, 0, true, false, 0, 0⟩
    { outQ := [{ seq := 1, scnt := 1 }, { seq := 2, scnt := 1 }, { seq := 3, scnt := 1 }],
      outPending := 3, cwnd := 4, swnd := 8 } { ack := 2, flag := F_ACK } 50 60 rfl rfl
    (by decide)

/-! ## C5: SACK payload round trip -/

theorem getUint64_putUint64 (v : Nat) (rest : List Nat) (h : v < 2 ^ 64) :
    getUint64 (putUint64 v ++ rest) = .ok v := by
  simp only [getUint64, putUint64, List.cons_append, List.length_cons, List.nil_append]
  have hlen : ¬ (rest.length + 1 + 1 + 1 + 1 + 1 + 1 + 1 + 1 < 8) := by omega
  simp only [hlen, if_false, List.take_succ_cons, List.take_zero, beValue, List.foldl_cons,
    List.foldl_nil]
  congr 1
  omega

theorem readWords_putUint64 : ∀ (bmap : List Nat) (rest : List Nat),
    (∀ w ∈ bmap, w < 2 ^ 64) →
    readWords bmap.length ((bmap.map putUint64).flatten ++ rest) = .ok bmap := by
  intro bmap
  induction bmap with
  | nil => intro rest _; rfl
  | cons w ws ih =>
    intro rest h
    have hw : w < 2 ^ 64 := h w (List.mem_cons_self _ _)
    have hws : ∀ x ∈ ws, x < 2 ^ 64 := fun x hx => h x (List.mem_cons_of_mem _ hx)
    have e : ((w :: ws).map putUint64).flatten ++ rest
        = putUint64 w ++ ((ws.map putUint64).flatten ++ rest) := by
      simp [List.append_assoc]
    have hdrop : List.drop 8 (putUint64 w ++ ((ws.map putUint64).flatten ++ rest))
        = (ws.map putUint64).flatten ++ rest := by
      simp [putUint64]
    rw [e, List.length_cons, readWords, getUint64_putUint64 w _ hw, hdrop, ih rest hws]

theorem flatten_putUint64_length : ∀ (bmap : List Nat),
    ((bmap.map putUint64).flatten).length = 8 * bmap.length := by
  intro bmap
  induction bmap with
  | nil => rfl
  | cons w ws ih =>
    simp only [List.map_cons, List.flatten_cons, List.length_append, ih, List.length_cons]
    simp [putUint64]
    omega

theorem unmarshallSAck_wellformed (b0 b1 hi lo : Nat) (bmap : List Nat)
    (hw : ∀ w ∈ bmap, w < 2 ^ 64) :
    unmarshallSAck (b0 :: b1 :: hi :: lo :: (bmap.map putUint64).flatten) =
      .ok (some bmap, b0, hi * 256 + lo, wrapI8 b1) := by
  have hrw := readWords_putUint64 bmap [] hw
  rw [List.append_nil] at hrw
  have hdiv : ((bmap.map putUint64).flatten.length + 1 + 1 + 1 + 1) / 8 = bmap.length := by
    rw [flatten_putUint64_length]; omega
  have h16 : getUint16 (hi :: lo :: (bmap.map putUint64).flatten) = .ok (hi * 256 + lo) := by
    unfold getUint16
    have hl : ¬ ((hi :: lo :: (bmap.map putUint64).flatten).length < 2) := by
      simp only [List.length_cons]; omega
    rw [if_neg hl]
    simp only [List.take_succ_cons, List.take_zero, beValue, List.foldl_cons, List.foldl_nil]
    simp
  unfold unmarshallSAck
  simp only [List.length_cons, hdiv, h16, List.drop_succ_cons, List.drop_zero, hrw]
  simp

/-- C5 as amended (SACK payload round trip).  Let the hole bitmap of the inbound
queue be `bmap` with `n >= 1` words (each a `uint64`) and indicator `tbl` in
0..255, and let the time-reference packet have `scnt` in 0..127 and have arrived
`delay = now - sent` ms ago with `1 <= delay <= 65535`.  An ACK that is not
throttled has a payload of length `4 + 8n`.  If `delay < rtt` the packet carries
the TIME flag, its payload is
`[tbl, scnt, delay >> 8, delay & 0xff] ++ big-endian words`, and
`unmarshallSAck` of it returns the same bitmap, `tbl`, delay and `scnt`.  If
`delay >= rtt` the packet has no TIME flag, bytes 1-3 are zero, and
`unmarshallSAck` returns the same bitmap and `tbl` with delay 0 and `scnt` 0. -/
theorem sack_payload_roundtrip (holes : List QNode → Nat → List Nat × Nat) (c : Conn)
    (demand : Nat) (now : Int) (trp : QNode) (bmap : List Nat) (tbl : Nat)
    (hthr : ¬ (demand < VACK_MUST ∧ wrapI64 (now - c.lastAckTime) < c.ato))
    (hh : holes c.inQ c.inMaxCtnSeq = (bmap, tbl))
    (hn : 1 ≤ bmap.length) (hw : ∀ w ∈ bmap, w < 2 ^ 64) (htbl : tbl < 256)
    (htrp : c.lastIns = some trp) (hs0 : 0 ≤ trp.scnt) (hs1 : trp.scnt ≤ 127)
    (hd0 : 1 ≤ now - trp.sent) (hd1 : now - trp.sent ≤ 65535) :
    ∃ pk, (makeAck holes c demand now).2 = some pk ∧
      pk.payload.length = 4 + 8 * bmap.length ∧
      (now - trp.sent < c.rtt →
        pk.flag.time = true ∧
        pk.payload =
          [tbl, trp.scnt.toNat, (now - trp.sent).toNat / 256, (now - trp.sent).toNat % 256] ++
            (bmap.map putUint64).flatten ∧
        unmarshallSAck pk.payload = .ok (some bmap, tbl, (now - trp.sent).toNat, trp.scnt)) ∧
      (¬ now - trp.sent < c.rtt →
        pk.flag.time = false ∧
        pk.payload = [tbl, 0, 0, 0] ++ (bmap.map putUint64).flatten ∧
        unmarshallSAck pk.payload = .ok (some bmap, tbl, 0, 0)) := by
  have hwrap : wrapI64 (now - trp.sent) = now - trp.sent := by
    unfold wrapI64 wrapI; norm_num; omega
  have hfake : ¬ bmap.length ≤ 0 := by omega
  have hpos : ¬ (now - trp.sent ≤ 0) := by omega
  have hb1 : byteOfInt trp.scnt = trp.scnt.toNat := by
    unfold byteOfInt; congr 1; omega
  have hd16 : u16OfInt (now - trp.sent) = (now - trp.sent).toNat := by
    unfold u16OfInt; congr 1; omega
  have hdn : (now - trp.sent).toNat < 65536 := by omega
  have htm : tbl % 256 = tbl := Nat.mod_eq_of_lt htbl
  have hhi : (now - trp.sent).toNat / 256 % 256 = (now - trp.sent).toNat / 256 := by omega
  by_cases hrtt : now - trp.sent < c.rtt
  · have hpay : ((makeAck holes c demand now).2.map (fun p => (p.payload, p.flag.time))) =
        some ([tbl, trp.scnt.toNat, (now - trp.sent).toNat / 256, (now - trp.sent).toNat % 256] ++
            (bmap.map putUint64).flatten, true) := by
      simp [makeAck, hthr, hh, hfake, htrp, hwrap, hrtt, hpos, hb1, hd16, htm, putUint16, hhi]
    cases hm : (makeAck holes c demand now).2 with
    | none => rw [hm] at hpay; simp at hpay
    | some pk =>
      rw [hm] at hpay
      simp only [Option.map_some', Option.some.injEq, Prod.mk.injEq] at hpay
      obtain ⟨hpay, hflag⟩ := hpay
      have hlen : pk.payload.length = 4 + 8 * bmap.length := by
        rw [hpay, List.length_append, flatten_putUint64_length]; simp
      refine ⟨pk, rfl, hlen, fun _ => ⟨hflag, hpay, ?_⟩, fun h => absurd hrtt h⟩
      have hwi : wrapI8 (trp.scnt.toNat : Int) = trp.scnt := by
        unfold wrapI8 wrapI; norm_num; omega
      have hsplit : (now - trp.sent).toNat / 256 * 256 + (now - trp.sent).toNat % 256
          = (now - trp.sent).toNat := by omega
      rw [hpay]
      simp only [List.cons_append, List.nil_append]
      rw [unmarshallSAck_wellformed _ _ _ _ bmap hw, hsplit, hwi]
  · have hpay : ((makeAck holes c demand now).2.map (fun p => (p.payload, p.flag.time))) =
        some ([tbl, 0, 0, 0] ++ (bmap.map putUint64).flatten, false) := by
      simp [makeAck, hthr, hh, hfake, htrp, hwrap, hrtt, htm, F_SACK]
    cases hm : (makeAck holes c demand now).2 with
    | none => rw [hm] at hpay; simp at hpay
    | some pk =>
      rw [hm] at hpay
      simp only [Option.map_some', Option.some.injEq, Prod.mk.injEq] at hpay
      obtain ⟨hpay, hflag⟩ := hpay
      have hlen : pk.payload.length = 4 + 8 * bmap.length := by
        rw [hpay, List.length_append, flatten_putUint64_length]; simp
      refine ⟨pk, rfl, hlen, fun h => absurd h hrtt, fun _ => ⟨hflag, hpay, ?_⟩⟩
      have hwi : wrapI8 ((0 : Nat) : Int) = 0 := by
        unfold wrapI8 wrapI; norm_num
      rw [hpay]
      simp only [List.cons_append, List.nil_append]
      rw [unmarshallSAck_wellformed _ _ _ _ bmap hw, hwi]

/-- A run of `sack_payload_roundtrip`: seq 8 queued beyond `inMaxCtnSeq = 5`, so
the bitmap is the single word 4; the reference packet arrived 10 ms ago, below
`rtt = 20`. -/
theorem sack_payload_roundtrip_witness :
    ∃ pk,
      (makeAck makeHolesBitmap
        { inMaxCtnSeq := 5, rtt := 20, inQ := [{ seq := 8, scnt := 1, sent := 90 }],
          lastIns := some { seq := 8, scnt := 1, sent := 90 } } VACK_MUST 100).2 = some pk ∧
      pk.payload.length = 4 + 8 * 1 ∧
      pk.flag.time = true ∧
      pk.payload = [1, 1, 0, 10] ++ ([4].map putUint64).flatten ∧
      unmarshallSAck pk.payload = .ok (some [4], 1, 10, 1) := by
  obtain ⟨pk, h1, h2, h3, _⟩ := sack_payload_roundtrip makeHolesBitmap
    { inMaxCtnSeq := 5, rtt := 20, inQ := [{ seq := 8, scnt := 1, sent := 90 }],
      lastIns := some { seq := 8, scnt := 1, sent := 90 } } VACK_MUST 100
    { seq := 8, scnt := 1, sent := 90 } [4] 1
    (by decide) (by rfl) (by decide) (by decide) (by decide) rfl (by decide) (by decide)
    (by decide) (by decide)
  exact ⟨pk, h1, h2, h3 (by decide)⟩

/-- C5 as stated fails: with `rtt = 20` and a reference packet (`scnt = 1`) that
arrived 40 ms ago, a delay inside 1..65535, `makeAck` skips the timing bytes:
the payload is `[1, 0, 0, 0] ++ words` with no TIME flag, and `unmarshallSAck`
returns delay 0 and `scnt` 0, not 40 and 1. -/
theorem makeAck_drops_old_delay :
    ((makeAck makeHolesBitmap
        { inMaxCtnSeq := 5, rtt := 20, inQ := [{ seq := 8, scnt := 1, sent := 60 }],
          lastIns := some { seq := 8, scnt := 1, sent := 60 } } VACK_MUST 100).2.map
      (fun pk => (pk.payload, pk.flag.time))) =
      some ([1, 0, 0, 0, 0, 0, 0, 0, 0, 0, 0, 4], false) ∧
    ((makeAck makeHolesBitmap
        { inMaxCtnSeq := 5, rtt := 20, inQ := [{ seq := 8, scnt := 1, sent := 60 }],
          lastIns := some { seq := 8, scnt := 1, sent := 60 } } VACK_MUST 100).2.map
      (fun pk => (unmarshallSAck pk.payload).toOption)) = some (some (some [4], 1, 0, 0)) ∧
    ((makeAck makeHolesBitmap
        { inMaxCtnSeq := 5, rtt := 20, inQ := [{ seq := 8, scnt := 1, sent := 60 }],
          lastIns := some { seq := 8, scnt := 1, sent := 60 } } VACK_MUST 100).2.map
      (fun pk => (unmarshallSAck pk.payload).toOption)) ≠ some (some (some [4], 1, 40, 1)) := by
  refine ⟨by decide, by decide, by decide⟩

/-! ## C6: malformed SACK payloads -/

/-- C6 (malformed SACK payloads), evaluated.  `unmarshallSAck` indexes out of
range on payloads of 1, 3 and 8 bytes, and `processSAck` panics with them.  On
the empty payload `processSAck` returns through its bad-packet exit with
`outlock` still held, so the next `processAck` (or `processSAck`) never gets the
lock.  A 4-byte payload (a header without bitmap) is not dropped either: with
the TIME flag it feeds the estimator (`rtt` goes from 8 to 13). -/
theorem processSAck_malformed_payload :
    unmarshallSAck [7] = .error .panic ∧
    unmarshallSAck [7, 1, 0] = .error .panic ∧
    unmarshallSAck [1, 1, 0, 10, 0, 0, 0, 4] = .error .panic ∧
    processSAck ⟨4, 2, 3, 5, 0, true, false, 0, 0⟩ {} { flag := F_SACK, payload := [7] } 100
      = .error .panic ∧
    (processSAck ⟨4, 2, 3, 5, 0, true, false, 0, 0⟩ {} { flag := F_SACK, payload := [] }
      100).toOption.map (fun c => c.outlock) = some true ∧
    (match processSAck ⟨4, 2, 3, 5, 0, true, false, 0, 0⟩ {} { flag := F_SACK, payload := [] }
        100 with
      | .ok c1 => processAck ⟨4, 2, 3, 5, 0, true, false, 0, 0⟩ c1 { ack := 1, flag := F_ACK } 101
      | .error f => .error f) = .error .blocked ∧
    (processSAck ⟨4, 2, 3, 5, 0, true, false, 0, 0⟩
        { outQ := [{ seq := 1, scnt := 1, sent := 50 }], outPending := 1 }
        { seq := 1, flag := { sack := true, time := true }, payload := [0, 1, 0, 1] }
        100).toOption.map (fun c => (c.rtt, c.outlock)) = some (13, false) := by
  refine ⟨rfl, rfl, rfl, rfl, rfl, rfl, rfl⟩

/-! ## C7: RTT/RTO floors -/

theorem measureSample_floors (P : Params) (c : Conn) (lastSent delayed now : Int)
    (hrtt : MIN_RTT ≤ c.rtt) (hrto : MIN_RTO ≤ c.rto) :
    MIN_RTT ≤ (measureSample P c lastSent delayed now).rtt ∧
    MIN_RTO ≤ (measureSample P c lastSent delayed now).rto := by
  unfold measureSample
  simp only
  split_ifs <;> first
    | exact ⟨hrtt, hrto⟩
    | (constructor <;> simp only [MIN_RTT, MIN_RTO] at * <;> omega)

/-- C7 (RTT/RTO floors).  From a state with `rtt >= MIN_RTT` (8) and
`rto >= MIN_RTO` (30), every call `measure(seq, delayed, scnt)` at any clock
value leaves `rtt >= 8` and `rto >= 30`: whether the seq is not queued, the send
counts differ by more than one, the sample is rejected, or it is accepted. -/
theorem measure_keeps_floors (P : Params) (c : Conn) (seq : Nat) (delayed scnt now : Int)
    (hrtt : MIN_RTT ≤ c.rtt) (hrto : MIN_RTO ≤ c.rto) :
    MIN_RTT ≤ (measure P c seq delayed scnt now).rtt ∧
    MIN_RTO ≤ (measure P c seq delayed scnt now).rto := by
  unfold measure
  split
  · exact ⟨hrtt, hrto⟩
  · split_ifs
    · exact measureSample_floors P c _ delayed now hrtt hrto
    · exact measureSample_floors P c _ delayed now hrtt hrto
    · exact ⟨hrtt, hrto⟩

/-- A run of `measure_keeps_floors`: an accepted sample of 49 ms on the
bootstrap values `rtt = 8`, `rto = 30`. -/
theorem measure_keeps_floors_witness :
    MIN_RTT ≤ (measure ⟨1400, 2, 3, 5, 2097152, true, false, 0, 0⟩
      { outQ := [{ seq := 1, scnt := 1, sent := 50 }], outPending := 1 } 1 1 1 100).rtt ∧
    MIN_RTO ≤ (measure ⟨1400, 2, 3, 5, 2097152, true, false, 0, 0⟩
      { outQ := [{ seq := 1, scnt := 1, sent := 50 }], outPending := 1 } 1 1 1 100).rto :=
  measure_keeps_floors ⟨1400, 2, 3, 5, 2097152, true, false, 0, 0⟩
    { outQ := [{ seq := 1, scnt := 1, sent := 50 }], outPending := 1 } 1 1 1 100
    (by decide) (by decide)

/-! ## C8: ACK timeout bounds -/

theorem measureSample_ato_eq (P : Params) (c : Conn) (lastSent delayed now : Int) :
    measureSample P c lastSent delayed now = c ∨
    (measureSample P c lastSent delayed now).ato =
      (if shr (measureSample P c lastSent delayed now).rtt 4 < MIN_ATO then MIN_ATO
       else shr (measureSample P c lastSent delayed now).rtt 4) := by
  unfold measureSample
  simp only
  by_cases hrej : wrapI64 (wrapI64 (now - lastSent) - delayed) < maxI (shr c.rtt 3) 1 ∨
      delayed > shr c.rtt 1
  · left; rw [if_pos hrej]
  · right; rw [if_neg hrej]

theorem measure_cases (P : Params) (c : Conn) (seq : Nat) (delayed scnt now : Int) :
    measure P c seq delayed scnt now = c ∨
    ∃ lastSent, measure P c seq delayed scnt now = measureSample P c lastSent delayed now := by
  rcases hq : qGet c.outQ seq with _ | t
  · left; simp [measure, hq]
  · by_cases h0 : wrapI8 (t.scnt - scnt) = 0
    · right; exact ⟨t.sent, by simp [measure, hq, h0]⟩
    · by_cases h1 : wrapI8 (t.scnt - scnt) = 1
      · right; exact ⟨t.sent_1, by simp [measure, hq, h0, h1]⟩
      · left; simp [measure, hq, h0, h1]

theorem measure_ato_eq (P : Params) (c : Conn) (seq : Nat) (delayed scnt now : Int) :
    measure P c seq delayed scnt now = c ∨
    (measure P c seq delayed scnt now).ato =
      (if shr (measure P c seq delayed scnt now).rtt 4 < MIN_ATO then MIN_ATO
       else shr (measure P c seq delayed scnt now).rtt 4) := by
  rcases measure_cases P c seq delayed scnt now with h | ⟨ls, h⟩
  · left; exact h
  · rw [h]; exact measureSample_ato_eq P c ls delayed now

theorem measure_not_accepted (P : Params) (c : Conn) (seq : Nat) (delayed scnt now : Int)
    (h : measureAccepts c seq delayed scnt now = false) :
    measure P c seq delayed scnt now = c := by
  unfold measureAccepts measureLastSent at h
  unfold measure
  rcases hq : qGet c.outQ seq with _ | t
  · rfl
  · rw [hq] at h
    simp only at h ⊢
    by_cases h0 : wrapI8 (t.scnt - scnt) = 0
    · rw [if_pos h0] at h ⊢
      simp only [Bool.not_eq_false', decide_eq_true_eq, sampleRtt] at h
      unfold measureSample
      simp only
      rw [if_pos h]
    · rw [if_neg h0] at h ⊢
      by_cases h1 : wrapI8 (t.scnt - scnt) = 1
      · rw [if_pos h1] at h ⊢
        simp only [Bool.not_eq_false', decide_eq_true_eq, sampleRtt] at h
        unfold measureSample
        simp only
        rw [if_pos h]
      · rw [if_neg h1]

/-- What an accepted sample does to the estimator: with
`err = sample - (srtt >> 3)`, `srtt' = srtt + err`,
`rtt' = max(MIN_RTT, srtt' >> 3)`, `ato' = max(MIN_ATO, rtt' >> 4)` and
`swnd' = int32(7 * swnd + calSwnd(rtt')) >> 3`. -/
theorem measure_accepted (P : Params) (c : Conn) (seq : Nat) (delayed scnt now : Int)
    (h : measureAccepts c seq delayed scnt now = true) :
    ∃ lastSent, measureLastSent c seq scnt = some lastSent ∧
      (measure P c seq delayed scnt now).srtt =
        wrapI64 (c.srtt + wrapI64 (sampleRtt lastSent delayed now - shr c.srtt 3)) ∧
      (measure P c seq delayed scnt now).rtt =
        max MIN_RTT ((measure P c seq delayed scnt now).srtt / 8) ∧
      (measure P c seq delayed scnt now).ato =
        max MIN_ATO ((measure P c seq delayed scnt now).rtt / 16) ∧
      (measure P c seq delayed scnt now).swnd =
        shr (wrapI32 (7 * c.swnd + calSwnd P (measure P c seq delayed scnt now).rtt)) 3 := by
  have key : ∀ ls, ¬ (sampleRtt ls delayed now < maxI (shr c.rtt 3) 1 ∨ delayed > shr c.rtt 1) →
      (measureSample P c ls delayed now).srtt =
        wrapI64 (c.srtt + wrapI64 (sampleRtt ls delayed now - shr c.srtt 3)) ∧
      (measureSample P c ls delayed now).rtt =
        max MIN_RTT ((measureSample P c ls delayed now).srtt / 8) ∧
      (measureSample P c ls delayed now).ato =
        max MIN_ATO ((measureSample P c ls delayed now).rtt / 16) ∧
      (measureSample P c ls delayed now).swnd =
        shr (wrapI32 (7 * c.swnd + calSwnd P (measureSample P c ls delayed now).rtt)) 3 := by
    intro ls hacc
    unfold sampleRtt at hacc
    unfold measureSample
    simp only
    rw [if_neg hacc]
    simp only [sampleRtt]
    refine ⟨trivial, ?_, ?_, ?_⟩
    · unfold shr MIN_RTT; norm_num
      split_ifs with hlt
      · rw [max_eq_left (by omega)]
      · rw [max_eq_right (by omega)]
    · unfold shr MIN_ATO; norm_num
      split_ifs with hlt hlt2 hlt2
      all_goals first | rw [max_eq_left (by omega)] | rw [max_eq_right (by omega)]
    · congr 1
      generalize calSwnd P _ = w
      unfold wrapI32 wrapI
      norm_num
      omega
  have sel : ∃ ls, measureLastSent c seq scnt = some ls ∧
      ¬ (sampleRtt ls delayed now < maxI (shr c.rtt 3) 1 ∨ delayed > shr c.rtt 1) ∧
      measure P c seq delayed scnt now = measureSample P c ls delayed now := by
    unfold measureAccepts measureLastSent at h
    unfold measureLastSent measure
    rcases hq : qGet c.outQ seq with _ | t
    · rw [hq] at h; simp at h
    · rw [hq] at h
      simp only at h ⊢
      by_cases h0 : wrapI8 (t.scnt - scnt) = 0
      · rw [if_pos h0] at h ⊢
        simp only [Bool.not_eq_true', decide_eq_false_iff_not] at h
        exact ⟨t.sent, rfl, h, by rw [if_pos h0]⟩
      · rw [if_neg h0] at h ⊢
        by_cases h1 : wrapI8 (t.scnt - scnt) = 1
        · rw [if_pos h1] at h ⊢
          simp only [Bool.not_eq_true', decide_eq_false_iff_not] at h
          exact ⟨t.sent_1, rfl, h, by rw [if_neg h0, if_pos h1]⟩
        · rw [if_neg h1] at h; simp at h
  obtain ⟨ls, hls, hacc, hm⟩ := sel
  rw [hm]
  exact ⟨ls, hls, key ls hacc⟩

/-- C8 as amended (ACK timeout bounds).  From a state with
`MIN_ATO <= ato <= MAX_ATO`, after any call of `measure`: `ato >= MIN_ATO`.  On
an accepted sample the new `rtt` is `max(MIN_RTT, srtt'/8)` with
`srtt' = srtt + (sample - srtt/8)`, and `ato = max(MIN_ATO, rtt/16)` for the new
`rtt`, which is at most `MAX_ATO` when the new `rtt` is below 496 and above
`MAX_ATO` otherwise: nothing caps `ato`.  When the sample is not accepted the
state is unchanged, so `ato <= MAX_ATO` still holds. -/
theorem measure_ato_bounds (P : Params) (c : Conn) (seq : Nat) (delayed scnt now : Int)
    (h0 : MIN_ATO ≤ c.ato) (h1 : c.ato ≤ MAX_ATO) :
    MIN_ATO ≤ (measure P c seq delayed scnt now).ato ∧
    (measureAccepts c seq delayed scnt now = true →
      (∃ lastSent, measureLastSent c seq scnt = some lastSent ∧
        (measure P c seq delayed scnt now).rtt =
          max MIN_RTT
            (wrapI64 (c.srtt + wrapI64 (sampleRtt lastSent delayed now - shr c.srtt 3)) / 8)) ∧
      (measure P c seq delayed scnt now).ato =
        max MIN_ATO ((measure P c seq delayed scnt now).rtt / 16) ∧
      ((measure P c seq delayed scnt now).rtt < 496 →
        (measure P c seq delayed scnt now).ato ≤ MAX_ATO) ∧
      (496 ≤ (measure P c seq delayed scnt now).rtt →
        MAX_ATO < (measure P c seq delayed scnt now).ato)) ∧
    (measureAccepts c seq delayed scnt now = false →
      measure P c seq delayed scnt now = c ∧
      (measure P c seq delayed scnt now).ato ≤ MAX_ATO) := by
  have hacc : measureAccepts c seq delayed scnt now = true →
      (measure P c seq delayed scnt now).ato =
        max MIN_ATO ((measure P c seq delayed scnt now).rtt / 16) := by
    intro h
    obtain ⟨_, _, _, _, ha, _⟩ := measure_accepted P c seq delayed scnt now h
    exact ha
  have hrej : measureAccepts c seq delayed scnt now = false →
      measure P c seq delayed scnt now = c :=
    measure_not_accepted P c seq delayed scnt now
  refine ⟨?_, ?_, ?_⟩
  · cases h : measureAccepts c seq delayed scnt now with
    | true => rw [hacc h]; exact le_max_left _ _
    | false => rw [hrej h]; exact h0
  · intro h
    refine ⟨?_, hacc h, ?_, ?_⟩
    · obtain ⟨ls, hls, hs, hr, _, _⟩ := measure_accepted P c seq delayed scnt now h
      exact ⟨ls, hls, by rw [hr, hs]⟩
    · intro hr
      rw [hacc h]
      unfold MIN_ATO MAX_ATO
      apply max_le <;> omega
    · intro hr
      rw [hacc h]
      unfold MAX_ATO
      exact lt_of_lt_of_le (by omega) (le_max_right _ _)
  · intro h
    refine ⟨hrej h, ?_⟩
    rw [hrej h]; exact h1

/-- A run of `measure_ato_bounds`: an accepted sample of 49 ms on a state with
`ato = 30`; the new `rtt` is 13 and `ato` becomes 2. -/
theorem measure_ato_bounds_witness :
    measureAccepts { outQ := [{ seq := 1, scnt := 1, sent := 50 }], outPending := 1, ato := 30 }
      1 1 1 100 = true ∧
    (measure ⟨1400, 2, 3, 5, 2097152, true, false, 0, 0⟩
      { outQ := [{ seq := 1, scnt := 1, sent := 50 }], outPending := 1, ato := 30 }
      1 1 1 100).rtt = 13 ∧
    (measure ⟨1400, 2, 3, 5, 2097152, true, false, 0, 0⟩
      { outQ := [{ seq := 1, scnt := 1, sent := 50 }], outPending := 1, ato := 30 }
      1 1 1 100).ato =
      max MIN_ATO ((measure ⟨1400, 2, 3, 5, 2097152, true, false, 0, 0⟩
        { outQ := [{ seq := 1, scnt := 1, sent := 50 }], outPending := 1, ato := 30 }
        1 1 1 100).rtt / 16) ∧
    (measure ⟨1400, 2, 3, 5, 2097152, true, false, 0, 0⟩
      { outQ := [{ seq := 1, scnt := 1, sent := 50 }], outPending := 1, ato := 30 }
      1 1 1 100).ato = 2 ∧
    (measure ⟨1400, 2, 3, 5, 2097152, true, false, 0, 0⟩
      { outQ := [{ seq := 1, scnt := 1, sent := 50 }], outPending := 1, ato := 30 }
      1 1 1 100).ato ≤ MAX_ATO :=
  ⟨by decide, by decide,
   ((measure_ato_bounds ⟨1400, 2, 3, 5, 2097152, true, false, 0, 0⟩
      { outQ := [{ seq := 1, scnt := 1, sent := 50 }], outPending := 1, ato := 30 } 1 1 1 100
      (by decide) (by decide)).2.1 (by decide)).2.1,
   by decide,
   ((measure_ato_bounds ⟨1400, 2, 3, 5, 2097152, true, false, 0, 0⟩
      { outQ := [{ seq := 1, scnt := 1, sent := 50 }], outPending := 1, ato := 30 } 1 1 1 100
      (by decide) (by decide)).2.1 (by decide)).2.2.1 (by decide)⟩

/-- C8 as stated fails: from the bootstrap state (`ato = 2`, `rtt = 8`,
`srtt = 64`) one accepted sample of 4000 ms gives `rtt = 507` and
`ato = 507 >> 4 = 31`, above `MAX_ATO = 30`. -/
theorem measure_ato_exceeds_max :
    MIN_ATO ≤ ({ outQ := [{ seq := 1, scnt := 1, sent := 0 }], rtt := 8, srtt := 64, ato := 2 } : Conn).ato ∧
    ({ outQ := [{ seq := 1, scnt := 1, sent := 0 }], rtt := 8, srtt := 64, ato := 2 } : Conn).ato ≤ MAX_ATO ∧
    (measure ⟨1400, 2, 3, 5, 2097152, true, false, 0, 0⟩
      { outQ := [{ seq := 1, scnt := 1, sent := 0 }], rtt := 8, srtt := 64, ato := 2 } 1 1 1 4001).rtt = 507 ∧
    (measure ⟨1400, 2, 3, 5, 2097152, true, false, 0, 0⟩
      { outQ := [{ seq := 1, scnt := 1, sent := 0 }], rtt := 8, srtt := 64, ato := 2 } 1 1 1 4001).ato = 31 ∧
    ¬ ((measure ⟨1400, 2, 3, 5, 2097152, true, false, 0, 0⟩
      { outQ := [{ seq := 1, scnt := 1, sent := 0 }], rtt := 8, srtt := 64, ato := 2 } 1 1 1 4001).ato
        ≤ MAX_ATO) := by
  refine ⟨by decide, by decide, rfl, rfl, by decide⟩

/-! ## Window bookkeeping of ackHit and retransmit -/

theorem ackHit_fields (c : Conn) (deleted missed now : Int) :
    (ackHit c deleted missed now).swnd = c.swnd ∧
    (ackHit c deleted missed now).missed =
      (if missed ≥ c.missed then missed else shr (wrapI32 (c.missed + missed)) 1) ∧
    (ackHit c deleted missed now).cwnd =
      wrapI32
        ((if (if c.cwnd < c.swnd ∧ wrapI64 (now - c.lastShrink) > c.rtt
              then wrapI32 (c.cwnd + shr c.cwnd 1) else c.cwnd) > c.swnd
          then c.swnd
          else (if c.cwnd < c.swnd ∧ wrapI64 (now - c.lastShrink) > c.rtt
              then wrapI32 (c.cwnd + shr c.cwnd 1) else c.cwnd)) +
         (if missed ≥ c.missed then missed else shr (wrapI32 (c.missed + missed)) 1)) ∧
    (ackHit c deleted missed now).outPending = wrapI32 (c.outPending - deleted) := by
  unfold ackHit
  simp only
  split_ifs <;> simp_all

theorem internalWrite_window (P : Params) (c c1 : Conn) (item item1 : QNode) (now : Int)
    (h : internalWrite P c item now = .ok (c1, item1)) :
    c1.cwnd = c.cwnd ∧ c1.swnd = c.swnd ∧ c1.missed = c.missed ∧
    c1.lastShrink = c.lastShrink ∧ c1.outDupCnt = c.outDupCnt := by
  unfold internalWrite at h
  split_ifs at h
  · simp only [Except.ok.injEq, Prod.mk.injEq] at h
    rw [← h.1]; simp [fakeShutdown]
  · simp only [Except.ok.injEq, Prod.mk.injEq] at h
    rw [← h.1]; simp

theorem retransmitScan_window (P : Params) (now rto : Int) :
    ∀ (q : List QNode) (c : Conn) (rest count limit : Int) (c1 : Conn) (q1 : List QNode)
      (r k : Int),
      retransmitScan P now rto q c rest count limit = .ok (c1, q1, r, k) →
      c1.cwnd = c.cwnd ∧ c1.swnd = c.swnd ∧ c1.missed = c.missed ∧
      c1.lastShrink = c.lastShrink ∧ c1.outDupCnt = c.outDupCnt := by
  intro q
  induction q with
  | nil =>
    intro c rest count limit c1 q1 r k h
    simp only [retransmitScan, Except.ok.injEq, Prod.mk.injEq] at h
    rw [← h.1]; exact ⟨rfl, rfl, rfl, rfl, rfl⟩
  | cons item q ih =>
    intro c rest count limit c1 q1 r k h
    unfold retransmitScan at h
    by_cases hlim : limit > 0
    · rw [if_pos hlim] at h
      by_cases hs : item.scnt ≠ -1
      · rw [if_pos hs] at h
        dsimp only at h
        by_cases hd : wrapI64 (now - item.sent) > rto
        · -- timed out: written again
          rw [if_pos hd] at h
          cases hw : internalWrite P c item now with
          | error f => rw [hw] at h; simp at h
          | ok p =>
            obtain ⟨cw, iw⟩ := p
            rw [hw] at h
            dsimp only at h
            cases hr : retransmitScan P now rto q cw rest (wrapI32 (count + 1)) limit with
            | error f => rw [hr] at h; simp at h
            | ok p2 =>
              obtain ⟨c2, q2, r2, k2⟩ := p2
              rw [hr] at h
              simp only [Except.ok.injEq, Prod.mk.injEq] at h
              have h1 := ih cw rest (wrapI32 (count + 1)) limit c2 q2 r2 k2 hr
              have h2 := internalWrite_window P c cw item iw now hw
              rw [← h.1]
              exact ⟨h1.1.trans h2.1, h1.2.1.trans h2.2.1, h1.2.2.1.trans h2.2.2.1,
                h1.2.2.2.1.trans h2.2.2.2.1, h1.2.2.2.2.trans h2.2.2.2.2⟩
        · rw [if_neg hd] at h
          split at h
          · simp at h
          · rename_i c2 q2 r2 k2 hr
            simp only [Except.ok.injEq, Prod.mk.injEq] at h
            rw [← h.1]
            exact ih c _ count _ c2 q2 r2 k2 hr
      · rw [if_neg hs] at h
        split at h
        · simp at h
        · rename_i c2 q2 r2 k2 hr
          simp only [Except.ok.injEq, Prod.mk.injEq] at h
          rw [← h.1]
          exact ih c rest count limit c2 q2 r2 k2 hr
    · rw [if_neg hlim] at h
      simp only [Except.ok.injEq, Prod.mk.injEq] at h
      rw [← h.1]; exact ⟨rfl, rfl, rfl, rfl, rfl⟩

theorem retransmit_window (P : Params) (c c1 : Conn) (now rest count : Int)
    (h : retransmit P c now = .ok (rest, count, c1)) :
    c1.swnd = c.swnd ∧ c1.missed = c.missed ∧
    (c1.cwnd = c.cwnd ∨ c1.cwnd = maxI (shr c.cwnd 1) (shr c.swnd 1)) := by
  unfold retransmit at h
  split at h
  · simp at h
  · rename_i cs qs rs ks hs
    have hw := retransmitScan_window P now c.rto c.outQ c 0 0 c.cwnd cs qs rs ks hs
    have key : ∀ cnt : Int,
        (shrinkOnRto P { cs with outQ := qs, outDupCnt := wrapI64 (cs.outDupCnt + ks) } cnt now).swnd
          = c.swnd ∧
        (shrinkOnRto P { cs with outQ := qs, outDupCnt := wrapI64 (cs.outDupCnt + ks) } cnt now).missed
          = c.missed ∧
        ((shrinkOnRto P { cs with outQ := qs, outDupCnt := wrapI64 (cs.outDupCnt + ks) } cnt now).cwnd
          = c.cwnd ∨
         (shrinkOnRto P { cs with outQ := qs, outDupCnt := wrapI64 (cs.outDupCnt + ks) } cnt now).cwnd
          = maxI (shr c.cwnd 1) (shr c.swnd 1)) := by
      intro cnt
      unfold shrinkOnRto
      simp only
      split_ifs
      · exact ⟨hw.2.1, hw.2.2.1, Or.inr (by simp [hw.1, hw.2.1])⟩
      · exact ⟨hw.2.1, hw.2.2.1, Or.inl hw.1⟩
      · exact ⟨hw.2.1, hw.2.2.1, Or.inl hw.1⟩
    simp only at h
    split_ifs at h
    · simp only [Except.ok.injEq, Prod.mk.injEq] at h
      rw [← h.2.2]; exact key ks
    · simp only [Except.ok.injEq, Prod.mk.injEq] at h
      rw [← h.2.2]; exact key ks

/-! ## C9: congestion-window upper bound -/

theorem measureSample_window (P : Params) (c : Conn) (lastSent delayed now : Int) :
    (measureSample P c lastSent delayed now).cwnd = c.cwnd ∧
    (measureSample P c lastSent delayed now).missed = c.missed := by
  unfold measureSample
  simp only
  split_ifs <;> exact ⟨rfl, rfl⟩

theorem measure_window (P : Params) (c : Conn) (seq : Nat) (delayed scnt now : Int) :
    (measure P c seq delayed scnt now).cwnd = c.cwnd ∧
    (measure P c seq delayed scnt now).missed = c.missed := by
  rcases measure_cases P c seq delayed scnt now with h | ⟨ls, h⟩
  · rw [h]; exact ⟨rfl, rfl⟩
  · rw [h]; exact measureSample_window P c ls delayed now

theorem ackHit_cwnd_le (c : Conn) (deleted missed now : Int)
    (hs : 0 ≤ c.swnd) (hm : 0 ≤ c.missed) (hm30 : c.missed < 2 ^ 30)
    (hc : -2 ^ 31 ≤ c.cwnd) (hp : 0 ≤ missed) :
    (ackHit c deleted missed now).cwnd ≤
      (ackHit c deleted missed now).swnd + (ackHit c deleted missed now).missed := by
  obtain ⟨h1, h2, h3, _⟩ := ackHit_fields c deleted missed now
  rw [h1, h2, h3]
  have hg := wrapI32_ge (c.cwnd + shr c.cwnd 1)
  have hmm : 0 ≤ (if missed ≥ c.missed then missed else shr (wrapI32 (c.missed + missed)) 1) := by
    split_ifs with hge
    · exact hp
    · have : wrapI32 (c.missed + missed) = c.missed + missed :=
        wrapI32_eq _ (by omega) (by omega)
      rw [this]; unfold shr; omega
  generalize (if missed ≥ c.missed then missed else shr (wrapI32 (c.missed + missed)) 1) = m at hmm ⊢
  generalize wrapI32 (c.cwnd + shr c.cwnd 1) = g at hg ⊢
  have hw : ∀ x : Int, -2 ^ 31 ≤ x → wrapI32 x ≤ x := wrapI32_le
  split_ifs <;> (apply le_trans (hw _ (by omega)); omega)

/-- C9 as amended (congestion-window upper bound).  From a state with
`cwnd <= swnd + missed`, `swnd >= 0` and `missed >= 0`: after `ackHit` with a hole
count `missed >= 0` the bound holds again (values in the `int32` range, smoothed
`missed` below 2^30); after the RTO scan `retransmit`, whenever it returns, the
bound still holds; `measure` leaves `cwnd` and `missed` as they are and keeps
the bound whenever it does not lower `swnd`. -/
theorem cwnd_upper_bound (P : Params) (c : Conn)
    (hinv : c.cwnd ≤ c.swnd + c.missed) (hs : 0 ≤ c.swnd) (hm : 0 ≤ c.missed) :
    (∀ deleted missed now : Int, 0 ≤ missed → c.missed < 2 ^ 30 → -2 ^ 31 ≤ c.cwnd →
      (ackHit c deleted missed now).cwnd ≤
        (ackHit c deleted missed now).swnd + (ackHit c deleted missed now).missed) ∧
    (∀ (now rest count : Int) (c1 : Conn), retransmit P c now = .ok (rest, count, c1) →
      c1.cwnd ≤ c1.swnd + c1.missed) ∧
    (∀ (seq : Nat) (delayed scnt now : Int),
      (measure P c seq delayed scnt now).cwnd = c.cwnd ∧
      (measure P c seq delayed scnt now).missed = c.missed ∧
      (c.swnd ≤ (measure P c seq delayed scnt now).swnd →
        (measure P c seq delayed scnt now).cwnd ≤
          (measure P c seq delayed scnt now).swnd + (measure P c seq delayed scnt now).missed)) := by
  refine ⟨?_, ?_, ?_⟩
  · intro deleted missed now hp hm30 hc
    exact ackHit_cwnd_le c deleted missed now hs hm hm30 hc hp
  · intro now rest count c1 h
    obtain ⟨h1, h2, h3⟩ := retransmit_window P c c1 now rest count h
    rw [h1, h2]
    rcases h3 with h3 | h3
    · rw [h3]; exact hinv
    · rw [h3]; unfold maxI shr
      split_ifs <;> omega
  · intro seq delayed scnt now
    obtain ⟨h1, h2⟩ := measure_window P c seq delayed scnt now
    refine ⟨h1, h2, ?_⟩
    intro hsw
    rw [h1, h2]
    omega

/-- A run of `cwnd_upper_bound`: window 4 of 8 with one packet in flight and past
its RTO, through `ackHit`, `retransmit` and `measure`. -/
theorem cwnd_upper_bound_witness :
    (ackHit { outQ := [{ seq := 1, scnt := 1 }], outPending := 1, cwnd := 4, swnd := 8 }
        1 0 50).cwnd ≤
      (ackHit { outQ := [{ seq := 1, scnt := 1 }], outPending := 1, cwnd := 4, swnd := 8 }
        1 0 50).swnd +
      (ackHit { outQ := [{ seq := 1, scnt := 1 }], outPending := 1, cwnd := 4, swnd := 8 }
        1 0 50).missed ∧
    (∃ rest count c1,
      retransmit ⟨1400, 2, 3, 5, 2097152, true, false, 0, 0⟩
        { outQ := [{ seq := 1, scnt := 1 }], outPending := 1, cwnd := 4, swnd := 8 } 100
        = .ok (rest, count, c1) ∧ c1.cwnd ≤ c1.swnd + c1.missed) ∧
    (measure ⟨1400, 2, 3, 5, 2097152, true, false, 0, 0⟩
        { outQ := [{ seq := 1, scnt := 1 }], outPending := 1, cwnd := 4, swnd := 8 }
        1 1 1 100).cwnd = 4 := by
  have h := cwnd_upper_bound ⟨1400, 2, 3, 5, 2097152, true, false, 0, 0⟩
    { outQ := [{ seq := 1, scnt := 1 }], outPending := 1, cwnd := 4, swnd := 8 }
    (by decide) (by decide) (by decide)
  refine ⟨h.1 1 0 50 (by decide) (by decide) (by decide), ⟨_, _, _, rfl, ?_⟩,
    (h.2.2 1 1 1 100).1⟩
  exact h.2.1 100 _ _ _ rfl

/-- C9 as stated fails for `measure`: with `cwnd = swnd = 100`, `missed = 0`, an
accepted sample (`rtt` becomes 13, `calSwnd(13) = 2` at 2 Mbit/s and
`MSS = 1400`) smooths `swnd` to `(700 + 2) >> 3 = 87`, while `cwnd` stays 100. -/
theorem measure_breaks_cwnd_bound :
    ({ outQ := [{ seq := 1, scnt := 1, sent := 50 }], outPending := 1, rtt := 8, srtt := 64, cwnd := 100,
       swnd := 100, missed := 0 } : Conn).cwnd ≤ 100 + 0 ∧
    (measure ⟨1400, 2, 3, 5, 2097152, true, false, 0, 0⟩
      { outQ := [{ seq := 1, scnt := 1, sent := 50 }], outPending := 1, rtt := 8, srtt := 64, cwnd := 100,
        swnd := 100, missed := 0 } 1 1 1 100).cwnd = 100 ∧
    (measure ⟨1400, 2, 3, 5, 2097152, true, false, 0, 0⟩
      { outQ := [{ seq := 1, scnt := 1, sent := 50 }], outPending := 1, rtt := 8, srtt := 64, cwnd := 100,
        swnd := 100, missed := 0 } 1 1 1 100).swnd = 87 ∧
    (measure ⟨1400, 2, 3, 5, 2097152, true, false, 0, 0⟩
      { outQ := [{ seq := 1, scnt := 1, sent := 50 }], outPending := 1, rtt := 8, srtt := 64, cwnd := 100,
        swnd := 100, missed := 0 } 1 1 1 100).missed = 0 ∧
    ¬ ((measure ⟨1400, 2, 3, 5, 2097152, true, false, 0, 0⟩
      { outQ := [{ seq := 1, scnt := 1, sent := 50 }], outPending := 1, rtt := 8, srtt := 64, cwnd := 100,
        swnd := 100, missed := 0 } 1 1 1 100).cwnd ≤
      (measure ⟨1400, 2, 3, 5, 2097152, true, false, 0, 0⟩
        { outQ := [{ seq := 1, scnt := 1, sent := 50 }], outPending := 1, rtt := 8, srtt := 64, cwnd := 100,
          swnd := 100, missed := 0 } 1 1 1 100).swnd +
      (measure ⟨1400, 2, 3, 5, 2097152, true, false, 0, 0⟩
        { outQ := [{ seq := 1, scnt := 1, sent := 50 }], outPending := 1, rtt := 8, srtt := 64, cwnd := 100,
          swnd := 100, missed := 0 } 1 1 1 100).missed) := by
  refine ⟨by decide, rfl, rfl, rfl, by decide⟩

/-! ## C10: congestion-window lower bound -/

theorem ackHit_cwnd_ge_one (c : Conn) (deleted missed now : Int)
    (hc : 1 ≤ c.cwnd) (hs : 1 ≤ c.swnd) (hs30 : c.swnd < 2 ^ 30)
    (hm : 0 ≤ c.missed) (hm30 : c.missed < 2 ^ 30)
    (hp : 0 ≤ missed) (hp30 : missed < 2 ^ 30) :
    1 ≤ (ackHit c deleted missed now).cwnd := by
  obtain ⟨_, _, h3, _⟩ := ackHit_fields c deleted missed now
  rw [h3]
  have hmm : 0 ≤ (if missed ≥ c.missed then missed else shr (wrapI32 (c.missed + missed)) 1) ∧
      (if missed ≥ c.missed then missed else shr (wrapI32 (c.missed + missed)) 1) < 2 ^ 30 := by
    split_ifs with hge
    · exact ⟨hp, hp30⟩
    · have : wrapI32 (c.missed + missed) = c.missed + missed :=
        wrapI32_eq _ (by omega) (by omega)
      rw [this]; unfold shr; constructor <;> omega
  generalize (if missed ≥ c.missed then missed else shr (wrapI32 (c.missed + missed)) 1) = m
    at hmm ⊢
  have hgrow : c.cwnd < c.swnd → wrapI32 (c.cwnd + shr c.cwnd 1) = c.cwnd + shr c.cwnd 1 := by
    intro hlt
    apply wrapI32_eq <;> unfold shr <;> omega
  have hw : ∀ x : Int, 1 ≤ x → x < 2 ^ 31 → 1 ≤ wrapI32 x := by
    intro x h1 h2; rw [wrapI32_eq x (by omega) h2]; exact h1
  by_cases hcond : c.cwnd < c.swnd ∧ wrapI64 (now - c.lastShrink) > c.rtt
  · simp only [hcond, and_self, if_true, hgrow hcond.1]
    unfold shr
    split_ifs <;> (apply hw <;> omega)
  · simp only [hcond, if_false]
    split_ifs <;> (apply hw <;> omega)

/-- Where the lower bound does hold.  From a state with `cwnd >= 1` and
`swnd >= 1`: after `ackHit` (hole count and smoothed `missed` in `[0, 2^30)`,
`swnd < 2^30`) `cwnd >= 1`; after the RTO scan `retransmit`, whenever it
returns, `cwnd` is either unchanged or `max(cwnd/2, swnd/2)`, so `cwnd >= 1`
holds whenever `cwnd >= 2` or `swnd >= 2` before the call. -/
theorem cwnd_lower_bound (P : Params) (c : Conn) (hc : 1 ≤ c.cwnd) (hs : 1 ≤ c.swnd) :
    (∀ deleted missed now : Int, c.swnd < 2 ^ 30 → 0 ≤ c.missed → c.missed < 2 ^ 30 →
      0 ≤ missed → missed < 2 ^ 30 → 1 ≤ (ackHit c deleted missed now).cwnd) ∧
    (∀ (now rest count : Int) (c1 : Conn), retransmit P c now = .ok (rest, count, c1) →
      (c1.cwnd = c.cwnd ∨ c1.cwnd = maxI (shr c.cwnd 1) (shr c.swnd 1)) ∧
      (2 ≤ c.cwnd ∨ 2 ≤ c.swnd → 1 ≤ c1.cwnd)) := by
  refine ⟨?_, ?_⟩
  · intro deleted missed now hs30 hm hm30 hp hp30
    exact ackHit_cwnd_ge_one c deleted missed now hc hs hs30 hm hm30 hp hp30
  · intro now rest count c1 h
    obtain ⟨_, _, h3⟩ := retransmit_window P c c1 now rest count h
    refine ⟨h3, ?_⟩
    intro h2
    rcases h3 with h3 | h3
    · rw [h3]; exact hc
    · rw [h3]; unfold maxI shr
      split_ifs <;> omega

/-- A run of `cwnd_lower_bound`: window 4 of 8, one packet in flight and past its
RTO; `ackHit` grows the window, the scan halves it no lower than `swnd/2 = 4`. -/
theorem cwnd_lower_bound_witness :
    1 ≤ (ackHit { outQ := [{ seq := 1, scnt := 1 }], outPending := 1, cwnd := 4, swnd := 8 }
        1 0 50).cwnd ∧
    (∃ rest count c1,
      retransmit ⟨1400, 2, 3, 5, 2097152, true, false, 0, 0⟩
        { outQ := [{ seq := 1, scnt := 1 }], outPending := 1, cwnd := 4, swnd := 8 } 100
        = .ok (rest, count, c1) ∧ 1 ≤ c1.cwnd) := by
  have h := cwnd_lower_bound ⟨1400, 2, 3, 5, 2097152, true, false, 0, 0⟩
    { outQ := [{ seq := 1, scnt := 1 }], outPending := 1, cwnd := 4, swnd := 8 }
    (by decide) (by decide)
  refine ⟨h.1 1 0 50 (by decide) (by decide) (by decide) (by decide) (by decide),
    ⟨_, _, _, rfl, ?_⟩⟩
  exact (h.2 100 _ _ _ rfl).2 (Or.inl (by decide))

theorem awaitWindow_blocks : ∀ (buf : List Nat) (c : Conn),
    c.outPending ≥ c.cwnd → c.wtmo ≤ 0 → (∀ v ∈ buf, v ≠ _CLOSE) →
    awaitWindow buf c = .error .blocked := by
  intro buf
  induction buf with
  | nil => intro c h1 h2 _; simp [awaitWindow, h1, not_lt.mpr h2]
  | cons v rest ih =>
    intro c h1 h2 h3
    have hv : v ≠ _CLOSE := h3 v (List.mem_cons_self _ _)
    have hr : ∀ x ∈ rest, x ≠ _CLOSE := fun x hx => h3 x (List.mem_cons_of_mem _ hx)
    rw [awaitWindow]
    simp only [h1, if_true, not_lt.mpr h2, if_false, hv]
    exact ih _ h1 h2 hr

/-- A writer that finds `outPending >= cwnd`, has no write deadline and gets only
wake-ups from `evSend` waits without end. -/
theorem inputAndSend_blocks (P : Params) (c : Conn) (pk : Packet) (now : Int)
    (hl : c.outlock = false) (h1 : c.outPending ≥ c.cwnd) (h2 : c.wtmo ≤ 0)
    (h3 : ∀ v ∈ c.evSend.buf, v ≠ _CLOSE) :
    inputAndSend P c pk now = .error .blocked := by
  have := awaitWindow_blocks c.evSend.buf { c with outlock := true } h1 h2 h3
  simp [inputAndSend, hl, this]

/-- How the state `cwnd = swnd = 1` arises at the default bandwidth of 2 Mbit/s
(`calSwnd(8) = 1`): each accepted sample of 8 ms lowers `swnd` by one, from 8
down to 1, the estimator staying at `rtt = 8`; and `ackHit` clamps `cwnd` to
`swnd`, here from 2 to 1. -/
theorem swnd_decays_to_one :
    [8, 7, 6, 5, 4, 3, 2].map (fun k =>
      ((measure ⟨1400, 2, 3, 5, 2097152, true, false, 0, 0⟩
        { outQ := [{ seq := 1, scnt := 1 }], swnd := k, cwnd := k } 1 0 1 8).swnd,
       (measure ⟨1400, 2, 3, 5, 2097152, true, false, 0, 0⟩
        { outQ := [{ seq := 1, scnt := 1 }], swnd := k, cwnd := k } 1 0 1 8).rtt)) =
      [(7, 8), (6, 8), (5, 8), (4, 8), (3, 8), (2, 8), (1, 8)] ∧
    (ackHit { outQ := [{ seq := 2, scnt := 1 }], cwnd := 2, swnd := 1, outPending := 2 }
      1 0 50).cwnd = 1 := by
  refine ⟨by decide, by decide⟩

/-- C10, at a failing input.  With `cwnd = swnd = 1` and one packet past its
RTO, `retransmit` re-sends it (`count = 1 > cwnd >> 3 = 0`) and sets
`cwnd = max(1 >> 1, 1 >> 1) = 0`.  When the ACK for that packet then arrives,
`ackHit` leaves `cwnd = 0` with `outPending = 0` and an empty queue, and the
next `inputAndSend`, woken once by the `evSend` signal of `ackHit`, finds
`0 >= 0` again and waits for a window that never opens. -/
theorem retransmit_halves_cwnd_to_zero :
    ∃ rest c1 c2,
      retransmit ⟨1400, 2, 3, 5, 2097152, true, false, 0, 0⟩
          { outQ := [{ seq := 1, scnt := 1 }], outPending := 1, cwnd := 1, swnd := 1, rto := 30 } 100
        = .ok (rest, 1, c1) ∧
      c1.cwnd = 0 ∧ c1.swnd = 1 ∧
      processAck ⟨1400, 2, 3, 5, 2097152, true, false, 0, 0⟩ c1 { ack := 1, flag := F_ACK } 120
        = .ok c2 ∧
      c2.cwnd = 0 ∧ c2.outPending = 0 ∧ c2.outQ = [] ∧
      inputAndSend ⟨1400, 2, 3, 5, 2097152, true, false, 0, 0⟩ c2
        { flag := F_DATA, payload := [1] } 130 = .error .blocked := by
  refine ⟨_, _, _, rfl, rfl, rfl, rfl, rfl, rfl, rfl, ?_⟩
  apply inputAndSend_blocks
  · rfl
  · decide
  · decide
  · decide

/-! ## C11: send-count safety bound -/

/-- C11 (send-count safety bound).  For a node with `0 <= scnt <= 20`:
if `scnt < 20`, `internalWrite` calls `WriteToUDP` once, with the node whose
`scnt` is one more, whose `sent_1` is the previous `sent` and whose `sent` is
the current time, and the resulting `scnt` is at most 20; if `scnt = 20` on a
FIN packet nothing is written, the node is unchanged, the connection is declared
dead and the destination cleared; if `scnt = 20` on any other packet the call
panics. -/
theorem internalWrite_send_count (P : Params) (c : Conn) (item : QNode) (now : Int)
    (h0 : 0 ≤ item.scnt) (h20 : item.scnt ≤ 20) :
    (item.scnt < 20 →
      ∃ c1 item1, internalWrite P c item now = .ok (c1, item1) ∧
        item1.scnt = item.scnt + 1 ∧ item1.scnt ≤ 20 ∧
        item1.sent = now ∧ item1.sent_1 = item.sent ∧
        item1.seq = item.seq ∧ item1.payload = item.payload ∧ item1.flag = item.flag ∧
        c1.wire = c.wire ++ [(item1, c.dest)] ∧ c1.dest = c.dest ∧ c1.dead = c.dead) ∧
    (item.scnt = 20 → item.flag.fin = true →
      ∃ c1, internalWrite P c item now = .ok (c1, item) ∧
        c1.wire = c.wire ∧ c1.dest = false ∧ c1.dead = true) ∧
    (item.scnt = 20 → item.flag.fin = false →
      internalWrite P c item now = .error .panic) ∧
    (∀ c1 item1, internalWrite P c item now = .ok (c1, item1) → item1.scnt ≤ 20) := by
  have hw : item.scnt < 20 → wrapI8 (item.scnt + 1) = item.scnt + 1 := by
    intro h; unfold wrapI8 wrapI; norm_num; omega
  refine ⟨?_, ?_, ?_, ?_⟩
  · intro hlt
    have hn : ¬ item.scnt ≥ 20 := by omega
    refine ⟨_, _, by simp only [internalWrite, hn, if_false]; rfl, ?_⟩
    simp only [hw hlt]
    refine ⟨trivial, by omega, trivial, trivial, trivial, trivial, trivial, ?_, trivial, trivial⟩
    simp [hw hlt]
  · intro h hf
    have hn : item.scnt ≥ 20 := by omega
    exact ⟨{ fakeShutdown P c with dest := false }, by simp [internalWrite, hn, hf],
      by simp [fakeShutdown], rfl, by simp [fakeShutdown]⟩
  · intro h hf
    have hn : item.scnt ≥ 20 := by omega
    simp [internalWrite, hn, hf]
  · intro c1 item1 h
    unfold internalWrite at h
    by_cases hn : item.scnt ≥ 20
    · rw [if_pos hn] at h
      by_cases hf : item.flag.fin = true
      · rw [if_pos hf] at h
        simp only [Except.ok.injEq, Prod.mk.injEq] at h
        rw [← h.2]; exact h20
      · rw [if_neg hf] at h; simp at h
    · rw [if_neg hn] at h
      simp only [Except.ok.injEq, Prod.mk.injEq] at h
      rw [← h.2]
      simp only
      rw [hw (by omega)]; omega

/-- A run of `internalWrite_send_count`: a node sent once before. -/
theorem internalWrite_send_count_witness :
    ∃ c1 item1,
      internalWrite ⟨1400, 2, 3, 5, 2097152, true, false, 0, 0⟩ {}
        { seq := 1, scnt := 1, sent := 40 } 100 = .ok (c1, item1) ∧
      item1.scnt = 1 + 1 ∧ item1.scnt ≤ 20 ∧ item1.sent = 100 ∧ item1.sent_1 = 40 ∧
      item1.seq = 1 ∧ item1.payload = [] ∧ item1.flag = {} ∧
      c1.wire = [] ++ [(item1, true)] ∧ c1.dest = true ∧ c1.dead = false :=
  (internalWrite_send_count ⟨1400, 2, 3, 5, 2097152, true, false, 0, 0⟩ {}
    { seq := 1, scnt := 1, sent := 40 } 100 (by decide) (by decide)).1 (by decide)

/-! ## C12 and C17: the ACK loop's demand handling, and loop cancellation -/

/-- From `lastAckState` 0 or `VACK_MUST`, every received byte other than 0
(a demand, or `_CLOSE`) is handed on as `VACK_MUST`, `lastAckState` becomes
`VACK_MUST`, and the arm never returns. -/
theorem ackDemand_always_must (last v : Nat) (hl : last = 0 ∨ last = VACK_MUST) (hv : v ≠ 0) :
    ackDemand last v = some (VACK_MUST, VACK_MUST) := by
  unfold ackDemand
  by_cases h : last ≠ v
  · rw [if_pos h]
  · rw [if_neg h]
    have hlv : last = v := not_not.mp h
    rcases hl with h0 | h3
    · exact absurd (h0 ▸ hlv).symm hv
    · have hv3 : v = VACK_MUST := by rw [← hlv]; exact h3
      rw [hv3]; rfl

theorem ackLoopSelect_always_must (s : AckLoopState) (ev : LoopEv)
    (hl : s.lastAckState = 0 ∨ s.lastAckState = VACK_MUST) (hev : ev ≠ LoopEv.recv 0) :
    ackLoopSelect s ev = none ∨
    ∃ last t, ackLoopSelect s ev = some (some (VACK_MUST, last, t)) ∧
      (last = 0 ∨ last = VACK_MUST) := by
  cases ev with
  | timer =>
    by_cases ha : s.timer.active = true
    · right; exact ⟨s.lastAckState, { s.timer with active := false }, by simp [ackLoopSelect, ha], hl⟩
    · left; simp [ackLoopSelect, ha]
  | recv v =>
    have hv : v ≠ 0 := fun h0 => hev (by rw [h0])
    right
    exact ⟨VACK_MUST, s.timer.TryActive s.conn.ato,
      by simp [ackLoopSelect, ackDemand_always_must s.lastAckState v hl hv],
      Or.inr rfl⟩

/-- A run of `internalAckLoop` from `lastAckState` 0 or `VACK_MUST` over any
events (no received byte being 0) never returns, and every level it hands to
`makeAck` is `VACK_MUST`. -/
theorem internalAckLoop_always_must (holes : List QNode → Nat → List Nat × Nat) (P : Params) :
    ∀ (evs : List (LoopEv × Int)) (s s1 : AckLoopState),
      (s.lastAckState = 0 ∨ s.lastAckState = VACK_MUST) → s.exited = false →
      (∀ e ∈ evs, e.1 ≠ LoopEv.recv 0) →
      internalAckLoop holes P evs s = .ok s1 →
      s1.exited = false ∧ (s1.lastAckState = 0 ∨ s1.lastAckState = VACK_MUST) ∧
      ∃ k, s1.levels = s.levels ++ List.replicate k VACK_MUST := by
  intro evs
  induction evs with
  | nil =>
    intro s s1 hl he _ h
    simp only [internalAckLoop, Except.ok.injEq] at h
    subst h
    exact ⟨he, hl, 0, by simp⟩
  | cons e evs ih =>
    intro s s1 hl he hev h
    obtain ⟨ev, now⟩ := e
    have hrest : ∀ e ∈ evs, e.1 ≠ LoopEv.recv 0 := fun e h' => hev e (List.mem_cons_of_mem _ h')
    have hev0 : ev ≠ LoopEv.recv 0 := hev (ev, now) (List.mem_cons_self _ _)
    unfold internalAckLoop at h
    rw [he] at h
    simp only [Bool.false_eq_true, if_false] at h
    rcases ackLoopSelect_always_must s ev hl hev0 with hs | ⟨last, t, hs, hlast⟩
    · rw [hs] at h
      exact ih s s1 hl he hrest h
    · rw [hs] at h
      simp only at h
      cases hem : ackLoopEmit holes P s.conn VACK_MUST now with
      | error f => rw [hem] at h; simp at h
      | ok c1 =>
        rw [hem] at h
        simp only at h
        obtain ⟨h1, h2, k, h3⟩ := ih
          { exited := false, lastAckState := last, timer := t, conn := c1,
            levels := s.levels ++ [VACK_MUST] } s1 hlast rfl hrest h
        refine ⟨h1, h2, k + 1, ?_⟩
        rw [h3]
        simp [List.replicate_succ]

/-- In every state of the send loop that has not returned, `_CLOSE` on `evSWnd`
makes the loop return at once: the connection and the timer are untouched and no
later event is served. -/
theorem internalSendLoop_close (P : Params) (evs : List (LoopEv × Int)) (s : SendLoopState)
    (now : Int) (he : s.exited = false) :
    internalSendLoop P ((LoopEv.recv _CLOSE, now) :: evs) s = .ok { s with exited := true } := by
  have hstep : sendLoopStep P s (LoopEv.recv _CLOSE) now = .ok { s with exited := true } := by
    simp [sendLoopStep, _CLOSE, VRETR_IMMED, VSWND_ACTIVE]
  unfold internalSendLoop
  rw [he]
  simp only [Bool.false_eq_true, if_false, hstep]
  cases evs with
  | nil => rfl
  | cons e evs => unfold internalSendLoop; simp

/-- C12 (loop cancellation), evaluated.  The ACK loop in its initial state
(`lastAckState = 0`) that receives `_CLOSE` on `evAck` does not return: it hands
`VACK_MUST` to `makeAck` and writes an ACK; the same after the demands QUICK,
MUST, and for a second `_CLOSE`.  The send loop does return on `_CLOSE` from
`evSWnd`, without retransmitting the packet that is past its RTO. -/
theorem ackLoop_ignores_close :
    (internalAckLoop makeHolesBitmap ⟨1400, 2, 3, 5, 2097152, true, false, 0, 0⟩
      [(LoopEv.recv _CLOSE, 100)] {}).toOption.map
      (fun s => (s.exited, s.lastAckState, s.levels, s.conn.wire.length)) =
        some (false, VACK_MUST, [VACK_MUST], 1) ∧
    (internalAckLoop makeHolesBitmap ⟨1400, 2, 3, 5, 2097152, true, false, 0, 0⟩
      [(LoopEv.recv VACK_QUICK, 100), (LoopEv.recv VACK_MUST, 110), (LoopEv.recv _CLOSE, 120),
       (LoopEv.recv _CLOSE, 130)] {}).toOption.map
      (fun s => (s.exited, s.lastAckState, s.levels, s.conn.wire.length)) =
        some (false, VACK_MUST, [VACK_MUST, VACK_MUST, VACK_MUST, VACK_MUST], 4) ∧
    (internalSendLoop ⟨1400, 2, 3, 5, 2097152, true, false, 0, 0⟩
      [(LoopEv.recv _CLOSE, 100), (LoopEv.timer, 200)]
      { conn := { outQ := [{ seq := 1, scnt := 1 }], outPending := 1 } }).toOption.map
      (fun s => (s.exited, s.conn.wire.length, s.conn.outQ)) =
        some (true, 0, [{ seq := 1, scnt := 1 }]) := by
  refine ⟨by decide, by decide, by decide⟩

/-- C17 (ACK demand coalescing), evaluated.  Two QUICK demands 1 ms apart
(`ato = 2`): both reach `makeAck` as `VACK_MUST` and both produce an ACK, where
the second, equal to the one before it, should have kept the level QUICK and
been skipped by the `ato` throttle.  The same for a run of SCHED demands. -/
theorem ackLoop_never_coalesces :
    (internalAckLoop makeHolesBitmap ⟨1400, 2, 3, 5, 2097152, true, false, 0, 0⟩
      [(LoopEv.recv VACK_QUICK, 100), (LoopEv.recv VACK_QUICK, 101)]
      { conn := { ato := 2 } }).toOption.map
      (fun s => (s.levels, s.conn.wire.length, s.conn.lastAckTime)) =
        some ([VACK_MUST, VACK_MUST], 2, 101) ∧
    (internalAckLoop makeHolesBitmap ⟨1400, 2, 3, 5, 2097152, true, false, 0, 0⟩
      [(LoopEv.recv VACK_SCHED, 100), (LoopEv.recv VACK_SCHED, 101),
       (LoopEv.recv VACK_SCHED, 102)]
      { conn := { ato := 2 } }).toOption.map
      (fun s => (s.levels, s.conn.wire.length, s.conn.lastAckTime)) =
        some ([VACK_MUST, VACK_MUST, VACK_MUST], 3, 102) ∧
    (makeAck makeHolesBitmap { ato := 2, lastAckTime := 100 } VACK_QUICK 101).2 = none := by
  refine ⟨by decide, by decide, by decide⟩

/-! ## C13: the ackHit update -/

theorem ackHit_unchanged (c : Conn) (deleted missed now : Int) :
    (ackHit c deleted missed now).rtt = c.rtt ∧ (ackHit c deleted missed now).rto = c.rto ∧
    (ackHit c deleted missed now).lastShrink = c.lastShrink ∧
    (ackHit c deleted missed now).outQ = c.outQ := by
  unfold ackHit
  simp only
  split_ifs <;> simp_all

/-- C13 (ackHit update).  For every state and every `(deleted, missed)` at clock
value `now`, in `int32` arithmetic: `outPending' = outPending - deleted`;
`missed' = missed` if `missed >= missed_old`, else `(missed_old + missed) >> 1`;
`cwnd' = min(g, swnd) + missed'` with `g = cwnd + (cwnd >> 1)` if `cwnd < swnd`
and `now - lastShrink > rtt`, and `g = cwnd` otherwise; `swnd`, `rtt`, `rto`,
`lastShrink` and the outbound queue are unchanged.  When the windows and hole
counts lie in `[0, 2^30)` and the differences do not overflow, these are the
same formulas over the integers. -/
theorem ackHit_update (c : Conn) (deleted missed now : Int)
    (hc : 0 ≤ c.cwnd ∧ c.cwnd < 2 ^ 30) (hs : 0 ≤ c.swnd ∧ c.swnd < 2 ^ 30)
    (hm : 0 ≤ c.missed ∧ c.missed < 2 ^ 30) (hp : 0 ≤ missed ∧ missed < 2 ^ 30)
    (hd : -2 ^ 31 ≤ c.outPending - deleted ∧ c.outPending - deleted < 2 ^ 31)
    (ht : -2 ^ 63 ≤ now - c.lastShrink ∧ now - c.lastShrink < 2 ^ 63) :
    ((ackHit c deleted missed now).outPending = wrapI32 (c.outPending - deleted) ∧
     (ackHit c deleted missed now).missed =
        (if missed ≥ c.missed then missed else shr (wrapI32 (c.missed + missed)) 1) ∧
     (ackHit c deleted missed now).cwnd =
        wrapI32
          (minI (if c.cwnd < c.swnd ∧ wrapI64 (now - c.lastShrink) > c.rtt
                 then wrapI32 (c.cwnd + shr c.cwnd 1) else c.cwnd) c.swnd +
           (ackHit c deleted missed now).missed)) ∧
    ((ackHit c deleted missed now).outPending = c.outPending - deleted ∧
     (ackHit c deleted missed now).missed =
        (if missed ≥ c.missed then missed else (c.missed + missed) / 2) ∧
     (ackHit c deleted missed now).cwnd =
        min (if c.cwnd < c.swnd ∧ now - c.lastShrink > c.rtt then c.cwnd + c.cwnd / 2
             else c.cwnd) c.swnd +
          (ackHit c deleted missed now).missed) ∧
    ((ackHit c deleted missed now).swnd = c.swnd ∧ (ackHit c deleted missed now).rtt = c.rtt ∧
     (ackHit c deleted missed now).rto = c.rto ∧
     (ackHit c deleted missed now).lastShrink = c.lastShrink ∧
     (ackHit c deleted missed now).outQ = c.outQ) := by
  obtain ⟨f1, f2, f3, f4⟩ := ackHit_fields c deleted missed now
  obtain ⟨u1, u2, u3, u4⟩ := ackHit_unchanged c deleted missed now
  have ht' : wrapI64 (now - c.lastShrink) = now - c.lastShrink := by
    unfold wrapI64 wrapI; norm_num; omega
  have hg : wrapI32 (c.cwnd + shr c.cwnd 1) = c.cwnd + c.cwnd / 2 := by
    have : shr c.cwnd 1 = c.cwnd / 2 := by unfold shr; norm_num
    rw [this]; apply wrapI32_eq <;> omega
  have hmm : (if missed ≥ c.missed then missed else shr (wrapI32 (c.missed + missed)) 1)
      = (if missed ≥ c.missed then missed else (c.missed + missed) / 2) := by
    have : shr (wrapI32 (c.missed + missed)) 1 = (c.missed + missed) / 2 := by
      rw [wrapI32_eq _ (by omega) (by omega)]; unfold shr; norm_num
    rw [this]
  have hmr : 0 ≤ (if missed ≥ c.missed then missed else (c.missed + missed) / 2) ∧
      (if missed ≥ c.missed then missed else (c.missed + missed) / 2) < 2 ^ 30 := by
    split_ifs <;> constructor <;> omega
  refine ⟨⟨f4, f2, ?_⟩, ⟨?_, ?_, ?_⟩, ⟨f1, u1, u2, u3, u4⟩⟩
  · rw [f3, f2]; unfold minI
    by_cases hcond : c.cwnd < c.swnd ∧ wrapI64 (now - c.lastShrink) > c.rtt
    · simp only [hcond, and_self, if_true]
      split_ifs <;> first | rfl | (congr 1; omega)
    · simp only [hcond, if_false]
      split_ifs <;> first | rfl | (congr 1; omega)
  · rw [f4]; exact wrapI32_eq _ hd.1 hd.2
  · rw [f2]; exact hmm
  · rw [f3, f2, hmm, ht']
    generalize (if missed ≥ c.missed then missed else (c.missed + missed) / 2) = m at hmr ⊢
    by_cases hcond : c.cwnd < c.swnd ∧ now - c.lastShrink > c.rtt
    · simp only [hcond, and_self, if_true, hg]
      by_cases hgt : c.cwnd + c.cwnd / 2 > c.swnd
      · rw [if_pos hgt, min_eq_right (by omega)]; apply wrapI32_eq <;> omega
      · rw [if_neg hgt, min_eq_left (by omega)]; apply wrapI32_eq <;> omega
    · simp only [hcond, if_false]
      by_cases hgt : c.cwnd > c.swnd
      · rw [if_pos hgt, min_eq_right (by omega)]; apply wrapI32_eq <;> omega
      · rw [if_neg hgt, min_eq_left (by omega)]; apply wrapI32_eq <;> omega

/-- A run of `ackHit_update`: window 4 of 8, two packets acknowledged, one hole
reported; the window grows to 6 and one is added for the hole. -/
theorem ackHit_update_witness :
    (ackHit { cwnd := 4, swnd := 8, outPending := 3 } 2 1 50).outPending = 3 - 2 ∧
    (ackHit { cwnd := 4, swnd := 8, outPending := 3 } 2 1 50).missed =
      (if (1 : Int) ≥ 0 then 1 else (0 + 1) / 2) ∧
    (ackHit { cwnd := 4, swnd := 8, outPending := 3 } 2 1 50).cwnd =
      min (if (4 : Int) < 8 ∧ (50 : Int) - 0 > 8 then 4 + 4 / 2 else 4) 8 +
        (ackHit { cwnd := 4, swnd := 8, outPending := 3 } 2 1 50).missed :=
  (ackHit_update { cwnd := 4, swnd := 8, outPending := 3 } 2 1 50
    (by decide) (by decide) (by decide) (by decide) (by decide) (by decide)).2.1

/-! ## C14: the bandwidth window -/

theorem calSwnd_in_range (P : Params) (rtt : Int) (hM : 0 < P.MSS) (hr : 0 ≤ rtt)
    (hb : 0 ≤ P.bandwidth) (h63 : P.bandwidth * rtt < 2 ^ 63)
    (h31 : P.bandwidth * rtt / (8000 * P.MSS) < 2 ^ 31) :
    calSwnd P rtt = min 640 (P.bandwidth * rtt / (8000 * P.MSS)) ∧
    0 ≤ calSwnd P rtt ∧ calSwnd P rtt ≤ 640 := by
  have hprod : 0 ≤ P.bandwidth * rtt := mul_nonneg hb hr
  have hden : (0 : Int) ≤ 8000 * (P.MSS : Int) := by positivity
  have hq : 0 ≤ P.bandwidth * rtt / (8000 * P.MSS) := Int.ediv_nonneg hprod hden
  have h1 : wrapI64 (P.bandwidth * rtt) = P.bandwidth * rtt := by
    unfold wrapI64 wrapI; norm_num; omega
  have h2 : Int.tdiv (P.bandwidth * rtt) (8000 * P.MSS) = P.bandwidth * rtt / (8000 * P.MSS) :=
    Int.tdiv_eq_ediv hprod hden
  have h3 : wrapI32 (P.bandwidth * rtt / (8000 * P.MSS)) = P.bandwidth * rtt / (8000 * P.MSS) :=
    wrapI32_eq _ (by omega) h31
  unfold calSwnd
  simp only [h1, h2, h3]
  generalize P.bandwidth * rtt / (8000 * (P.MSS : Int)) = q at hq h31 ⊢
  by_cases hle : q ≤ 640
  · rw [if_pos hle, min_eq_right hle]; exact ⟨rfl, hq, hle⟩
  · rw [if_neg hle, min_eq_left (by omega)]; exact ⟨rfl, by norm_num, le_refl _⟩

/-- C14 as amended (bandwidth window).  For `rtt >= 0` and `bandwidth >= 0` whose
product fits `int64` and whose quotient by `8000 * MSS` fits `int32`,
`calSwnd(rtt) = min(640, bandwidth * rtt / (8000 * MSS))` over the integers, so
`0 <= calSwnd(rtt) <= 640`.  On an accepted sample `measure` sets
`swnd' = int32(7 * swnd + calSwnd(rtt')) >> 3` for the new `rtt'`, which is
`(7 * swnd + calSwnd(rtt')) / 8` when the sum fits `int32`; when the sample is
not accepted `swnd` is unchanged. -/
theorem calSwnd_bandwidth_window (P : Params) (rtt : Int) (hM : 0 < P.MSS) (hr : 0 ≤ rtt)
    (hb : 0 ≤ P.bandwidth) (h63 : P.bandwidth * rtt < 2 ^ 63)
    (h31 : P.bandwidth * rtt / (8000 * P.MSS) < 2 ^ 31) :
    calSwnd P rtt = min 640 (P.bandwidth * rtt / (8000 * P.MSS)) ∧
    0 ≤ calSwnd P rtt ∧ calSwnd P rtt ≤ 640 ∧
    (∀ (c : Conn) (seq : Nat) (delayed scnt now : Int),
      (measureAccepts c seq delayed scnt now = true →
        (measure P c seq delayed scnt now).swnd =
          shr (wrapI32 (7 * c.swnd + calSwnd P (measure P c seq delayed scnt now).rtt)) 3 ∧
        (-2 ^ 31 ≤ 7 * c.swnd + calSwnd P (measure P c seq delayed scnt now).rtt →
         7 * c.swnd + calSwnd P (measure P c seq delayed scnt now).rtt < 2 ^ 31 →
         (measure P c seq delayed scnt now).swnd =
           (7 * c.swnd + calSwnd P (measure P c seq delayed scnt now).rtt) / 8)) ∧
      (measureAccepts c seq delayed scnt now = false →
        (measure P c seq delayed scnt now).swnd = c.swnd)) := by
  obtain ⟨h1, h2, h3⟩ := calSwnd_in_range P rtt hM hr hb h63 h31
  refine ⟨h1, h2, h3, ?_⟩
  intro c seq delayed scnt now
  refine ⟨?_, ?_⟩
  · intro h
    obtain ⟨_, _, _, _, _, hs⟩ := measure_accepted P c seq delayed scnt now h
    refine ⟨hs, ?_⟩
    intro hlo hhi
    rw [hs, wrapI32_eq _ hlo hhi]
    unfold shr; norm_num
  · intro h
    rw [measure_not_accepted P c seq delayed scnt now h]

/-- A run of `calSwnd_bandwidth_window`: 2 Mbit/s, `MSS = 1400`, `rtt = 13`, and
an accepted sample of 49 ms on a window of 8 (new `rtt = 13`, window 7). -/
theorem calSwnd_bandwidth_window_witness :
    calSwnd ⟨1400, 2, 3, 5, 2097152, true, false, 0, 0⟩ 13 =
      min 640 (2097152 * 13 / (8000 * (1400 : Nat))) ∧
    0 ≤ calSwnd ⟨1400, 2, 3, 5, 2097152, true, false, 0, 0⟩ 13 ∧
    calSwnd ⟨1400, 2, 3, 5, 2097152, true, false, 0, 0⟩ 13 ≤ 640 ∧
    measureAccepts { outQ := [{ seq := 1, scnt := 1, sent := 50 }], swnd := 8 } 1 1 1 100 = true ∧
    (measure ⟨1400, 2, 3, 5, 2097152, true, false, 0, 0⟩
      { outQ := [{ seq := 1, scnt := 1, sent := 50 }], swnd := 8 } 1 1 1 100).rtt = 13 ∧
    (measure ⟨1400, 2, 3, 5, 2097152, true, false, 0, 0⟩
      { outQ := [{ seq := 1, scnt := 1, sent := 50 }], swnd := 8 } 1 1 1 100).swnd =
      (7 * 8 + calSwnd ⟨1400, 2, 3, 5, 2097152, true, false, 0, 0⟩
        (measure ⟨1400, 2, 3, 5, 2097152, true, false, 0, 0⟩
          { outQ := [{ seq := 1, scnt := 1, sent := 50 }], swnd := 8 } 1 1 1 100).rtt) / 8 := by
  have h := calSwnd_bandwidth_window ⟨1400, 2, 3, 5, 2097152, true, false, 0, 0⟩ 13
    (by decide) (by decide) (by decide) (by decide) (by decide)
  refine ⟨h.1, h.2.1, h.2.2.1, by decide, by decide, ?_⟩
  exact ((h.2.2.2 { outQ := [{ seq := 1, scnt := 1, sent := 50 }], swnd := 8 } 1 1 1 100).1
    (by decide)).2 (by decide) (by decide)

/-- C14 as stated fails: with `MSS = 1400`, `bandwidth = 24051816857600000` and
`rtt = 1` the quotient `bandwidth * rtt / (8000 * MSS)` is `2^31`; `int32` of it
is `-2147483648`, which passes the test `w <= 640` and is returned, where
`min(640, 2^31) = 640`. -/
theorem calSwnd_wraps_negative :
    (0 : Int) ≤ 1 ∧ (0 : Int) ≤ 24051816857600000 ∧
    (24051816857600000 : Int) * 1 / (8000 * (1400 : Nat)) = 2147483648 ∧
    calSwnd ⟨1400, 2, 3, 5, 24051816857600000, true, false, 0, 0⟩ 1 = -2147483648 ∧
    ¬ (0 ≤ calSwnd ⟨1400, 2, 3, 5, 24051816857600000, true, false, 0, 0⟩ 1) ∧
    calSwnd ⟨1400, 2, 3, 5, 24051816857600000, true, false, 0, 0⟩ 1 ≠
      min 640 ((24051816857600000 : Int) * 1 / (8000 * (1400 : Nat))) := by
  refine ⟨by decide, by decide, by decide, by decide, by decide, by decide⟩

/-! ## C15: RTO congestion response -/

theorem retransmitScan_length (P : Params) (now rto : Int) :
    ∀ (q : List QNode) (c : Conn) (rest count limit : Int) (c1 : Conn) (q1 : List QNode)
      (r k : Int),
      retransmitScan P now rto q c rest count limit = .ok (c1, q1, r, k) →
      q1.length = q.length := by
  intro q
  induction q with
  | nil =>
    intro c rest count limit c1 q1 r k h
    simp only [retransmitScan, Except.ok.injEq, Prod.mk.injEq] at h
    rw [← h.2.1]
  | cons item q ih =>
    intro c rest count limit c1 q1 r k h
    unfold retransmitScan at h
    by_cases hlim : limit > 0
    · rw [if_pos hlim] at h
      by_cases hs : item.scnt ≠ -1
      · rw [if_pos hs] at h
        dsimp only at h
        by_cases hd : wrapI64 (now - item.sent) > rto
        · rw [if_pos hd] at h
          cases hw : internalWrite P c item now with
          | error f => rw [hw] at h; simp at h
          | ok p =>
            obtain ⟨cw, iw⟩ := p
            rw [hw] at h
            dsimp only at h
            cases hr : retransmitScan P now rto q cw rest (wrapI32 (count + 1)) limit with
            | error f => rw [hr] at h; simp at h
            | ok p2 =>
              obtain ⟨c2, q2, r2, k2⟩ := p2
              rw [hr] at h
              simp only [Except.ok.injEq, Prod.mk.injEq] at h
              rw [← h.2.1, List.length_cons, List.length_cons, ih _ _ _ _ _ _ _ _ hr]
        · rw [if_neg hd] at h
          split at h
          · simp at h
          · rename_i c2 q2 r2 k2 hr
            simp only [Except.ok.injEq, Prod.mk.injEq] at h
            rw [← h.2.1, List.length_cons, List.length_cons, ih _ _ _ _ _ _ _ _ hr]
      · rw [if_neg hs] at h
        split at h
        · simp at h
        · rename_i c2 q2 r2 k2 hr
          simp only [Except.ok.injEq, Prod.mk.injEq] at h
          rw [← h.2.1, List.length_cons, List.length_cons, ih _ _ _ _ _ _ _ _ hr]
    · rw [if_neg hlim] at h
      simp only [Except.ok.injEq, Prod.mk.injEq] at h
      rw [← h.2.1]

theorem shrinkOnRto_outQ (P : Params) (c : Conn) (count now : Int) :
    (shrinkOnRto P c count now).outQ = c.outQ ∧
    (shrinkOnRto P c count now).outDupCnt = c.outDupCnt ∧
    (shrinkOnRto P c count now).swnd = c.swnd := by
  unfold shrinkOnRto
  simp only
  split_ifs <;> exact ⟨rfl, rfl, rfl⟩

/-- What `retransmit` returns, in terms of its scan: the count is the scan's
count, and the connection is the scan's with the queue stored, `outDupCnt`
advanced and the congestion response applied. -/
theorem retransmit_eq (P : Params) (c c1 : Conn) (now rest count : Int)
    (h : retransmit P c now = .ok (rest, count, c1)) :
    ∃ cs qs rs,
      retransmitScan P now c.rto c.outQ c 0 0 c.cwnd = .ok (cs, qs, rs, count) ∧
      c1 = shrinkOnRto P { cs with outQ := qs, outDupCnt := wrapI64 (cs.outDupCnt + count) }
        count now := by
  unfold retransmit at h
  split at h
  · simp at h
  · rename_i cs qs rs ks hs
    simp only at h
    have hq := (shrinkOnRto_outQ P
      { cs with outQ := qs, outDupCnt := wrapI64 (cs.outDupCnt + ks) } ks now).1
    by_cases hlen : (shrinkOnRto P
        { cs with outQ := qs, outDupCnt := wrapI64 (cs.outDupCnt + ks) } ks now).outQ.length > 0
    · rw [if_pos hlen] at h
      simp only [Except.ok.injEq, Prod.mk.injEq] at h
      obtain ⟨_, h2, h3⟩ := h
      subst h2
      exact ⟨cs, qs, rs, hs, h3.symm⟩
    · rw [if_neg hlen] at h
      simp only [Except.ok.injEq, Prod.mk.injEq] at h
      obtain ⟨_, h2, h3⟩ := h
      -- the queue is empty, so the scan counted nothing
      have hl := retransmitScan_length P now c.rto c.outQ c 0 0 c.cwnd cs qs rs ks hs
      rw [hq] at hlen
      simp only at hlen
      have hq0 : c.outQ = [] := by
        apply List.length_eq_zero.mp; omega
      rw [hq0] at hs
      simp only [retransmitScan, Except.ok.injEq, Prod.mk.injEq] at hs
      have hk : ks = 0 := hs.2.2.2.symm
      subst hk
      subst h2
      rw [hq0]
      exact ⟨cs, qs, rs, by simp [retransmitScan, hs.1, hs.2.1, hs.2.2.1], h3.symm⟩

theorem internalWrite_wire (P : Params) (c c1 : Conn) (item item1 : QNode) (now : Int)
    (h : internalWrite P c item now = .ok (c1, item1)) :
    c1.wire.map Prod.fst =
      c.wire.map Prod.fst ++ ([item].filter canSend).map (fun n => sentNode n now) ∧
    (canSend item = false → item.flag.fin = true) := by
  unfold internalWrite at h
  unfold canSend sentNode
  by_cases hn : item.scnt ≥ 20
  · rw [if_pos hn] at h
    by_cases hf : item.flag.fin = true
    · rw [if_pos hf] at h
      simp only [Except.ok.injEq, Prod.mk.injEq] at h
      rw [← h.1]
      have : ¬ item.scnt < 20 := by omega
      simp [fakeShutdown, this, hf]
    · rw [if_neg hf] at h; simp at h
  · rw [if_neg hn] at h
    simp only [Except.ok.injEq, Prod.mk.injEq] at h
    rw [← h.1]
    have : item.scnt < 20 := by omega
    simp [this, hn]

theorem retransmitScan_count (P : Params) (now rto : Int) :
    ∀ (q : List QNode) (c : Conn) (rest count limit : Int) (c1 : Conn) (q1 : List QNode)
      (r k : Int),
      retransmitScan P now rto q c rest count limit = .ok (c1, q1, r, k) →
      0 ≤ count → count + q.length < 2 ^ 31 → limit < 2 ^ 31 →
      k = count + ((rtoVisited now rto q limit).countP (rtoDue now rto) : Nat) ∧
      c1.wire.map Prod.fst = c.wire.map Prod.fst ++
        ((rtoVisited now rto q limit).filter (fun n => rtoDue now rto n && canSend n)).map
          (fun n => sentNode n now) ∧
      (∀ n ∈ rtoVisited now rto q limit, rtoDue now rto n = true → canSend n = false →
        n.flag.fin = true) := by
  intro q
  induction q with
  | nil =>
    intro c rest count limit c1 q1 r k h h0 hlen hlim
    simp only [retransmitScan, Except.ok.injEq, Prod.mk.injEq] at h
    obtain ⟨hc, _, _, hk⟩ := h
    subst hc; subst hk
    simp [rtoVisited]
  | cons item q ih =>
    intro c rest count limit c1 q1 r k h h0 hlen hlim
    unfold retransmitScan at h
    simp only [List.length_cons, Nat.cast_add, Nat.cast_one] at hlen
    by_cases hl : limit > 0
    · rw [if_pos hl] at h
      by_cases hs : item.scnt ≠ -1
      · rw [if_pos hs] at h
        dsimp only at h
        by_cases hd : wrapI64 (now - item.sent) > rto
        · rw [if_pos hd] at h
          have hdue : rtoDue now rto item = true := by simp [rtoDue, hs, hd]
          have hvis : rtoVisited now rto (item :: q) limit = item :: rtoVisited now rto q limit := by
            simp [rtoVisited, hl, hd]
          cases hw : internalWrite P c item now with
          | error f => rw [hw] at h; simp at h
          | ok p =>
            obtain ⟨cw, iw⟩ := p
            rw [hw] at h
            dsimp only at h
            obtain ⟨w1, w2⟩ := internalWrite_wire P c cw item iw now hw
            have hk1 : wrapI32 (count + 1) = count + 1 := wrapI32_eq _ (by omega) (by omega)
            rw [hk1] at h
            cases hr : retransmitScan P now rto q cw rest (count + 1) limit with
            | error f => rw [hr] at h; simp at h
            | ok p2 =>
              obtain ⟨c2, q2, r2, k2⟩ := p2
              rw [hr] at h
              simp only [Except.ok.injEq, Prod.mk.injEq] at h
              obtain ⟨hc, _, _, hk⟩ := h
              subst hc; subst hk
              obtain ⟨i1, i2, i3⟩ := ih cw rest (count + 1) limit c2 q2 r2 k2 hr (by omega)
                (by omega) hlim
              rw [hvis]
              refine ⟨?_, ?_, ?_⟩
              · rw [i1, List.countP_cons_of_pos _ _ hdue]
                push_cast; ring
              · rw [i2, w1]
                by_cases hcs : canSend item = true
                · simp [List.filter_cons, hdue, hcs]
                · simp [List.filter_cons, hdue, hcs]
              · intro n hn hnd hnc
                rcases List.mem_cons.mp hn with e | e
                · subst e; exact w2 hnc
                · exact i3 n e hnd hnc
        · rw [if_neg hd] at h
          have hdue : rtoDue now rto item = false := by simp [rtoDue, hs, hd]
          have hvis : rtoVisited now rto (item :: q) limit =
              item :: rtoVisited now rto q (limit - 1) := by
            simp [rtoVisited, hl, hd, hs]
          have hk1 : wrapI32 (limit - 1) = limit - 1 := wrapI32_eq _ (by omega) (by omega)
          rw [hk1] at h
          split at h
          · simp at h
          · rename_i c2 q2 r2 k2 hr
            simp only [Except.ok.injEq, Prod.mk.injEq] at h
            obtain ⟨hc, _, _, hk⟩ := h
            subst hc; subst hk
            obtain ⟨i1, i2, i3⟩ := ih c _ count (limit - 1) c2 q2 r2 k2 hr h0 (by omega)
              (by omega)
            rw [hvis]
            refine ⟨?_, ?_, ?_⟩
            · rw [i1, List.countP_cons_of_neg _ _ (by simp [hdue])]
            · rw [i2]; simp [List.filter_cons, hdue]
            · intro n hn hnd hnc
              rcases List.mem_cons.mp hn with e | e
              · subst e; rw [hdue] at hnd; simp at hnd
              · exact i3 n e hnd hnc
      · rw [if_neg hs] at h
        have hdue : rtoDue now rto item = false := by simp [rtoDue, hs]
        have hvis : rtoVisited now rto (item :: q) limit = item :: rtoVisited now rto q limit := by
          simp [rtoVisited, hl, hs]
        split at h
        · simp at h
        · rename_i c2 q2 r2 k2 hr
          simp only [Except.ok.injEq, Prod.mk.injEq] at h
          obtain ⟨hc, _, _, hk⟩ := h
          subst hc; subst hk
          obtain ⟨i1, i2, i3⟩ := ih c rest count limit c2 q2 r2 k2 hr h0 (by omega) hlim
          rw [hvis]
          refine ⟨?_, ?_, ?_⟩
          · rw [i1, List.countP_cons_of_neg _ _ (by simp [hdue])]
          · rw [i2]; simp [List.filter_cons, hdue]
          · intro n hn hnd hnc
            rcases List.mem_cons.mp hn with e | e
            · subst e; rw [hdue] at hnd; simp at hnd
            · exact i3 n e hnd hnc
    · rw [if_neg hl] at h
      simp only [Except.ok.injEq, Prod.mk.injEq] at h
      obtain ⟨hc, _, _, hk⟩ := h
      subst hc; subst hk
      simp [rtoVisited, hl]
/-- The congestion response of `retransmit` in terms of the count it returns. -/
theorem retransmit_response (P : Params) (c c1 : Conn) (now rest count : Int)
    (h : retransmit P c now = .ok (rest, count, c1)) (hc : 0 ≤ c.cwnd) :
    (P.superRetransmit = false →
      ((P.fastRetransmitEnabled = true ∧ count > c.cwnd / 8) ∨
       (P.fastRetransmitEnabled = false ∧ count > c.cwnd / 4)) →
      c1.cwnd = max (c.cwnd / 2) (c.swnd / 2) ∧ c1.lastShrink = now) ∧
    (¬ (P.superRetransmit = false ∧
        ((P.fastRetransmitEnabled = true ∧ count > c.cwnd / 8) ∨
         (P.fastRetransmitEnabled = false ∧ count > c.cwnd / 4))) →
      c1.cwnd = c.cwnd ∧ c1.lastShrink = c.lastShrink) ∧
    c1.outDupCnt = wrapI64 (c.outDupCnt + count) ∧
    (-2 ^ 63 ≤ c.outDupCnt + count → c.outDupCnt + count < 2 ^ 63 →
      c1.outDupCnt = c.outDupCnt + count) := by
  obtain ⟨cs, qs, rs, hs, hc1⟩ := retransmit_eq P c c1 now rest count h
  obtain ⟨w1, w2, _, w4, w5⟩ := retransmitScan_window P now c.rto c.outQ c 0 0 c.cwnd cs qs rs count hs
  have h8 : shr c.cwnd 3 = c.cwnd / 8 := by unfold shr; norm_num
  have h4 : shr c.cwnd 2 = c.cwnd / 4 := by unfold shr; norm_num
  have hmax : maxI (shr c.cwnd 1) (shr c.swnd 1) = max (c.cwnd / 2) (c.swnd / 2) := by
    unfold maxI shr
    norm_num
    split_ifs with hgt
    · rw [max_eq_left (le_of_lt hgt)]
    · rw [max_eq_right (not_lt.mp hgt)]
  have hdup : c1.outDupCnt = wrapI64 (c.outDupCnt + count) := by
    rw [hc1, (shrinkOnRto_outQ P _ count now).2.1]
    simp only [w5]
  refine ⟨?_, ?_, hdup, ?_⟩
  · intro hsup hthr
    have hpos : count > 0 := by
      rcases hthr with ⟨_, hgt⟩ | ⟨_, hgt⟩ <;> omega
    have hcond : ((P.fastRetransmitEnabled && decide (count > shr c.cwnd 3)) ||
        (!P.fastRetransmitEnabled && decide (count > shr c.cwnd 2))) = true := by
      rcases hthr with ⟨hf, hgt⟩ | ⟨hf, hgt⟩
      · simp [hf, h8, hgt]
      · simp [hf, h4, hgt]
    rw [hc1]
    unfold shrinkOnRto
    simp only [w1, w2, hpos, if_true, hcond, hsup, Bool.not_false, Bool.and_self, hmax]
    exact ⟨trivial, trivial⟩
  · intro hno
    rw [hc1]
    unfold shrinkOnRto
    simp only [w1, w2]
    by_cases hpos : count > 0
    · rw [if_pos hpos]
      have hcond : (((P.fastRetransmitEnabled && decide (count > shr c.cwnd 3)) ||
          (!P.fastRetransmitEnabled && decide (count > shr c.cwnd 2))) &&
          !P.superRetransmit) = false := by
        by_contra hne
        have ht := (Bool.not_eq_false _).mp hne
        simp only [Bool.and_eq_true, Bool.or_eq_true, decide_eq_true_eq, Bool.not_eq_true',
          h8, h4] at ht
        exact hno ⟨ht.2, ht.1⟩
      rw [hcond]
      simp [w1, w4]
    · rw [if_neg hpos]
      simp [w1, w4]
  · intro hlo hhi
    rw [hdup]
    unfold wrapI64 wrapI; norm_num; omega

theorem rtoVisited_subset (now rto : Int) :
    ∀ (q : List QNode) (limit : Int) (n : QNode), n ∈ rtoVisited now rto q limit → n ∈ q := by
  intro q
  induction q with
  | nil => intro limit n h; simp [rtoVisited] at h
  | cons item q ih =>
    intro limit n h
    unfold rtoVisited at h
    by_cases hl : limit > 0
    · rw [if_pos hl] at h
      rcases List.mem_cons.mp h with e | e
      · rw [e]; exact List.mem_cons_self _ _
      · exact List.mem_cons_of_mem _ (ih _ n e)
    · rw [if_neg hl] at h; simp at h

theorem shrinkOnRto_wire (P : Params) (c : Conn) (count now : Int) :
    (shrinkOnRto P c count now).wire = c.wire := by
  unfold shrinkOnRto
  simp only
  split_ifs <;> rfl

/-- C15 as amended (RTO congestion response).  On a state with
`0 <= cwnd < 2^31` and fewer than `2^31` queued nodes, the `count` that one call
of the RTO scan `retransmit` returns is the number of visited nodes that are
unacknowledged and past their RTO, each of which is handed to `internalWrite`;
those with a send count below 20 are re-sent (one `WriteToUDP` each, in queue
order), so `count` is the number of packets re-sent whenever every queued send
count is below 20, and a FIN node at the bound is counted without being re-sent.
With super-retransmit off, if `count > cwnd/8` (fast retransmit enabled) or
`count > cwnd/4` (fast retransmit disabled), then `cwnd' = max(cwnd/2, swnd/2)`
and `lastShrink = now`; in every other case `cwnd` and `lastShrink` are
unchanged.  In all cases `outDupCnt` grows by `count` (as a Go `int`). -/
theorem retransmit_congestion_response (P : Params) (c c1 : Conn) (now rest count : Int)
    (h : retransmit P c now = .ok (rest, count, c1)) (hc : 0 ≤ c.cwnd)
    (hc31 : c.cwnd < 2 ^ 31) (hq : (c.outQ.length : Int) < 2 ^ 31) :
    count = ((rtoVisited now c.rto c.outQ c.cwnd).countP (rtoDue now c.rto) : Nat) ∧
    c1.wire.map Prod.fst = c.wire.map Prod.fst ++
      ((rtoVisited now c.rto c.outQ c.cwnd).filter
        (fun n => rtoDue now c.rto n && canSend n)).map (fun n => sentNode n now) ∧
    ((∀ n ∈ c.outQ, n.scnt < 20) → (c1.wire.length : Int) = c.wire.length + count) ∧
    (P.superRetransmit = false →
      ((P.fastRetransmitEnabled = true ∧ count > c.cwnd / 8) ∨
       (P.fastRetransmitEnabled = false ∧ count > c.cwnd / 4)) →
      c1.cwnd = max (c.cwnd / 2) (c.swnd / 2) ∧ c1.lastShrink = now) ∧
    (¬ (P.superRetransmit = false ∧
        ((P.fastRetransmitEnabled = true ∧ count > c.cwnd / 8) ∨
         (P.fastRetransmitEnabled = false ∧ count > c.cwnd / 4))) →
      c1.cwnd = c.cwnd ∧ c1.lastShrink = c.lastShrink) ∧
    c1.outDupCnt = wrapI64 (c.outDupCnt + count) ∧
    (-2 ^ 63 ≤ c.outDupCnt + count → c.outDupCnt + count < 2 ^ 63 →
      c1.outDupCnt = c.outDupCnt + count) := by
  obtain ⟨r1, r2, r3, r4⟩ := retransmit_response P c c1 now rest count h hc
  obtain ⟨cs, qs, rs, hs, hc1⟩ := retransmit_eq P c c1 now rest count h
  obtain ⟨k1, k2, _⟩ := retransmitScan_count P now c.rto c.outQ c 0 0 c.cwnd cs qs rs count hs
    (le_refl _) (by omega) hc31
  have hw : c1.wire = cs.wire := by rw [hc1, shrinkOnRto_wire]
  rw [zero_add] at k1
  refine ⟨k1, by rw [hw]; exact k2, ?_, r1, r2, r3, r4⟩
  intro hall
  have hfil : (rtoVisited now c.rto c.outQ c.cwnd).filter
      (fun n => rtoDue now c.rto n && canSend n) =
      (rtoVisited now c.rto c.outQ c.cwnd).filter (rtoDue now c.rto) := by
    apply List.filter_congr
    intro n hn
    have : canSend n = true := by
      simp [canSend, hall n (rtoVisited_subset now c.rto c.outQ c.cwnd n hn)]
    rw [this, Bool.and_true]
  have hlen := congrArg List.length k2
  rw [hfil] at hlen
  simp only [List.length_map, List.length_append, ← List.countP_eq_length_filter] at hlen
  rw [hw, k1, hlen]
  push_cast; rfl

/-- A run of `retransmit_congestion_response`: window 4 of 8, one packet past
its RTO, fast retransmit enabled. -/
theorem retransmit_congestion_response_witness :
    ∃ rest c1,
      retransmit ⟨1400, 2, 3, 5, 2097152, true, false, 0, 0⟩
        { outQ := [{ seq := 1, scnt := 1 }], outPending := 1, cwnd := 4, swnd := 8 } 100
        = .ok (rest, 1, c1) ∧
      (c1.wire.length : Int) = (0 : Nat) + 1 ∧
      c1.cwnd = max (4 / 2) (8 / 2) ∧ c1.lastShrink = 100 ∧ c1.outDupCnt = wrapI64 (0 + 1) := by
  refine ⟨_, _, rfl, ?_⟩
  have h := retransmit_congestion_response ⟨1400, 2, 3, 5, 2097152, true, false, 0, 0⟩
    { outQ := [{ seq := 1, scnt := 1 }], outPending := 1, cwnd := 4, swnd := 8 } _ 100 _ 1 rfl
    (by decide) (by decide) (by decide)
  exact ⟨h.2.2.1 (by decide), (h.2.2.2.1 rfl (Or.inl ⟨rfl, by decide⟩)).1,
    (h.2.2.2.1 rfl (Or.inl ⟨rfl, by decide⟩)).2, h.2.2.2.2.2.1⟩

/-- C15 as stated fails: a FIN node with `scnt = 20` past its RTO is handed to
`internalWrite`, which returns before `WriteToUDP`; no packet is re-sent, yet
`retransmit` returns `count = 1`, sets `lastShrink = now`, halves the window and
advances `outDupCnt`. -/
theorem retransmit_counts_unsent_fin :
    (retransmit ⟨1400, 2, 3, 5, 2097152, true, false, 0, 0⟩
      { outQ := [{ seq := 1, scnt := 20, flag := { fin := true } }], outPending := 1, cwnd := 4, swnd := 4 }
      100).toOption.map
      (fun r => (r.2.1, r.2.2.wire.length, r.2.2.lastShrink, r.2.2.cwnd, r.2.2.outDupCnt)) =
      some (1, 0, 100, 2, 1) := by
  decide

/-! ## C16: fast retransmit budget and eligibility -/

theorem internalWrite_node (P : Params) (c c1 : Conn) (item item1 : QNode) (now : Int)
    (h : internalWrite P c item now = .ok (c1, item1)) :
    item1 = sentNode item now ∧ c1.fRCnt = c.fRCnt ∧ c1.outDupCnt = c.outDupCnt := by
  unfold internalWrite at h
  unfold sentNode
  by_cases hn : item.scnt ≥ 20
  · rw [if_pos hn] at h
    by_cases hf : item.flag.fin = true
    · rw [if_pos hf] at h
      simp only [Except.ok.injEq, Prod.mk.injEq] at h
      rw [if_pos hn, ← h.1, ← h.2]
      simp [fakeShutdown]
    · rw [if_neg hf] at h; simp at h
  · rw [if_neg hn] at h
    simp only [Except.ok.injEq, Prod.mk.injEq] at h
    rw [if_neg hn, ← h.1, ← h.2]
    simp

theorem wrapI64_add_wrapI64 (a b : Int) : wrapI64 (wrapI64 a + b) = wrapI64 (a + b) := by
  unfold wrapI64 wrapI; norm_num; omega

theorem wrapI64_idem (a : Int) : wrapI64 (wrapI64 a) = wrapI64 a := by
  unfold wrapI64 wrapI; norm_num

theorem retransmit2Scan_spec (P : Params) (now fRtt limit : Int) (hlim : limit < 2 ^ 31) :
    ∀ (q : List QNode) (c : Conn) (k0 : Int) (c1 : Conn) (q1 : List QNode) (k : Int),
      0 ≤ k0 → k0 ≤ limit → wrapI64 c.fRCnt = c.fRCnt →
      retransmit2Scan P now fRtt limit q c k0 = .ok (c1, q1, k) →
      k = min limit (k0 + (q.countP (fun n =>
            decide (n.scnt ≠ -1 ∧ n.miss ≥ 3 ∧ wrapI64 (now - n.sent) ≥ fRtt)) : Nat)) ∧
      (∀ (i : Nat) (n : QNode), q[i]? = some n →
        q1[i]? = some
          (if decide (n.scnt ≠ -1 ∧ n.miss ≥ 3 ∧ wrapI64 (now - n.sent) ≥ fRtt) = true ∧
              k0 + ((q.take i).countP (fun n =>
                decide (n.scnt ≠ -1 ∧ n.miss ≥ 3 ∧ wrapI64 (now - n.sent) ≥ fRtt)) : Nat) < limit
           then sentNode n now else n)) ∧
      c1.fRCnt = wrapI64 (c.fRCnt + (k - k0)) ∧ c1.outDupCnt = c.outDupCnt := by
  intro q
  induction q with
  | nil =>
    intro c k0 c1 q1 k h0 hle hty h
    simp only [retransmit2Scan, Except.ok.injEq, Prod.mk.injEq] at h
    obtain ⟨hc, hq, hk⟩ := h
    subst hc; subst hq; subst hk
    refine ⟨?_, ?_, ?_, rfl⟩
    · simp [min_eq_right hle]
    · intro i n hi; simp at hi
    · simp only [sub_self, add_zero]; exact hty.symm
  | cons item q ih =>
    intro c k0 c1 q1 k h0 hle hty h
    unfold retransmit2Scan at h
    by_cases hlt : k0 < limit
    · rw [if_pos hlt] at h
      by_cases hel : item.scnt ≠ -1 ∧ item.miss ≥ 3 ∧ wrapI64 (now - item.sent) ≥ fRtt
      · rw [if_pos hel] at h
        cases hw : internalWrite P c item now with
        | error f => rw [hw] at h; simp at h
        | ok p =>
          obtain ⟨cw, iw⟩ := p
          rw [hw] at h
          dsimp only at h
          obtain ⟨hn1, hn2, hn3⟩ := internalWrite_node P c cw item iw now hw
          have hk1 : wrapI32 (k0 + 1) = k0 + 1 := wrapI32_eq _ (by omega) (by omega)
          rw [hk1] at h
          cases hr : retransmit2Scan P now fRtt limit q
              { cw with fRCnt := wrapI64 (cw.fRCnt + 1) } (k0 + 1) with
          | error f => rw [hr] at h; simp at h
          | ok p2 =>
            obtain ⟨c3, q3, k3⟩ := p2
            rw [hr] at h
            simp only [Except.ok.injEq, Prod.mk.injEq] at h
            obtain ⟨hc, hq, hk⟩ := h
            subst hc; subst hq; subst hk
            obtain ⟨i1, i2, i3, i4⟩ := ih { cw with fRCnt := wrapI64 (cw.fRCnt + 1) } (k0 + 1)
              c3 q3 k3 (by omega) (by omega) (wrapI64_idem _) hr
            refine ⟨?_, ?_, ?_, ?_⟩
            · rw [i1, List.countP_cons_of_pos _ _ (by simpa using hel)]
              push_cast; congr 1; omega
            · intro i n hi
              cases i with
              | zero =>
                simp only [List.getElem?_cons_zero, Option.some.injEq] at hi
                subst hi
                simp only [List.getElem?_cons_zero, List.take_zero, List.countP_nil]
                rw [if_pos ⟨by simpa using hel, by simpa using hlt⟩, hn1]
              | succ j =>
                simp only [List.getElem?_cons_succ] at hi
                simp only [List.getElem?_cons_succ, List.take_succ_cons]
                rw [i2 j n hi]
                have hcp := List.countP_cons_of_pos (fun n =>
                    decide (n.scnt ≠ -1 ∧ n.miss ≥ 3 ∧ wrapI64 (now - n.sent) ≥ fRtt))
                    (List.take j q) (a := item) (by simpa using hel)
                have e : ∀ x : Int, k0 + 1 + x = k0 + (x + 1) := fun x => by ring
                simp only [hcp, Nat.cast_add, Nat.cast_one, e]
            · rw [i3]
              simp only
              rw [hn2, wrapI64_add_wrapI64]
              congr 1; ring
            · rw [i4]; exact hn3
      · rw [if_neg hel] at h
        cases hr : retransmit2Scan P now fRtt limit q c k0 with
        | error f => rw [hr] at h; simp at h
        | ok p2 =>
          obtain ⟨c3, q3, k3⟩ := p2
          rw [hr] at h
          simp only [Except.ok.injEq, Prod.mk.injEq] at h
          obtain ⟨hc, hq, hk⟩ := h
          subst hc; subst hq; subst hk
          obtain ⟨i1, i2, i3, i4⟩ := ih c k0 c3 q3 k3 h0 hle hty hr
          refine ⟨?_, ?_, i3, i4⟩
          · rw [i1, List.countP_cons_of_neg _ _ (by simpa using hel)]
          · intro i n hi
            cases i with
            | zero =>
              simp only [List.getElem?_cons_zero, Option.some.injEq] at hi
              subst hi
              simp only [List.getElem?_cons_zero]
              rw [if_neg (fun hh => hel (by simpa using hh.1))]
            | succ j =>
              simp only [List.getElem?_cons_succ] at hi
              simp only [List.getElem?_cons_succ, List.take_succ_cons]
              rw [i2 j n hi]
              have hcp := List.countP_cons_of_neg (fun n =>
                  decide (n.scnt ≠ -1 ∧ n.miss ≥ 3 ∧ wrapI64 (now - n.sent) ≥ fRtt))
                  (List.take j q) (a := item) (by simpa using hel)
              simp only [hcp]
    · rw [if_neg hlt] at h
      simp only [Except.ok.injEq, Prod.mk.injEq] at h
      obtain ⟨hc, hq, hk⟩ := h
      subst hc; subst hq; subst hk
      have hkl : k0 = limit := by omega
      refine ⟨?_, ?_, ?_, rfl⟩
      · rw [min_eq_left (by omega)]; exact hkl
      · intro i n hi
        rw [hi, if_neg (fun hh => by omega)]
      · simp only [sub_self, add_zero]; exact hty.symm

theorem frLimit_bounds (c : Conn) : 8 ≤ frLimit c ∧ frLimit c < 2 ^ 31 := by
  unfold frLimit maxI minI
  have h := wrapI32_ge (c.cwnd - c.outPending)
  have h2 : wrapI32 (c.cwnd - c.outPending) < 2 ^ 31 := by
    unfold wrapI32 wrapI; norm_num; omega
  split_ifs <;> constructor <;> omega

theorem retransmit2Scan_wire (P : Params) (now fRtt limit : Int) (hlim : limit < 2 ^ 31) :
    ∀ (q : List QNode) (c : Conn) (k0 : Int) (c1 : Conn) (q1 : List QNode) (k : Int),
      0 ≤ k0 → k0 ≤ limit →
      retransmit2Scan P now fRtt limit q c k0 = .ok (c1, q1, k) →
      c1.wire.map Prod.fst = c.wire.map Prod.fst ++
        (((q.filter (fun n =>
            decide (n.scnt ≠ -1 ∧ n.miss ≥ 3 ∧ wrapI64 (now - n.sent) ≥ fRtt))).take
          (limit - k0).toNat).filter canSend).map (fun n => sentNode n now) ∧
      (∀ n ∈ (q.filter (fun n =>
            decide (n.scnt ≠ -1 ∧ n.miss ≥ 3 ∧ wrapI64 (now - n.sent) ≥ fRtt))).take
          (limit - k0).toNat, canSend n = false → n.flag.fin = true) := by
  intro q
  induction q with
  | nil =>
    intro c k0 c1 q1 k h0 hle h
    simp only [retransmit2Scan, Except.ok.injEq, Prod.mk.injEq] at h
    obtain ⟨hc, _, _⟩ := h
    subst hc
    simp
  | cons item q ih =>
    intro c k0 c1 q1 k h0 hle h
    unfold retransmit2Scan at h
    by_cases hlt : k0 < limit
    · rw [if_pos hlt] at h
      by_cases hel : item.scnt ≠ -1 ∧ item.miss ≥ 3 ∧ wrapI64 (now - item.sent) ≥ fRtt
      · rw [if_pos hel] at h
        have hfil : (item :: q).filter (fun n =>
            decide (n.scnt ≠ -1 ∧ n.miss ≥ 3 ∧ wrapI64 (now - n.sent) ≥ fRtt)) =
            item :: q.filter (fun n =>
            decide (n.scnt ≠ -1 ∧ n.miss ≥ 3 ∧ wrapI64 (now - n.sent) ≥ fRtt)) :=
          List.filter_cons_of_pos (by simpa using hel)
        have hnat : (limit - k0).toNat = (limit - (k0 + 1)).toNat + 1 := by omega
        cases hw : internalWrite P c item now with
        | error f => rw [hw] at h; simp at h
        | ok p =>
          obtain ⟨cw, iw⟩ := p
          rw [hw] at h
          dsimp only at h
          obtain ⟨w1, w2⟩ := internalWrite_wire P c cw item iw now hw
          have hk1 : wrapI32 (k0 + 1) = k0 + 1 := wrapI32_eq _ (by omega) (by omega)
          rw [hk1] at h
          cases hr : retransmit2Scan P now fRtt limit q
              { cw with fRCnt := wrapI64 (cw.fRCnt + 1) } (k0 + 1) with
          | error f => rw [hr] at h; simp at h
          | ok p2 =>
            obtain ⟨c3, q3, k3⟩ := p2
            rw [hr] at h
            simp only [Except.ok.injEq, Prod.mk.injEq] at h
            obtain ⟨hc, _, _⟩ := h
            subst hc
            obtain ⟨i1, i2⟩ := ih { cw with fRCnt := wrapI64 (cw.fRCnt + 1) } (k0 + 1)
              c3 q3 k3 (by omega) (by omega) hr
            rw [hfil, hnat, List.take_succ_cons]
            refine ⟨?_, ?_⟩
            · rw [i1]
              simp only
              rw [w1]
              by_cases hcs : canSend item = true
              · simp [List.filter_cons, hcs]
              · simp [List.filter_cons, hcs]
            · intro n hn hnc
              rcases List.mem_cons.mp hn with e | e
              · subst e; exact w2 hnc
              · exact i2 n e hnc
      · rw [if_neg hel] at h
        have hfil : (item :: q).filter (fun n =>
            decide (n.scnt ≠ -1 ∧ n.miss ≥ 3 ∧ wrapI64 (now - n.sent) ≥ fRtt)) =
            q.filter (fun n =>
            decide (n.scnt ≠ -1 ∧ n.miss ≥ 3 ∧ wrapI64 (now - n.sent) ≥ fRtt)) :=
          List.filter_cons_of_neg (by simpa using hel)
        cases hr : retransmit2Scan P now fRtt limit q c k0 with
        | error f => rw [hr] at h; simp at h
        | ok p2 =>
          obtain ⟨c3, q3, k3⟩ := p2
          rw [hr] at h
          simp only [Except.ok.injEq, Prod.mk.injEq] at h
          obtain ⟨hc, _, _⟩ := h
          subst hc
          rw [hfil]
          exact ih c k0 c3 q3 k3 h0 hle hr
    · rw [if_neg hlt] at h
      simp only [Except.ok.injEq, Prod.mk.injEq] at h
      obtain ⟨hc, _, _⟩ := h
      subst hc
      have hnat : (limit - k0).toNat = 0 := by omega
      rw [hnat]
      simp

/-- C16 as amended (fast retransmit budget and eligibility).  Whenever a call of
`retransmit2` returns, its count is `min(limit, number of eligible nodes)` with
`limit = max(min(cwnd - outPending, cwnd/4), 8)`.  The node at position `i` of
the queue is handed to `internalWrite` if and only if it is eligible
(`scnt != -1`, `miss >= 3`, `now - sent >= rtt + max(rtt/16, 1)`) and fewer than
`limit` eligible nodes precede it; every other node is left as it is.  The
handed nodes are the first `limit` eligible ones, `count` of them; each is
re-sent (one `WriteToUDP`, in queue order) unless its send count has reached 20,
where a FIN node is left as it is and not re-sent.  So at most `count <= limit`
packets are re-sent, exactly `count` when every queued send count is below 20;
`fRCnt` and `outDupCnt` each grow by the returned count. -/
theorem retransmit2_budget_and_eligibility (P : Params) (c c1 : Conn) (now count : Int)
    (hty : wrapI64 c.fRCnt = c.fRCnt)
    (h : retransmit2 P c now = .ok (count, c1)) :
    frLimit c = max (min (wrapI32 (c.cwnd - c.outPending)) (c.cwnd / 4)) 8 ∧
    count = min (frLimit c) (c.outQ.countP (frEligible c now) : Nat) ∧
    count ≤ frLimit c ∧
    (∀ (i : Nat) (n : QNode), c.outQ[i]? = some n →
      c1.outQ[i]? = some
        (if frEligible c now n = true ∧
            (((c.outQ.take i).countP (frEligible c now) : Nat) : Int) < frLimit c
         then sentNode n now else n)) ∧
    count = (((c.outQ.filter (frEligible c now)).take (frLimit c).toNat).length : Nat) ∧
    c1.wire.map Prod.fst = c.wire.map Prod.fst ++
      (((c.outQ.filter (frEligible c now)).take (frLimit c).toNat).filter canSend).map
        (fun n => sentNode n now) ∧
    (c1.wire.length : Int) ≤ c.wire.length + count ∧
    ((∀ n ∈ c.outQ, n.scnt < 20) → (c1.wire.length : Int) = c.wire.length + count) ∧
    c1.fRCnt = wrapI64 (c.fRCnt + count) ∧
    c1.outDupCnt = wrapI64 (c.outDupCnt + count) := by
  obtain ⟨hl8, hl31⟩ := frLimit_bounds c
  unfold retransmit2 at h
  simp only at h
  cases hs : retransmit2Scan P now (wrapI64 (c.rtt + maxI (shr c.rtt 4) 1))
      (maxI (minI (wrapI32 (c.cwnd - c.outPending)) (shr c.cwnd 2)) 8) c.outQ c 0 with
  | error f => rw [hs] at h; simp at h
  | ok p =>
    obtain ⟨cs, qs, ks⟩ := p
    rw [hs] at h
    simp only [Except.ok.injEq, Prod.mk.injEq] at h
    obtain ⟨hk, hc1⟩ := h
    subst hk
    have hl0 : (0 : Int) ≤ maxI (minI (wrapI32 (c.cwnd - c.outPending)) (shr c.cwnd 2)) 8 := by
      have := hl8; unfold frLimit at this; omega
    obtain ⟨s1, s2, s3, s4⟩ := retransmit2Scan_spec P now
      (wrapI64 (c.rtt + maxI (shr c.rtt 4) 1))
      (maxI (minI (wrapI32 (c.cwnd - c.outPending)) (shr c.cwnd 2)) 8) hl31
      c.outQ c 0 cs qs ks (le_refl _) hl0 hty hs
    obtain ⟨v1, _⟩ := retransmit2Scan_wire P now
      (wrapI64 (c.rtt + maxI (shr c.rtt 4) 1))
      (maxI (minI (wrapI32 (c.cwnd - c.outPending)) (shr c.cwnd 2)) 8) hl31
      c.outQ c 0 cs qs ks (le_refl _) hl0 hs
    have hpred : (fun n : QNode => decide (n.scnt ≠ -1 ∧ n.miss ≥ 3 ∧
        wrapI64 (now - n.sent) ≥ wrapI64 (c.rtt + maxI (shr c.rtt 4) 1))) = frEligible c now := by
      funext n; rfl
    have hlim : maxI (minI (wrapI32 (c.cwnd - c.outPending)) (shr c.cwnd 2)) 8 = frLimit c := rfl
    rw [hpred] at s1 s2 v1
    rw [hlim] at s1 s2 v1
    simp only [zero_add, sub_zero] at s1 s2 s3 v1
    have hw : c1.wire = cs.wire := by rw [← hc1]
    have hcnt : ks = (((c.outQ.filter (frEligible c now)).take (frLimit c).toNat).length : Nat) := by
      rw [s1, List.length_take, ← List.countP_eq_length_filter]
      have h8 : (0 : Int) ≤ frLimit c := by omega
      omega
    have hlen := congrArg List.length v1
    simp only [List.length_map, List.length_append] at hlen
    refine ⟨?_, s1, ?_, ?_, hcnt, by rw [hw]; exact v1, ?_, ?_, ?_, ?_⟩
    · unfold frLimit maxI minI shr
      norm_num
      split_ifs <;> simp_all <;> omega
    · rw [s1]; exact min_le_left _ _
    · intro i n hi
      rw [← hc1]
      exact s2 i n hi
    · rw [hw, hlen, hcnt]
      have := List.length_filter_le canSend
        ((c.outQ.filter (frEligible c now)).take (frLimit c).toNat)
      push_cast
      omega
    · intro hall
      have hfil : ((c.outQ.filter (frEligible c now)).take (frLimit c).toNat).filter canSend =
          (c.outQ.filter (frEligible c now)).take (frLimit c).toNat := by
        apply List.filter_eq_self.mpr
        intro n hn
        have hm : n ∈ c.outQ := List.mem_of_mem_filter (List.mem_of_mem_take hn)
        simp [canSend, hall n hm]
      rw [hfil] at hlen
      rw [hw, hlen, hcnt]
      push_cast; rfl
    · rw [← hc1]; simp only; exact s3
    · rw [← hc1]; simp only; rw [s4]

/-- A run of `retransmit2_budget_and_eligibility`: two nodes in flight, the
first reported missing three times and old enough, the second not. -/
theorem retransmit2_budget_and_eligibility_witness :
    ∃ c1,
      retransmit2 ⟨1400, 2, 3, 5, 2097152, true, false, 0, 0⟩
        { outQ := [{ seq := 1, scnt := 1, miss := 3 }, { seq := 2, scnt := 1 }], outPending := 2 }
        100 = .ok (1, c1) ∧
      c1.outQ[0]? = some (sentNode { seq := 1, scnt := 1, miss := 3 } 100) ∧
      c1.outQ[1]? = some { seq := 2, scnt := 1 } ∧
      c1.wire.map Prod.fst = [sentNode { seq := 1, scnt := 1, miss := 3 } 100] ∧
      c1.fRCnt = wrapI64 (0 + 1) ∧ c1.outDupCnt = wrapI64 (0 + 1) := by
  refine ⟨_, rfl, ?_⟩
  have h := retransmit2_budget_and_eligibility ⟨1400, 2, 3, 5, 2097152, true, false, 0, 0⟩
    { outQ := [{ seq := 1, scnt := 1, miss := 3 }, { seq := 2, scnt := 1 }], outPending := 2 }
    _ 100 1 rfl rfl
  exact ⟨h.2.2.2.1 0 _ rfl, h.2.2.2.1 1 _ rfl, h.2.2.2.2.2.1, h.2.2.2.2.2.2.2.2.1,
    h.2.2.2.2.2.2.2.2.2⟩

/-- C16 as stated fails.  (1) Nine eligible nodes (`miss = 3`, sent 100 ms ago,
`rtt = 8`) with `cwnd = 1`, `outPending = 9`, so `limit = 8`: `retransmit2`
re-sends the first eight and returns 8; the ninth is eligible and is not
re-sent.  (2) An eligible FIN node with `scnt = 20`: `internalWrite` returns
before `WriteToUDP`, so nothing is re-sent, while the count, `fRCnt` and
`outDupCnt` are 1. -/
theorem retransmit2_skips_eligible_node :
    frLimit { outQ := (List.range 9).map (fun i => { seq := i + 1, scnt := 1, miss := 3 }), outPending := 9 } = 8 ∧
    (retransmit2 ⟨1400, 2, 3, 5, 2097152, true, false, 0, 0⟩
      { outQ := (List.range 9).map (fun i => { seq := i + 1, scnt := 1, miss := 3 }), outPending := 9 }
      100).toOption.map (fun r => (r.1, r.2.outQ.map (fun n => (n.seq, n.scnt, n.sent)))) =
      some (8, [(1, 2, 100), (2, 2, 100), (3, 2, 100), (4, 2, 100), (5, 2, 100), (6, 2, 100),
                (7, 2, 100), (8, 2, 100), (9, 1, 0)]) ∧
    frEligible { outQ := (List.range 9).map (fun i => { seq := i + 1, scnt := 1, miss := 3 }), outPending := 9 }
      100 { seq := 9, scnt := 1, miss := 3 } = true ∧
    frEligible { outQ := [{ seq := 1, scnt := 20, miss := 3, flag := { fin := true } }], outPending := 1 }
      100 { seq := 1, scnt := 20, miss := 3, flag := { fin := true } } = true ∧
    (retransmit2 ⟨1400, 2, 3, 5, 2097152, true, false, 0, 0⟩
      { outQ := [{ seq := 1, scnt := 20, miss := 3, flag := { fin := true } }], outPending := 1 }
      100).toOption.map
      (fun r => (r.1, r.2.wire.length, r.2.fRCnt, r.2.outDupCnt)) = some (1, 0, 1, 1) ∧
    (retransmit2 ⟨1400, 2, 3, 5, 2097152, true, false, 0, 0⟩
      { outQ := [{ seq := 1, scnt := 20, miss := 3, flag := { fin := true } }], outPending := 1 }
      100).toOption.map
      (fun r => r.2.outQ.map (fun n => (n.seq, n.scnt, n.sent))) = some [(1, 20, 0)] := by
  refine ⟨by decide, by decide, by decide, by decide, by decide, by decide⟩

/-! ## C18: the RTO congestion response and the size of the window -/

/-- C18 as amended.  For every state with `cwnd >= 0` and `swnd >= 0`, whenever
the RTO scan `retransmit` returns, `cwnd' <= max(cwnd, swnd/2)`, hence
`cwnd' <= cwnd` whenever `swnd/2 <= cwnd`.  When the shrink branch is taken
(super-retransmit off and `count > cwnd/8` with fast retransmit, `count > cwnd/4`
without) `cwnd' = max(cwnd/2, swnd/2)` and `lastShrink = now`: the window is
raised to `swnd/2` when `cwnd < swnd/2`.  When it is not taken `cwnd` is
unchanged. -/
theorem retransmit_cwnd_bound (P : Params) (c c1 : Conn) (now rest count : Int)
    (h : retransmit P c now = .ok (rest, count, c1)) (hc : 0 ≤ c.cwnd) (hs : 0 ≤ c.swnd) :
    c1.cwnd ≤ max c.cwnd (c.swnd / 2) ∧
    (c.swnd / 2 ≤ c.cwnd → c1.cwnd ≤ c.cwnd) ∧
    (P.superRetransmit = false →
      ((P.fastRetransmitEnabled = true ∧ count > c.cwnd / 8) ∨
       (P.fastRetransmitEnabled = false ∧ count > c.cwnd / 4)) →
      c1.cwnd = max (c.cwnd / 2) (c.swnd / 2) ∧ c1.lastShrink = now ∧
      (c.cwnd < c.swnd / 2 → c.cwnd < c1.cwnd) ∧
      (c.swnd / 2 ≤ c.cwnd → c1.cwnd ≤ c.cwnd)) ∧
    (¬ (P.superRetransmit = false ∧
        ((P.fastRetransmitEnabled = true ∧ count > c.cwnd / 8) ∨
         (P.fastRetransmitEnabled = false ∧ count > c.cwnd / 4))) →
      c1.cwnd = c.cwnd) := by
  obtain ⟨r1, r2, _, _⟩ := retransmit_response P c c1 now rest count h hc
  have key : c1.cwnd = c.cwnd ∨ c1.cwnd = max (c.cwnd / 2) (c.swnd / 2) := by
    by_cases hb : P.superRetransmit = false ∧
        ((P.fastRetransmitEnabled = true ∧ count > c.cwnd / 8) ∨
         (P.fastRetransmitEnabled = false ∧ count > c.cwnd / 4))
    · exact Or.inr (r1 hb.1 hb.2).1
    · exact Or.inl (r2 hb).1
  refine ⟨?_, ?_, ?_, ?_⟩
  · rcases key with e | e <;> rw [e] <;> omega
  · intro hle
    rcases key with e | e
    · rw [e]
    · rw [e]; omega
  · intro hsup hthr
    obtain ⟨e, l⟩ := r1 hsup hthr
    refine ⟨e, l, ?_, ?_⟩
    · intro hlt; rw [e]; omega
    · intro hle; rw [e]; omega
  · intro hno
    exact (r2 hno).1

/-- A run of `retransmit_cwnd_bound` through the shrink branch: window 8 of 8,
two packets past their RTO (`count = 2 > 8 >> 3`); the window is halved to 4. -/
theorem retransmit_cwnd_bound_witness :
    ∃ rest c1,
      retransmit ⟨1400, 2, 3, 5, 2097152, true, false, 0, 0⟩
        { outQ := [{ seq := 1, scnt := 1 }, { seq := 2, scnt := 1 }], outPending := 2, cwnd := 8, swnd := 8 }
        100 = .ok (rest, 2, c1) ∧
      c1.cwnd = max (8 / 2) (8 / 2) ∧ c1.lastShrink = 100 ∧ c1.cwnd ≤ 8 := by
  refine ⟨_, _, rfl, ?_⟩
  have h := (retransmit_cwnd_bound ⟨1400, 2, 3, 5, 2097152, true, false, 0, 0⟩
    { outQ := [{ seq := 1, scnt := 1 }, { seq := 2, scnt := 1 }], outPending := 2, cwnd := 8, swnd := 8 }
    _ 100 _ 2 rfl (by decide) (by decide)).2.2.1 rfl (Or.inl ⟨rfl, by decide⟩)
  exact ⟨h.1, h.2.1, h.2.2.2 (by decide)⟩

/-- C18 as stated fails: with `cwnd = 2`, `swnd = 100` and one packet past its
RTO, `count = 1 > cwnd >> 3 = 0`, the shrink branch is taken and sets
`cwnd = max(2 >> 1, 100 >> 1) = 50`. -/
theorem retransmit_enlarges_cwnd :
    ∃ rest c1,
      retransmit ⟨1400, 2, 3, 5, 2097152, true, false, 0, 0⟩
        { outQ := [{ seq := 1, scnt := 1 }], outPending := 1, cwnd := 2, swnd := 100, rto := 30 }
        100 = .ok (rest, 1, c1) ∧
      c1.cwnd = 50 ∧ c1.lastShrink = 100 ∧ ¬ (c1.cwnd ≤ 2) := by
  refine ⟨_, _, rfl, rfl, rfl, by decide⟩

/-! ## C19: window growth -/

theorem ackHit_growth_step (c : Conn) (deleted now : Int)
    (h2 : 2 ≤ c.cwnd) (hle : c.cwnd ≤ c.swnd) (hs30 : c.swnd < 2 ^ 30) (hm : c.missed = 0)
    (ht : wrapI64 (now - c.lastShrink) > c.rtt) :
    (ackHit c deleted 0 now).cwnd = min (c.cwnd + c.cwnd / 2) c.swnd ∧
    (ackHit c deleted 0 now).missed = 0 ∧ (ackHit c deleted 0 now).swnd = c.swnd ∧
    (ackHit c deleted 0 now).lastShrink = c.lastShrink ∧
    (ackHit c deleted 0 now).rtt = c.rtt := by
  obtain ⟨f1, f2, f3, _⟩ := ackHit_fields c deleted 0 now
  obtain ⟨u1, _, u3, _⟩ := ackHit_unchanged c deleted 0 now
  have hmm : (if (0 : Int) ≥ c.missed then 0 else shr (wrapI32 (c.missed + 0)) 1) = 0 := by
    rw [hm]; simp
  have hg : wrapI32 (c.cwnd + shr c.cwnd 1) = c.cwnd + c.cwnd / 2 := by
    have : shr c.cwnd 1 = c.cwnd / 2 := by unfold shr; norm_num
    rw [this]; apply wrapI32_eq <;> omega
  refine ⟨?_, ?_, f1, u3, u1⟩
  · rw [f3, hmm, hg]
    by_cases hlt : c.cwnd < c.swnd
    · simp only [hlt, ht, and_self, if_true, add_zero]
      by_cases hgt : c.cwnd + c.cwnd / 2 > c.swnd
      · rw [if_pos hgt, min_eq_right (by omega)]; apply wrapI32_eq <;> omega
      · rw [if_neg hgt, min_eq_left (by omega)]; apply wrapI32_eq <;> omega
    · have heq : c.cwnd = c.swnd := by omega
      simp only [hlt, false_and, if_false, add_zero]
      rw [if_neg (by omega), min_eq_right (by omega), heq]
      apply wrapI32_eq <;> omega
  · rw [f2, hmm]

theorem ackHitRun_growth : ∀ (l : List (Int × Int)) (c : Conn),
    2 ≤ c.cwnd → c.cwnd ≤ c.swnd → c.swnd < 2 ^ 30 → c.missed = 0 →
    (∀ p ∈ l, wrapI64 (p.2 - c.lastShrink) > c.rtt) →
    (ackHitRun l c).cwnd ≤ c.swnd ∧ min (c.cwnd + l.length) c.swnd ≤ (ackHitRun l c).cwnd := by
  intro l
  induction l with
  | nil =>
    intro c h2 hle _ _ _
    simp only [ackHitRun, List.length_nil, Nat.cast_zero, add_zero]
    exact ⟨hle, min_le_left _ _⟩
  | cons p l ih =>
    intro c h2 hle hs30 hm ht
    obtain ⟨d, now⟩ := p
    obtain ⟨g1, g2, g3, g4, g5⟩ := ackHit_growth_step c d now h2 hle hs30 hm
      (ht (d, now) (List.mem_cons_self _ _))
    have hc2 : 2 ≤ (ackHit c d 0 now).cwnd := by rw [g1]; exact le_min (by omega) (by omega)
    have hcle : (ackHit c d 0 now).cwnd ≤ (ackHit c d 0 now).swnd := by
      rw [g1, g3]; exact min_le_right _ _
    have hrec := ih (ackHit c d 0 now) hc2 hcle (by rw [g3]; exact hs30) g2
      (by intro q hq; rw [g4, g5]; exact ht q (List.mem_cons_of_mem _ hq))
    rw [g3] at hrec
    simp only [ackHitRun, List.length_cons, Nat.cast_add, Nat.cast_one]
    rw [g1] at hrec
    have hl : (0 : Int) ≤ (l.length : Int) := Int.ofNat_nonneg _
    refine ⟨hrec.1, ?_⟩
    omega

/-- C19 as amended.  For every state with `2 <= cwnd < swnd < 2^30`, smoothed
`missed = 0` and `now - lastShrink > rtt` (in int64), every call
`ackHit(deleted, 0)` strictly increases the congestion window, to
`min(cwnd + cwnd/2, swnd)`; and any run of at least `swnd - cwnd` such calls
raises `cwnd` to exactly `swnd`. -/
theorem ackHit_growth_progress (c : Conn) (deleted now : Int)
    (h2 : 2 ≤ c.cwnd) (hlt : c.cwnd < c.swnd) (hs30 : c.swnd < 2 ^ 30) (hm : c.missed = 0)
    (ht : wrapI64 (now - c.lastShrink) > c.rtt) :
    (ackHit c deleted 0 now).cwnd > c.cwnd ∧
    (ackHit c deleted 0 now).cwnd = min (c.cwnd + c.cwnd / 2) c.swnd ∧
    ∀ l : List (Int × Int), (∀ p ∈ l, wrapI64 (p.2 - c.lastShrink) > c.rtt) →
      c.swnd - c.cwnd ≤ l.length → (ackHitRun l c).cwnd = c.swnd := by
  obtain ⟨g1, _⟩ := ackHit_growth_step c deleted now h2 (le_of_lt hlt) hs30 hm ht
  refine ⟨?_, g1, ?_⟩
  · rw [g1]; omega
  · intro l hl hlen
    obtain ⟨r1, r2⟩ := ackHitRun_growth l c h2 (le_of_lt hlt) hs30 hm hl
    omega

/-- A run of `ackHit_growth_progress`: from `cwnd = 2`, `swnd = 10` one call gives
`cwnd = 3`, and eight calls give `cwnd = 10`. -/
theorem ackHit_growth_progress_witness :
    (ackHit { cwnd := 2, swnd := 10, rtt := 8 } 1 0 100).cwnd > 2 ∧
    (ackHit { cwnd := 2, swnd := 10, rtt := 8 } 1 0 100).cwnd = 3 ∧
    (ackHitRun (List.replicate 8 (1, 100)) { cwnd := 2, swnd := 10, rtt := 8 }).cwnd = 10 := by
  have h := ackHit_growth_progress { cwnd := 2, swnd := 10, rtt := 8 } 1 100
    (by decide) (by decide) (by decide) rfl (by decide)
  refine ⟨h.1, ?_, ?_⟩
  · rw [h.2.1]; decide
  · exact h.2.2 (List.replicate 8 (1, 100))
      (by intro p hp; rw [List.eq_of_mem_replicate hp]; decide) (by decide)

/-- C19 as stated fails at `cwnd = 1`: the increment is `cwnd >> 1 = 0`, so with
`swnd = 10`, `missed = 0` and `now - lastShrink = 100 > rtt = 8` the call
`ackHit(1, 0)` leaves `cwnd = 1`, and so does every run of such calls. -/
theorem ackHit_stuck_at_one :
    (1 : Int) ≤ ({ cwnd := 1, swnd := 10, rtt := 8 } : Conn).cwnd ∧
    ({ cwnd := 1, swnd := 10, rtt := 8 } : Conn).cwnd <
      ({ cwnd := 1, swnd := 10, rtt := 8 } : Conn).swnd ∧
    (100 : Int) - ({ cwnd := 1, swnd := 10, rtt := 8 } : Conn).lastShrink >
      ({ cwnd := 1, swnd := 10, rtt := 8 } : Conn).rtt ∧
    ({ cwnd := 1, swnd := 10, rtt := 8 } : Conn).missed = 0 ∧
    (ackHit { cwnd := 1, swnd := 10, rtt := 8 } 1 0 100).cwnd = 1 ∧
    ¬ ((ackHit { cwnd := 1, swnd := 10, rtt := 8 } 1 0 100).cwnd > 1) ∧
    (ackHitRun [(1, 100), (1, 200), (1, 300)] { cwnd := 1, swnd := 10, rtt := 8 }).cwnd = 1 := by
  refine ⟨by decide, by decide, by decide, rfl, by decide, by decide, by decide⟩

/-! ## C20: the byte count of a failed Write -/

theorem payloadBytes_append (a b : List QNode) :
    payloadBytes (a ++ b) = payloadBytes a + payloadBytes b := by
  simp [payloadBytes]

theorem awaitWindow_outQ : ∀ (buf : List Nat) (c c1 : Conn) (r : Option Err),
    awaitWindow buf c = .ok (r, c1) →
      c1.outQ = c.outQ ∧ c1.wire = c.wire ∧ c1.dest = c.dest := by
  intro buf
  induction buf with
  | nil =>
    intro c c1 r h
    unfold awaitWindow at h
    by_cases h1 : c.outPending ≥ c.cwnd
    · rw [if_pos h1] at h
      by_cases h2 : c.wtmo > 0
      · simp [h2] at h; obtain ⟨_, rfl⟩ := h; simp
      · simp [h2] at h
    · rw [if_neg h1] at h
      simp at h; obtain ⟨_, rfl⟩ := h; simp
  | cons v rest ih =>
    intro c c1 r h
    unfold awaitWindow at h
    by_cases h1 : c.outPending ≥ c.cwnd
    · rw [if_pos h1] at h
      by_cases h2 : c.wtmo > 0
      · by_cases h3 : v = _CLOSE
        · simp [h2, h3] at h; obtain ⟨_, rfl⟩ := h; simp
        · simp [h2, h3] at h
          have := ih _ _ _ h; simpa using this
      · by_cases h3 : v = _CLOSE
        · simp [h2, h3] at h; obtain ⟨_, rfl⟩ := h; simp
        · simp [h2, h3] at h
          have := ih _ _ _ h; simpa using this
    · rw [if_neg h1] at h
      simp at h; obtain ⟨_, rfl⟩ := h; simp

theorem inputAndSend_outQ (P : Params) (c c1 : Conn) (pk : Packet) (now : Int) (r : Option Err)
    (hs : pk.scnt = 0) (h : inputAndSend P c pk now = .ok (r, c1)) :
    (r ≠ none → c1.outQ = c.outQ ∧ c1.wire = c.wire) ∧
    (r = none → ∃ node, c1.outQ = c.outQ ++ [node] ∧ c1.wire = c.wire ++ [(node, c.dest)] ∧
      node.payload = pk.payload) := by
  unfold inputAndSend at h
  by_cases hl : c.outlock = true
  · simp [hl] at h
  · rw [if_neg hl] at h
    cases hw : awaitWindow c.evSend.buf { c with outlock := true } with
    | error f => rw [hw] at h; simp at h
    | ok res =>
      obtain ⟨r0, c0⟩ := res
      obtain ⟨q0, w0, d0⟩ := awaitWindow_outQ _ _ _ _ hw
      simp only at q0 w0 d0
      rw [hw] at h
      cases r0 with
      | some e =>
        simp at h
        obtain ⟨rfl, rfl⟩ := h
        exact ⟨fun _ => ⟨q0, w0⟩, fun hn => by simp at hn⟩
      | none =>
        simp [internalWrite, nodeOf, hs] at h
        obtain ⟨rfl, rfl⟩ := h
        refine ⟨fun hn => absurd rfl hn, fun _ => ?_⟩
        rw [← q0, ← w0, ← d0]
        exact ⟨_, rfl, rfl, rfl⟩

theorem writeLoop_failure (P : Params) (clock : Nat → Int) :
    ∀ (fuel : Nat) (c c1 : Conn) (data : List Nat) (nr i nr1 : Nat) (e : Err),
      writeLoop P clock fuel c data nr i = .ok (nr1, some e, c1) →
      ∃ nodes, c1.outQ = c.outQ ++ nodes ∧ c1.wire.length = c.wire.length + nodes.length ∧
        payloadBytes nodes < data.length ∧
        nr1 = nr + payloadBytes nodes +
          min (P.MSS + P.AH_SIZE - (P.TH_SIZE + P.CH_SIZE)) (data.length - payloadBytes nodes) := by
  intro fuel
  induction fuel with
  | zero =>
    intro c c1 data nr i nr1 e h
    unfold writeLoop at h
    split_ifs at h
    simp at h
  | succ fuel ih =>
    intro c c1 data nr i nr1 e h
    unfold writeLoop at h
    by_cases hpos : data.length > 0
    · rw [if_pos hpos] at h
      by_cases hp1 : P.TH_SIZE + P.CH_SIZE > P.MSS + P.AH_SIZE
      · rw [if_pos hp1] at h; simp at h
      · rw [if_neg hp1] at h
        simp only at h
        by_cases hp2 : P.AH_SIZE +
            min (P.MSS + P.AH_SIZE - (P.TH_SIZE + P.CH_SIZE)) data.length > P.MSS + P.AH_SIZE
        · rw [if_pos hp2] at h; simp at h
        · rw [if_neg hp2] at h
          cases hs : inputAndSend P c
              { flag := F_DATA,
                payload := data.take (min (P.MSS + P.AH_SIZE - (P.TH_SIZE + P.CH_SIZE)) data.length) }
              (clock i) with
          | error f => rw [hs] at h; simp at h
          | ok res =>
            obtain ⟨r0, c0⟩ := res
            obtain ⟨k1, k2⟩ := inputAndSend_outQ P c c0 _ (clock i) r0 rfl hs
            rw [hs] at h
            cases r0 with
            | some e0 =>
              simp at h
              obtain ⟨rfl, _, rfl⟩ := h
              obtain ⟨q, w⟩ := k1 (by simp)
              refine ⟨[], by simp [q], by simp [w], by simpa [payloadBytes] using hpos, ?_⟩
              simp [payloadBytes]
            | none =>
              simp only at h
              obtain ⟨node, q, w, hpay⟩ := k2 rfl
              obtain ⟨nodes, q1, w1, hlt, hnr⟩ := ih _ _ _ _ _ _ _ h
              have hlen : node.payload.length =
                  min (P.MSS + P.AH_SIZE - (P.TH_SIZE + P.CH_SIZE)) data.length := by
                rw [hpay]; simp
              have hpb : payloadBytes (node :: nodes) = node.payload.length + payloadBytes nodes := by
                simp [payloadBytes]
              rw [List.length_drop] at hlt hnr
              refine ⟨node :: nodes, ?_, ?_, ?_, ?_⟩
              · rw [q1, q]; simp
              · rw [w1, w]; simp; omega
              · rw [hpb, hlen]; omega
              · rw [hnr, hpb, hlen]
                have : data.length - min (P.MSS + P.AH_SIZE - (P.TH_SIZE + P.CH_SIZE)) data.length
                    - payloadBytes nodes = data.length -
                    (min (P.MSS + P.AH_SIZE - (P.TH_SIZE + P.CH_SIZE)) data.length
                      + payloadBytes nodes) := by omega
                rw [this]; omega
    · rw [if_neg hpos] at h; simp at h

/-- The byte count of a failed `Write`: whenever `Write` returns an error (the
`IOTimeout` or `EOF` of `inputAndSend`), the returned `nr` is the number of
payload bytes appended to the outbound queue plus the length of the rejected
chunk; it is at most `len(data)`, and it exceeds the appended payload as soon as
a chunk holds at least one byte. -/
theorem Write_failure_count (P : Params) (clock : Nat → Int) (fuel : Nat) (c c1 : Conn)
    (data : List Nat) (nr : Nat) (e : Err)
    (hbody : P.TH_SIZE + P.CH_SIZE < P.MSS + P.AH_SIZE)
    (h : Write P clock fuel c data = .ok (nr, some e, c1)) :
    ∃ nodes, c1.outQ = c.outQ ++ nodes ∧ c1.wire.length = c.wire.length + nodes.length ∧
      payloadBytes nodes < nr ∧ nr ≤ data.length ∧
      nr = payloadBytes nodes +
        min (P.MSS + P.AH_SIZE - (P.TH_SIZE + P.CH_SIZE)) (data.length - payloadBytes nodes) := by
  obtain ⟨nodes, q, w, hlt, hnr⟩ := writeLoop_failure P clock fuel c c1 data 0 0 nr e h
  refine ⟨nodes, q, w, ?_, ?_, ?_⟩ <;> omega


theorem writeLoop_ok_step (P : Params) (clock : Nat → Int) (fuel : Nat) (c c1 : Conn)
    (data : List Nat) (nr i : Nat) (hpos : data.length > 0)
    (hp1 : ¬ P.TH_SIZE + P.CH_SIZE > P.MSS + P.AH_SIZE)
    (hp2 : ¬ P.AH_SIZE + min (P.MSS + P.AH_SIZE - (P.TH_SIZE + P.CH_SIZE)) data.length
      > P.MSS + P.AH_SIZE)
    (hs : inputAndSend P c
      { flag := F_DATA,
        payload := data.take (min (P.MSS + P.AH_SIZE - (P.TH_SIZE + P.CH_SIZE)) data.length) }
      (clock i) = .ok (none, c1)) :
    writeLoop P clock (fuel + 1) c data nr i =
      writeLoop P clock fuel c1
        (data.drop (min (P.MSS + P.AH_SIZE - (P.TH_SIZE + P.CH_SIZE)) data.length))
        (nr + min (P.MSS + P.AH_SIZE - (P.TH_SIZE + P.CH_SIZE)) data.length) (i + 1) := by
  rw [writeLoop, if_pos hpos, if_neg hp1]
  simp only
  rw [if_neg hp2, hs]

theorem writeLoop_err_step (P : Params) (clock : Nat → Int) (fuel : Nat) (c c1 : Conn)
    (data : List Nat) (nr i : Nat) (e : Err) (hpos : data.length > 0)
    (hp1 : ¬ P.TH_SIZE + P.CH_SIZE > P.MSS + P.AH_SIZE)
    (hp2 : ¬ P.AH_SIZE + min (P.MSS + P.AH_SIZE - (P.TH_SIZE + P.CH_SIZE)) data.length
      > P.MSS + P.AH_SIZE)
    (hs : inputAndSend P c
      { flag := F_DATA,
        payload := data.take (min (P.MSS + P.AH_SIZE - (P.TH_SIZE + P.CH_SIZE)) data.length) }
      (clock i) = .ok (some e, c1)) :
    writeLoop P clock (fuel + 1) c data nr i =
      .ok (nr + min (P.MSS + P.AH_SIZE - (P.TH_SIZE + P.CH_SIZE)) data.length, some e, c1) := by
  rw [writeLoop, if_pos hpos, if_neg hp1]
  simp only
  rw [if_neg hp2, hs]

/-- C20, at failing inputs.  `MSS = 4`, window of one packet.
(1) Six bytes, write timeout set: the first chunk of four is queued and sent,
the second is refused with `IOTimeout`; `Write` returns `nr = 6` while the queue
holds one node of four payload bytes and one packet was transmitted.
(2) Window already full: three bytes are refused at once, nothing is appended or
transmitted, and `nr = 3`.  (3) The same with `_CLOSE` waiting in `evSend`:
`EOF` and `nr = 3`. -/
theorem Write_counts_rejected_chunk :
    (Write ⟨4, 2, 3, 5, 0, true, false, 0, 0⟩ (fun _ => 0) 10 { cwnd := 1, wtmo := 50 }
        [1, 2, 3, 4, 5, 6] =
      .ok (6, some Err.IOTimeout,
        { cwnd := 1, outPending := 1, outPkCnt := 1, mySeq := 1, evSWnd := { buf := [VSWND_ACTIVE] }, outQ := [{ seq := 1, flag := F_DATA, scnt := 1, payload := [1, 2, 3, 4] }], wire := [({ seq := 1, flag := F_DATA, scnt := 1, payload := [1, 2, 3, 4] }, true)] }) ∧
      payloadBytes [{ seq := 1, flag := F_DATA, scnt := 1, payload := [1, 2, 3, 4] }] = 4) ∧
    (∃ c1, Write ⟨4, 2, 3, 5, 0, true, false, 0, 0⟩ (fun _ => 0) 10
        { cwnd := 1, outPending := 1, wtmo := 50 } [1, 2, 3] = .ok (3, some Err.IOTimeout, c1) ∧
      c1.outQ = [] ∧ c1.wire = [] ∧ payloadBytes c1.outQ = 0) ∧
    (∃ c1, Write ⟨4, 2, 3, 5, 0, true, false, 0, 0⟩ (fun _ => 0) 10
        { cwnd := 1, outPending := 1, evSend := { buf := [_CLOSE] } } [1, 2, 3]
        = .ok (3, some Err.EOF, c1) ∧
      c1.outQ = [] ∧ c1.wire = [] ∧ payloadBytes c1.outQ = 0) := by
  refine ⟨⟨?_, by decide⟩, ⟨_, rfl, rfl, rfl, rfl⟩, ⟨_, rfl, rfl, rfl, rfl⟩⟩
  have h1 : inputAndSend ⟨4, 2, 3, 5, 0, true, false, 0, 0⟩ { cwnd := 1, wtmo := 50 }
      { flag := F_DATA, payload := [1, 2, 3, 4] } 0 =
      .ok (none, { cwnd := 1, wtmo := 50, outPending := 1, outPkCnt := 1, mySeq := 1, evSWnd := { buf := [VSWND_ACTIVE] }, outQ := [{ seq := 1, flag := F_DATA, scnt := 1, payload := [1, 2, 3, 4] }], wire := [({ seq := 1, flag := F_DATA, scnt := 1, payload := [1, 2, 3, 4] }, true)] }) := rfl
  have h2 : inputAndSend ⟨4, 2, 3, 5, 0, true, false, 0, 0⟩
      { cwnd := 1, wtmo := 50, outPending := 1, outPkCnt := 1, mySeq := 1, evSWnd := { buf := [VSWND_ACTIVE] }, outQ := [{ seq := 1, flag := F_DATA, scnt := 1, payload := [1, 2, 3, 4] }], wire := [({ seq := 1, flag := F_DATA, scnt := 1, payload := [1, 2, 3, 4] }, true)] }
      { flag := F_DATA, payload := [5, 6] } 0 =
      .ok (some Err.IOTimeout, { cwnd := 1, outPending := 1, outPkCnt := 1, mySeq := 1, evSWnd := { buf := [VSWND_ACTIVE] }, outQ := [{ seq := 1, flag := F_DATA, scnt := 1, payload := [1, 2, 3, 4] }], wire := [({ seq := 1, flag := F_DATA, scnt := 1, payload := [1, 2, 3, 4] }, true)] }) := rfl
  have e1 := writeLoop_ok_step ⟨4, 2, 3, 5, 0, true, false, 0, 0⟩ (fun _ => 0) 9
    { cwnd := 1, wtmo := 50 } _ [1, 2, 3, 4, 5, 6] 0 0 (by decide) (by decide) (by decide) h1
  have e2 := writeLoop_err_step ⟨4, 2, 3, 5, 0, true, false, 0, 0⟩ (fun _ => 0) 8 _ _ [5, 6] 4 1
    Err.IOTimeout (by decide) (by decide) (by decide) h2
  simp only [List.length_cons, List.length_nil, List.drop, List.take, Nat.reduceAdd,
    Nat.reduceSub, Nat.reduceLeDiff, min_self, min_eq_left, min_eq_right] at e1 e2
  rw [Write, e1, e2]

end Suft
